import Mathlib

/-!
# PolarPairs: movement and collision core

A shallow embedding of the movement resolver of `PolarPairsController.cpp`
(`checkForSqueeze`, `checkNoSqueezeBlocks`, `slide`, `computeTarget`,
`calculateMovementTargets`, `moveCharacters`, `updateMovement`, the block-breaking
functions), of `loadLevelData`, `checkWinCondition` and the gameplay branch of `update`,
together with the progress store of `LevelManager.cpp`.

Conventions of the embedding:

* `cugl::Vec2` holds two floats, but every position and direction the controller handles
  is integer valued; `Vec2` is a pair of `Int`.
* `_grid[x][y]` is an `int` cell code (0 empty, 1 wall, 2 bear block, 3 penguin block,
  4 bear finish, 5 penguin finish, 6 breakable, 7 invisible, 8 broken/passable).  The grid
  is a function of the two indices; the source only reads it after a bounds check or at a
  character position.
* the `while (true)` loops of `slide` and `computeTarget` take a fuel argument and
  return `none` when it runs out.
* a `float` (the delays and timesteps, in seconds) is the rational it denotes.  The
  subtraction `-=` of the two countdowns (`delay -= timestep`, `_winDelay -= timestep`) is
  `fsub`: the exact difference of the operands read as floats, rounded to IEEE 754 binary32
  (round to nearest, ties to even) by `f32`.  The literals `0.2f` and `0.7f` are
  `f32 (1 / 5)` and `f32 (7 / 10)`.  Infinities and NaN are left out.
* the parsed level file (`LevelData::loadLevel`) and the par values on its lines 14 and 15
  are inputs: a function from level numbers to `LevelData`, and two functions from level
  numbers to `Int`.
* audio, renderer and scene-graph calls have no effect on the simulation state and are left out.
-/

namespace PolarPairs

/-- Integer-valued `cugl::Vec2`. -/
@[ext]
structure Vec2 where
  x : Int
  y : Int
deriving DecidableEq, Repr

instance : Add Vec2 := ⟨fun a b => ⟨a.x + b.x, a.y + b.y⟩⟩

instance : Sub Vec2 := ⟨fun a b => ⟨a.x - b.x, a.y - b.y⟩⟩

instance : Neg Vec2 := ⟨fun a => ⟨-a.x, -a.y⟩⟩

/-- The constant `cugl::Vec2::ZERO`. -/
def Vec2.ZERO : Vec2 := ⟨0, 0⟩

/-- Squared Euclidean length; `length()` is its square root. -/
def Vec2.lengthSquared (v : Vec2) : Int := v.x * v.x + v.y * v.y

/-- The position `k` steps from `p` along `d`. -/
def Vec2.steps (p d : Vec2) (k : Nat) : Vec2 := ⟨p.x + (k : Int) * d.x, p.y + (k : Int) * d.y⟩

/-- The constant `NO_TARGET(-999, -999)`. -/
def NO_TARGET : Vec2 := ⟨-999, -999⟩

/-- The macro `GRID_WIDTH`. -/
def GRID_WIDTH : Int := 7

/-- The macro `GRID_HEIGHT`. -/
def GRID_HEIGHT : Int := 11

/-- The grid `_grid`, indexed `_grid[x][y]`. -/
abbrev Grid := Int → Int → Int

/-- An entry of `_blocksToBreak`. -/
structure BreakableBlockInfo where
  position : Vec2
  delay : ℚ
deriving DecidableEq

/-- An entry of `LevelManager::_levels`. -/
structure LevelInfo where
  levelNumber : Int
  isUnlocked : Bool
  score : Int
deriving DecidableEq, Repr

/-- The simulation state of `PolarPairsController`, with the `_levels` vector of the
`LevelManager` singleton and the two par values `checkWinCondition` reads from lines 14 and
15 of the file of a level, as functions of the level number. -/
structure State where
  grid : Grid
  bearBlocks : List Vec2
  penguinBlocks : List Vec2
  breakableBlocks : List Vec2
  bearFinishBlocks : List Vec2
  penguinFinishBlocks : List Vec2
  polarBearGridPos : Vec2
  penguinGridPos : Vec2
  polarBearPrevPos : Vec2
  penguinPrevPos : Vec2
  polarBearTarget : Vec2
  penguinTarget : Vec2
  moveDirection : Vec2
  isMoving : Bool
  bearMoves : Int
  penguinMoves : Int
  bearFinished : Bool
  penguinFinished : Bool
  simultaneousDestinationReached : Bool
  hasWon : Bool
  currentLevel : Int
  winDelay : ℚ
  winConditionMet : Bool
  blocksToBreak : List BreakableBlockInfo
  squeezeJustOccurred : Bool
  polarBearIsRear : Bool
  bearIsBeingPushed : Bool
  levels : List LevelInfo
  targetBearSteps : Int → Int
  targetSealSteps : Int → Int

/-- Round a nonnegative rational to the nearest natural number, ties to even. -/
def roundEven (a : ℚ) : Nat :=
  let n := ⌊a⌋₊
  let r := a - n
  if r < 1 / 2 then n
  else if 1 / 2 < r then n + 1
  else if n % 2 = 0 then n else n + 1

/-- The number of halvings that bring `a` below 2. -/
def expoUp : Nat → ℚ → Int
  | 0, _ => 0
  | fuel + 1, a => if 2 ≤ a then expoUp fuel (a / 2) + 1 else 0

/-- Minus the number of doublings that bring `a` to 1 or above, at most `fuel` of them. -/
def expoDown : Nat → ℚ → Int
  | 0, _ => 0
  | fuel + 1, a => if a < 1 then expoDown fuel (2 * a) - 1 else 0

/-- The exponent of the binade of a positive rational: the `e` with `2 ^ e ≤ a < 2 ^ (e + 1)`,
but not below the exponent -126 of the subnormal numbers. -/
def binade (a : ℚ) : Int :=
  if 1 ≤ a then expoUp ⌊a⌋₊ a else expoDown 126 a

/-- Rounding of a nonnegative rational to binary32: the nearest multiple of the spacing
`2 ^ (e - 23)` of its binade (24 significant bits), ties to the even significand. -/
def f32abs (a : ℚ) : ℚ :=
  let q : ℚ := 2 ^ (binade a - 23)
  (roundEven (a / q) : ℚ) * q

/-- The value of a rational as a `float`: IEEE 754 binary32, round to nearest, ties to
even.  Overflow to infinity is left out. -/
def f32 (x : ℚ) : ℚ :=
  if x = 0 then 0 else if x < 0 then -f32abs (-x) else f32abs x

/-- The `float` subtraction `a - b`, as in `delay -= timestep`. -/
def fsub (a b : ℚ) : ℚ := f32 (f32 a - f32 b)

/-- The delay `0.2f` every caller passes to `scheduleBlockBreaking`. -/
def BREAK_DELAY : ℚ := f32 (1 / 5)

/-- The delay `0.7f` that `checkWinCondition` stores in `_winDelay`. -/
def WIN_DELAY : ℚ := f32 (7 / 10)

/-- The bounds test `next.x < 0 || next.x >= GRID_WIDTH || next.y < 0 || next.y >= GRID_HEIGHT`. -/
def outOfBounds (p : Vec2) : Prop :=
  p.x < 0 ∨ p.x ≥ GRID_WIDTH ∨ p.y < 0 ∨ p.y ≥ GRID_HEIGHT

instance (p : Vec2) : Decidable (outOfBounds p) := by
  unfold outOfBounds; infer_instance

/-- The loop `for (pos : blocks) if (next.x == pos.x && next.y == pos.y)` that sets
`isFinishBlock`. -/
def finishBlockAt (blocks : List Vec2) (next : Vec2) : Bool :=
  blocks.any (fun pos => decide (next.x = pos.x ∧ next.y = pos.y))

/-- The finish list `slide` and `computeTarget` scan for the sliding character:
`_penguinFinishBlocks` when `isPenguin`, else `_bearFinishBlocks`. -/
def ownFinishBlocks (s : State) (isPenguin : Bool) : List Vec2 :=
  if isPenguin then s.penguinFinishBlocks else s.bearFinishBlocks

/-- `scheduleBlockBreaking` on the list `_blocksToBreak`: append unless the position is
already scheduled. -/
def scheduleBlockBreaking (btb : List BreakableBlockInfo) (x y : Int) (delay : ℚ) :
    List BreakableBlockInfo :=
  if btb.any (fun info => decide (info.position.x = x ∧ info.position.y = y)) then btb
  else btb ++ [⟨⟨x, y⟩, delay⟩]

/-- `checkNoSqueezeBlocks`: is either character on its own lane or finish tile. -/
def checkNoSqueezeBlocks (s : State) : Bool :=
  let bearCell := s.grid s.polarBearGridPos.x s.polarBearGridPos.y
  let penguinCell := s.grid s.penguinGridPos.x s.penguinGridPos.y
  decide (bearCell = 2 ∨ bearCell = 4 ∨ penguinCell = 3 ∨ penguinCell = 5)

/-- The second half of `checkForSqueeze`, from `frontPos` on: is the cell in front of the
front character blocked for it, and is neither character anchored.  Returns the flag and
the state after the side effects (`scheduleBlockBreaking`, `_polarBearIsRear`). -/
def checkFrontBlocked (s : State) (bearInFront : Bool) : Bool × State :=
  let frontPos := if bearInFront then s.polarBearGridPos else s.penguinGridPos
  let frontNext := frontPos + s.moveDirection
  if outOfBounds frontNext then
    if checkNoSqueezeBlocks s then (false, s)
    else (true, { s with polarBearIsRear := !bearInFront })
  else
    let cell := s.grid frontNext.x frontNext.y
    let blocked : Bool :=
      decide ((cell = 1 ∨ cell = 7) ∨ (bearInFront = true ∧ (cell = 3 ∨ cell = 5)) ∨
        (bearInFront = false ∧ (cell = 2 ∨ cell = 4)))
    let s1 : State :=
      if cell = 6 then
        { s with blocksToBreak :=
            scheduleBlockBreaking s.blocksToBreak frontNext.x frontNext.y BREAK_DELAY }
      else s
    let blocked : Bool := if cell = 6 then true else blocked
    if blocked then
      if checkNoSqueezeBlocks s1 then (false, s1)
      else (true, { s1 with polarBearIsRear := !bearInFront })
    else (false, s1)

/-- `checkForSqueeze`: the returned flag and the state after its side effects.
`diff.length() != 1.0f` is the test `lengthSquared ≠ 1` on integer vectors. -/
def checkForSqueeze (s : State) : Bool × State :=
  let diff := s.polarBearGridPos - s.penguinGridPos
  if diff.lengthSquared ≠ 1 then (false, s)
  else
    let isHorizontal : Bool := decide (s.moveDirection.x ≠ 0)
    if (isHorizontal = true ∧ diff.y ≠ 0) ∨ (isHorizontal = false ∧ diff.x ≠ 0) then (false, s)
    else
      let bearInFront : Bool :=
        if isHorizontal then decide (s.moveDirection.x * diff.x > 0)
        else decide (s.moveDirection.y * diff.y > 0)
      checkFrontBlocked s bearInFront

/-- The loop of `slide`, reading the grid and finish lists of `s` and threading
`_blocksToBreak`; `none` when the fuel runs out. -/
def slideLoop (s : State) (isPenguin canBreak : Bool) (direction : Vec2) :
    Nat → Vec2 → List BreakableBlockInfo → Option (Vec2 × List BreakableBlockInfo)
  | 0, _, _ => none
  | fuel + 1, curr, btb =>
    let next := curr + direction
    if outOfBounds next then some (curr, btb)
    else
      let cell := s.grid next.x next.y
      if cell = 1 ∨ cell = 7 then some (curr, btb)
      else if isPenguin = true ∧ (cell = 2 ∨ cell = 4) then some (curr, btb)
      else if isPenguin = false ∧ (cell = 3 ∨ cell = 5) then some (curr, btb)
      else if finishBlockAt (ownFinishBlocks s isPenguin) next = true then some (next, btb)
      else if cell = 6 then
        if canBreak = true then
          slideLoop s isPenguin canBreak direction fuel next
            (scheduleBlockBreaking btb next.x next.y BREAK_DELAY)
        else some (next, btb)
      else slideLoop s isPenguin canBreak direction fuel next btb

/-- `slide`: the target and the state with the updated `_blocksToBreak`. -/
def slide (fuel : Nat) (s : State) (start : Vec2) (isPenguin canBreak : Bool)
    (direction : Vec2) : Option (Vec2 × State) :=
  (slideLoop s isPenguin canBreak direction fuel start s.blocksToBreak).map
    (fun r => (r.1, { s with blocksToBreak := r.2 }))

/-- The `wouldPassThroughOther` test of `computeTarget`. -/
def wouldPassThroughOther (curr next direction otherStart : Vec2) : Bool :=
  if direction.x ≠ 0 then
    decide (next.y = otherStart.y ∧
      ((direction.x > 0 ∧ curr.x < otherStart.x ∧ next.x > otherStart.x) ∨
       (direction.x < 0 ∧ curr.x > otherStart.x ∧ next.x < otherStart.x)))
  else if direction.y ≠ 0 then
    decide (next.x = otherStart.x ∧
      ((direction.y > 0 ∧ curr.y < otherStart.y ∧ next.y > otherStart.y) ∨
       (direction.y < 0 ∧ curr.y > otherStart.y ∧ next.y < otherStart.y)))
  else false

/-- The loop of `computeTarget`; `none` when the fuel runs out. -/
def computeTargetLoop (s : State) (isPenguin canBreak : Bool) (direction otherStart
    otherTarget : Vec2) :
    Nat → Vec2 → List BreakableBlockInfo → Option (Vec2 × List BreakableBlockInfo)
  | 0, _, _ => none
  | fuel + 1, curr, btb =>
    let next := curr + direction
    if outOfBounds next then some (curr, btb)
    else if next = otherTarget ∨ (otherTarget = NO_TARGET ∧ next = otherStart) then
      some (curr, btb)
    else if wouldPassThroughOther curr next direction otherStart = true then some (curr, btb)
    else
      let cell := s.grid next.x next.y
      if cell = 1 ∨ cell = 7 then some (curr, btb)
      else if isPenguin = true ∧ (cell = 2 ∨ cell = 4) then some (curr, btb)
      else if isPenguin = false ∧ (cell = 3 ∨ cell = 5) then some (curr, btb)
      else if finishBlockAt (ownFinishBlocks s isPenguin) next = true then some (next, btb)
      else if cell = 6 then
        if canBreak = true then
          computeTargetLoop s isPenguin canBreak direction otherStart otherTarget fuel next
            (scheduleBlockBreaking btb next.x next.y BREAK_DELAY)
        else some (curr, btb)
      else computeTargetLoop s isPenguin canBreak direction otherStart otherTarget fuel next btb

/-- `computeTarget`: the target and the state with the updated `_blocksToBreak`. -/
def computeTarget (fuel : Nat) (s : State) (start : Vec2) (isPenguin canBreak : Bool)
    (direction otherStart otherTarget : Vec2) : Option (Vec2 × State) :=
  (computeTargetLoop s isPenguin canBreak direction otherStart otherTarget fuel start
    s.blocksToBreak).map (fun r => (r.1, { s with blocksToBreak := r.2 }))

/-- The squeeze branch of `calculateMovementTargets` (after `_squeezeJustOccurred` is set). -/
def calculateSqueezeTargets (fuel : Nat) (s : State) : Option State :=
  let bearFront : Bool := !s.polarBearIsRear
  let s : State := { s with bearIsBeingPushed := bearFront }
  let frontStart := if bearFront then s.polarBearGridPos else s.penguinGridPos
  let rearStart := if bearFront then s.penguinGridPos else s.polarBearGridPos
  let frontIsPenguin : Bool := !bearFront
  match slide fuel s frontStart frontIsPenguin true (-s.moveDirection) with
  | none => none
  | some (frontTarget, s) =>
    match slide fuel s rearStart (!frontIsPenguin) true s.moveDirection with
    | none => none
    | some (rearTarget, s) =>
      if bearFront then
        let s : State := if s.bearFinished = false then { s with polarBearTarget := frontTarget } else s
        let s : State := if s.penguinFinished = false then { s with penguinTarget := rearTarget } else s
        some s
      else
        let s : State := if s.penguinFinished = false then { s with penguinTarget := frontTarget } else s
        let s : State := if s.bearFinished = false then { s with polarBearTarget := rearTarget } else s
        some s

/-- The flag `bearInFront` of the standard branch of `calculateMovementTargets`: pure
coordinate comparison along the axis of `_moveDirection`. -/
def standardBearInFront (s : State) : Bool :=
  if s.moveDirection.x ≠ 0 then
    (if s.moveDirection.x > 0 then decide (s.polarBearGridPos.x > s.penguinGridPos.x)
     else decide (s.polarBearGridPos.x < s.penguinGridPos.x))
  else
    (if s.moveDirection.y > 0 then decide (s.polarBearGridPos.y > s.penguinGridPos.y)
     else decide (s.polarBearGridPos.y < s.penguinGridPos.y))

/-- The standard (non-squeeze) branch of `calculateMovementTargets`, overlap guard included. -/
def calculateStandardTargets (fuel : Nat) (s : State) : Option State :=
  let bearInFront : Bool := standardBearInFront s
  let frontPos := if bearInFront then s.polarBearGridPos else s.penguinGridPos
  let rearPos := if bearInFront then s.penguinGridPos else s.polarBearGridPos
  let frontIsPenguin : Bool := !bearInFront
  let frontResult : Option (Vec2 × State) :=
    if ¬(s.bearFinished = true ∧ bearInFront = true) ∧
        ¬(s.penguinFinished = true ∧ bearInFront = false) then
      (computeTarget fuel s frontPos frontIsPenguin false s.moveDirection rearPos NO_TARGET).map
        (fun r => (r.1, if bearInFront then { r.2 with polarBearTarget := r.1 }
                        else { r.2 with penguinTarget := r.1 }))
    else some (frontPos, s)
  match frontResult with
  | none => none
  | some (frontTarget, s) =>
    let frontCharacterNewPos := frontTarget
    let rearResult : Option State :=
      if ¬(s.bearFinished = true ∧ bearInFront = false) ∧
          ¬(s.penguinFinished = true ∧ bearInFront = true) then
        (computeTarget fuel s rearPos (!frontIsPenguin) false s.moveDirection
          frontCharacterNewPos frontTarget).map
          (fun r => if bearInFront then { r.2 with penguinTarget := r.1 }
                    else { r.2 with polarBearTarget := r.1 })
      else some s
    match rearResult with
    | none => none
    | some s =>
      if s.polarBearTarget = s.penguinTarget then
        if bearInFront then some { s with penguinTarget := s.polarBearTarget - s.moveDirection }
        else some { s with polarBearTarget := s.penguinTarget - s.moveDirection }
      else some s

/-- The first four assignments of `calculateMovementTargets`: store the previous positions
and initialise the targets to the current positions. -/
def initTargets (s : State) : State :=
  { s with
    polarBearPrevPos := s.polarBearGridPos
    penguinPrevPos := s.penguinGridPos
    polarBearTarget := s.polarBearGridPos
    penguinTarget := s.penguinGridPos }

/-- `calculateMovementTargets`.  The travel distances and `_moveProgress`, floats that only
pace the animation, are not part of the state. -/
def calculateMovementTargets (fuel : Nat) (s : State) : Option State :=
  let s : State := initTargets s
  if s.bearFinished = true ∧ s.penguinFinished = true then
    some { s with isMoving := false, moveDirection := Vec2.ZERO }
  else
    let r := checkForSqueeze s
    let s : State := { r.2 with squeezeJustOccurred := r.1 }
    if s.squeezeJustOccurred = true then calculateSqueezeTargets fuel s
    else calculateStandardTargets fuel s

/-- `moveCharacters`: accept a direction when idle and resolve it. -/
def moveCharacters (fuel : Nat) (s : State) (direction : Vec2) : Option State :=
  if s.isMoving = false ∧ direction ≠ Vec2.ZERO then
    calculateMovementTargets fuel { s with moveDirection := direction, isMoving := true }
  else some s

/-- `updateFinishState`: recompute both finished flags from the positions. -/
def updateFinishState (s : State) : State :=
  { s with
    bearFinished := s.bearFinishBlocks.any
      (fun pos => decide (pos.x = s.polarBearGridPos.x ∧ pos.y = s.polarBearGridPos.y))
    penguinFinished := s.penguinFinishBlocks.any
      (fun pos => decide (pos.x = s.penguinGridPos.x ∧ pos.y = s.penguinGridPos.y)) }

/-- `LevelManager::isLevelUnlocked`. -/
def isLevelUnlocked (levels : List LevelInfo) (levelNumber : Int) : Bool :=
  if levelNumber ≤ 0 ∨ levelNumber > levels.length then false
  else match levels[(levelNumber - 1).toNat]? with
    | some l => l.isUnlocked
    | none => false

/-- `LevelManager::getLevelScore`. -/
def getLevelScore (levels : List LevelInfo) (levelNumber : Int) : Int :=
  if levelNumber ≤ 0 ∨ levelNumber > levels.length then 0
  else match levels[(levelNumber - 1).toNat]? with
    | some l => l.score
    | none => 0

/-- Assignment to a field of `_levels[i]`. -/
def modifyLevel (levels : List LevelInfo) (i : Nat) (f : LevelInfo → LevelInfo) :
    List LevelInfo :=
  match levels[i]? with
  | some l => levels.set i (f l)
  | none => levels

/-- `LevelManager::setLevelScore` (the write to the save file left out). -/
def setLevelScore (levels : List LevelInfo) (levelNumber score : Int) : List LevelInfo :=
  if levelNumber ≤ 0 ∨ levelNumber > levels.length then levels
  else
    let score := max 0 (min 3 score)
    if score > getLevelScore levels levelNumber then
      let levels1 := modifyLevel levels (levelNumber - 1).toNat (fun l => { l with score := score })
      if score > 0 ∧ levelNumber < levels1.length then
        modifyLevel levels1 levelNumber.toNat (fun l => { l with isUnlocked := true })
      else levels1
    else levels

/-- `LevelManager::unlockLevel` (the write to the save file left out). -/
def unlockLevel (levels : List LevelInfo) (levelNumber : Int) : List LevelInfo :=
  if levelNumber > 0 ∧ levelNumber ≤ levels.length then
    modifyLevel levels (levelNumber - 1).toNat (fun l => { l with isUnlocked := true })
  else levels

/-- The three additions to `score` in `checkWinCondition`, before the clamp; the par values
read from the file of `_currentLevel` are `targetBearSteps` and `targetSealSteps` at
`currentLevel`. -/
def scorePoints (s : State) : Int :=
  let score : Int := 0
  let score := if s.bearMoves ≤ s.targetBearSteps s.currentLevel then score + 1 else score
  let score := if s.penguinMoves ≤ s.targetSealSteps s.currentLevel then score + 1 else score
  let score := if s.simultaneousDestinationReached = true then score + 1 else score
  score

/-- The score `checkWinCondition` hands to the level manager:
`std::max(0, std::min(score, 3))`. -/
def computeScore (s : State) : Int :=
  max 0 (min (scorePoints s) 3)

/-- `checkWinCondition` (sound playback left out). -/
def checkWinCondition (s : State) : State :=
  if s.bearFinished = true ∧ s.penguinFinished = true ∧ s.winConditionMet = false then
    let score := computeScore s
    let levels := setLevelScore s.levels s.currentLevel score
    let levels := unlockLevel levels (s.currentLevel + 1)
    { s with levels := levels, winConditionMet := true, winDelay := WIN_DELAY }
  else s

/-- The first step of a completed `updateMovement`: each unfinished character takes its
target as grid position. -/
def applyTargets (s : State) : State :=
  let s : State :=
    if s.bearFinished = false then { s with polarBearGridPos := s.polarBearTarget } else s
  if s.penguinFinished = false then { s with penguinGridPos := s.penguinTarget } else s

/-- The simultaneity test of `updateMovement`.  `length() > 0.01f` is the test
`lengthSquared > 0` on integer vectors. -/
def markSimultaneous (bearMoved penguinMoved : Bool) (s : State) : State :=
  if bearMoved = true ∧ penguinMoved = true then
    if (s.polarBearTarget - s.polarBearPrevPos).lengthSquared > 0 ∧
        (s.penguinTarget - s.penguinPrevPos).lengthSquared > 0 then
      { s with simultaneousDestinationReached := true }
    else s
  else s

/-- The move counter increments of `updateMovement`. -/
def countMoves (bearMoved penguinMoved : Bool) (s : State) : State :=
  let s : State := if bearMoved = true then { s with bearMoves := s.bearMoves + 1 } else s
  if penguinMoved = true then { s with penguinMoves := s.penguinMoves + 1 } else s

/-- The reset of the movement state in `updateMovement`. -/
def resetMovement (s : State) : State :=
  { s with isMoving := false, moveDirection := Vec2.ZERO }

/-- `updateMovement`.  The flag `complete` stands for the float test `_moveProgress >= 1.0f`
after the progress has been advanced; the other branch only interpolates the sprites. -/
def updateMovement (complete : Bool) (s : State) : State :=
  if complete = true then
    let s : State := applyTargets s
    let bearMoved : Bool := decide (s.polarBearGridPos ≠ s.polarBearPrevPos)
    let penguinMoved : Bool := decide (s.penguinGridPos ≠ s.penguinPrevPos)
    let s : State := markSimultaneous bearMoved penguinMoved s
    let s : State := countMoves bearMoved penguinMoved s
    let s : State := resetMovement s
    checkWinCondition (updateFinishState s)
  else s

/-- The write `_grid[x][y] = v`. -/
def setCell (g : Grid) (x y v : Int) : Grid :=
  fun i j => if i = x ∧ j = y then v else g i j

/-- `breakBlock`: drop the tile from `_breakableBlocks` and turn the cell into kind 8. -/
def breakBlock (s : State) (x y : Int) : State :=
  { s with
    breakableBlocks := s.breakableBlocks.eraseP (fun pos => decide (pos.x = x ∧ pos.y = y))
    grid := if ¬ outOfBounds ⟨x, y⟩ ∧ s.grid x y = 6 then setCell s.grid x y 8 else s.grid }

/-- The loop of `updateBlockBreaking` over `_blocksToBreak`: the entries kept and the state. -/
def updateBlockBreakingLoop (timestep : ℚ) :
    List BreakableBlockInfo → State → List BreakableBlockInfo × State
  | [], s => ([], s)
  | info :: rest, s =>
    let delay := fsub info.delay timestep
    if delay ≤ 0 then
      let x := info.position.x
      let y := info.position.y
      let s : State := if ¬ outOfBounds ⟨x, y⟩ ∧ s.grid x y = 6 then breakBlock s x y else s
      updateBlockBreakingLoop timestep rest s
    else
      let r := updateBlockBreakingLoop timestep rest s
      ({ info with delay := delay } :: r.1, r.2)

/-- `updateBlockBreaking`. -/
def updateBlockBreaking (timestep : ℚ) (s : State) : State :=
  let r := updateBlockBreakingLoop timestep s.blocksToBreak s
  { r.2 with blocksToBreak := r.1 }

/-- The four unit directions a swipe produces. -/
def isUnitDirection (d : Vec2) : Prop :=
  d = ⟨1, 0⟩ ∨ d = ⟨-1, 0⟩ ∨ d = ⟨0, 1⟩ ∨ d = ⟨0, -1⟩

instance (d : Vec2) : Decidable (isUnitDirection d) := by
  unfold isUnitDirection; infer_instance

/-- A state for examples: the given grid, finish lists and positions, idle, nothing scheduled. -/
def mkState (grid : Grid) (bearFinish penguinFinish : List Vec2) (bear penguin : Vec2) : State :=
  { grid := grid, bearBlocks := [], penguinBlocks := [], breakableBlocks := [],
    bearFinishBlocks := bearFinish, penguinFinishBlocks := penguinFinish,
    polarBearGridPos := bear, penguinGridPos := penguin,
    polarBearPrevPos := bear, penguinPrevPos := penguin,
    polarBearTarget := bear, penguinTarget := penguin,
    moveDirection := Vec2.ZERO, isMoving := false, bearMoves := 0, penguinMoves := 0,
    bearFinished := false, penguinFinished := false, simultaneousDestinationReached := false,
    hasWon := false, currentLevel := 1, winDelay := 0, winConditionMet := false,
    blocksToBreak := [], squeezeJustOccurred := false, polarBearIsRear := false,
    bearIsBeingPushed := false, levels := [], targetBearSteps := fun _ => 0,
    targetSealSteps := fun _ => 0 }

/-- Scenario B grid: empty except a wall at (5,5). -/
def gridB : Grid := fun x y => if x = 5 ∧ y = 5 then 1 else 0

/-- A cell the character (`isPenguin` or the bear) may enter: inside the grid, neither wall
nor invisible, and not a lane or finish tile of the other character. -/
def enterable (s : State) (isPenguin : Bool) (p : Vec2) : Prop :=
  ¬ outOfBounds p ∧ s.grid p.x p.y ≠ 1 ∧ s.grid p.x p.y ≠ 7 ∧
    (isPenguin = true → s.grid p.x p.y ≠ 2 ∧ s.grid p.x p.y ≠ 4) ∧
    (isPenguin = false → s.grid p.x p.y ≠ 3 ∧ s.grid p.x p.y ≠ 5)

instance (s : State) (isPenguin : Bool) (p : Vec2) : Decidable (enterable s isPenguin p) := by
  unfold enterable; infer_instance

/-- A straight walk of `k` steps from `curr` to `t` along `d`: every cell entered satisfies
`ok`, no cell before the last satisfies `halt`, and the walk ended because the last cell
halts or the cell after it is not `ok`. -/
def PathLen (ok halt : Vec2 → Prop) (d curr t : Vec2) (k : Nat) : Prop :=
  t = curr.steps d k ∧ (∀ j, 1 ≤ j → j ≤ k → ok (curr.steps d j)) ∧
    (∀ j, 1 ≤ j → j < k → ¬ halt (curr.steps d j)) ∧ ((1 ≤ k ∧ halt t) ∨ ¬ ok (t + d))

/-- What a loop run of `k` steps from `curr` did to `_blocksToBreak`. -/
def Recorded (s : State) (isPenguin canBreak : Bool) (d curr : Vec2) (k : Nat)
    (btb btb' : List BreakableBlockInfo) : Prop :=
  (∀ e, e ∈ btb → e ∈ btb') ∧
  (∀ e, e ∈ btb' → e ∈ btb ∨ (canBreak = true ∧ e.delay = BREAK_DELAY ∧
      ∃ j, 1 ≤ j ∧ j ≤ k ∧ e.position = curr.steps d j ∧
        s.grid (curr.steps d j).x (curr.steps d j).y = 6)) ∧
  (canBreak = true → ∀ j, 1 ≤ j → j ≤ k → s.grid (curr.steps d j).x (curr.steps d j).y = 6 →
      finishBlockAt (ownFinishBlocks s isPenguin) (curr.steps d j) = false →
      curr.steps d j ∈ btb'.map (fun e => e.position)) ∧
  ((btb.map (fun e => e.position)).Nodup → (btb'.map (fun e => e.position)).Nodup) ∧
  (canBreak = false → btb' = btb)

/-- Cells at which `slide` stops after entering them: an own finish tile, or a breakable
tile when `canBreak` is off. -/
def slideHalt (s : State) (isPenguin canBreak : Bool) (p : Vec2) : Prop :=
  finishBlockAt (ownFinishBlocks s isPenguin) p = true ∨ (canBreak = false ∧ s.grid p.x p.y = 6)

/-- Cells `computeTarget` may enter: not the other character's position or target, no
pass-through, enterable, and not a breakable tile when `canBreak` is off (unless it is an
own finish tile, which is tested first). -/
def targetOk (s : State) (isPenguin canBreak : Bool) (d otherStart otherTarget p : Vec2) :
    Prop :=
  ¬ (p = otherTarget ∨ (otherTarget = NO_TARGET ∧ p = otherStart)) ∧
    wouldPassThroughOther (p - d) p d otherStart = false ∧
    enterable s isPenguin p ∧
    (canBreak = false → s.grid p.x p.y = 6 →
      finishBlockAt (ownFinishBlocks s isPenguin) p = true)

/-- Cells at which `computeTarget` stops after entering them: an own finish tile. -/
def targetHalt (s : State) (isPenguin : Bool) (p : Vec2) : Prop :=
  finishBlockAt (ownFinishBlocks s isPenguin) p = true

/-- The number of further cells inside the grid in front of `p` along the unit direction `d`. -/
def room (d p : Vec2) : Nat :=
  if d.x > 0 then (GRID_WIDTH - 1 - p.x).toNat
  else if d.x < 0 then p.x.toNat
  else if d.y > 0 then (GRID_HEIGHT - 1 - p.y).toNat
  else p.y.toNat

/-- Claim C2 (a), in the words of the specification: the two characters are orthogonally
adjacent (Manhattan distance 1) along the movement axis of `d`. -/
def adjacentAlongAxis (s : State) (d : Vec2) : Prop :=
  (s.polarBearGridPos.x - s.penguinGridPos.x).natAbs +
      (s.polarBearGridPos.y - s.penguinGridPos.y).natAbs = 1 ∧
    (if d.x ≠ 0 then s.polarBearGridPos.y = s.penguinGridPos.y
     else s.polarBearGridPos.x = s.penguinGridPos.x)

instance (s : State) (d : Vec2) : Decidable (adjacentAlongAxis s d) := by
  unfold adjacentAlongAxis; infer_instance

/-- The front character is the bear when the direction points from the penguin to the bear. -/
def bearIsFront (s : State) (d : Vec2) : Prop := s.polarBearGridPos = s.penguinGridPos + d

instance (s : State) (d : Vec2) : Decidable (bearIsFront s d) := by
  unfold bearIsFront; infer_instance

/-- Claim C2 (b), in the words of the specification: the cell `p` is blocked for the
character: off-grid, Wall, Invisible, a lane/finish tile of the other character, or
Breakable. -/
def blockedFor (s : State) (isPenguin : Bool) (p : Vec2) : Prop :=
  outOfBounds p ∨ s.grid p.x p.y = 1 ∨ s.grid p.x p.y = 7 ∨
    (isPenguin = true ∧ (s.grid p.x p.y = 2 ∨ s.grid p.x p.y = 4)) ∨
    (isPenguin = false ∧ (s.grid p.x p.y = 3 ∨ s.grid p.x p.y = 5)) ∨
    s.grid p.x p.y = 6

instance (s : State) (isPenguin : Bool) (p : Vec2) : Decidable (blockedFor s isPenguin p) := by
  unfold blockedFor; infer_instance

/-- Claim C2 (c) negated, in the words of the specification: heavy stands on
HeavyOnly/HeavyFinish or light stands on LightOnly/LightFinish. -/
def anchored (s : State) : Prop :=
  s.grid s.polarBearGridPos.x s.polarBearGridPos.y = 2 ∨
    s.grid s.polarBearGridPos.x s.polarBearGridPos.y = 4 ∨
    s.grid s.penguinGridPos.x s.penguinGridPos.y = 3 ∨
    s.grid s.penguinGridPos.x s.penguinGridPos.y = 5

instance (s : State) : Decidable (anchored s) := by
  unfold anchored; infer_instance

/-- The squeeze condition of the specification: (a) and (b) and (c). -/
def squeezeSpec (s : State) : Prop :=
  adjacentAlongAxis s s.moveDirection ∧
    (if bearIsFront s s.moveDirection
      then blockedFor s false (s.polarBearGridPos + s.moveDirection)
      else blockedFor s true (s.penguinGridPos + s.moveDirection)) ∧
    ¬ anchored s

instance (s : State) : Decidable (squeezeSpec s) := by
  unfold squeezeSpec; infer_instance

/-- The grid position of a character: the penguin's when `isPenguin`, else the bear's. -/
def State.posOf (s : State) (isPenguin : Bool) : Vec2 :=
  if isPenguin then s.penguinGridPos else s.polarBearGridPos

/-- The movement target of a character. -/
def State.targetOf (s : State) (isPenguin : Bool) : Vec2 :=
  if isPenguin then s.penguinTarget else s.polarBearTarget

/-- The finished flag of a character. -/
def State.finishedOf (s : State) (isPenguin : Bool) : Bool :=
  if isPenguin then s.penguinFinished else s.bearFinished

/-- What `calculateMovementTargets` leaves alone, and the previous positions it records. -/
def Frame (s s' : State) : Prop :=
  s'.grid = s.grid ∧ s'.polarBearGridPos = s.polarBearGridPos ∧
    s'.penguinGridPos = s.penguinGridPos ∧ s'.bearFinished = s.bearFinished ∧
    s'.penguinFinished = s.penguinFinished ∧ s'.bearFinishBlocks = s.bearFinishBlocks ∧
    s'.penguinFinishBlocks = s.penguinFinishBlocks ∧ s'.bearMoves = s.bearMoves ∧
    s'.penguinMoves = s.penguinMoves ∧ s'.polarBearPrevPos = s.polarBearGridPos ∧
    s'.penguinPrevPos = s.penguinGridPos ∧ s'.breakableBlocks = s.breakableBlocks

/-- Scenario B: empty grid with a wall at (5,5), heavy at (3,5), light at (4,5), direction
right already stored in `_moveDirection`. -/
def scenarioB : State :=
  { mkState gridB [] [] ⟨3, 5⟩ ⟨4, 5⟩ with moveDirection := ⟨1, 0⟩ }

/-- Scenario A grid: empty except a wall column at x = 6. -/
def gridA : Grid := fun x _ => if x = 6 then 1 else 0

/-- Scenario A: heavy at (1,1), light at (5,1), direction right stored in `_moveDirection`. -/
def scenarioA : State :=
  { mkState gridA [] [] ⟨1, 1⟩ ⟨5, 1⟩ with moveDirection := ⟨1, 0⟩ }

/-- A grid for the finish-tile example: heavy finish tile at (3,1). -/
def gridFinish : Grid := fun x y => if x = 3 ∧ y = 1 then 4 else 0

/-- Example for the finish rule: heavy at (1,1) with its finish tile at (3,1), light at (5,5). -/
def finishExample : State := mkState gridFinish [⟨3, 1⟩] [] ⟨1, 1⟩ ⟨5, 5⟩

/-- Example with a finished heavy character: heavy rests on its finish tile (3,1), light
at (2,1) right behind it. -/
def finishedExample : State :=
  { mkState gridFinish [⟨3, 1⟩] [] ⟨3, 1⟩ ⟨2, 1⟩ with bearFinished := true }

/-- Scenario D grid: empty except a Breakable tile at (2,2). -/
def gridD : Grid := fun x y => if x = 2 ∧ y = 2 then 6 else 0

/-- Scenario D on the standard path: heavy at (2,0), light away at (5,5), idle. -/
def scenarioD : State :=
  { mkState gridD [] [] ⟨2, 0⟩ ⟨5, 5⟩ with breakableBlocks := [⟨2, 2⟩] }

/-- Scenario D as a squeeze: heavy at (2,0), light right above it at (2,1), direction up
stored in `_moveDirection`. -/
def scenarioDSqueeze : State :=
  { mkState gridD [] [] ⟨2, 0⟩ ⟨2, 1⟩ with
    breakableBlocks := [⟨2, 2⟩], moveDirection := ⟨0, 1⟩ }

/-- A level for the blocked-move example: heavy-only lane tile at (3,5), Breakable tile at
(5,5), heavy at (0,5), light at (4,5). -/
def anchoredLevel : State :=
  { mkState (fun x y => if x = 3 ∧ y = 5 then 2 else if x = 5 ∧ y = 5 then 6 else 0)
      [] [] ⟨0, 5⟩ ⟨4, 5⟩ with
    bearBlocks := [⟨3, 5⟩], breakableBlocks := [⟨5, 5⟩] }

/-- The fields of `LevelData` that `loadLevelData` reads (the name is left out). -/
structure LevelData where
  polarBearPos : Vec2
  penguinPos : Vec2
  blocks : List Vec2
  bearBlocks : List Vec2
  penguinBlocks : List Vec2
  breakableBlocks : List Vec2
  bearFinishBlocks : List Vec2
  penguinFinishBlocks : List Vec2
  invisibleBlocks : List Vec2

/-- The lambda `updateGrid` of `loadLevelData`: write `type` at every position of `blocks`
that lies inside the grid. -/
def updateGrid (g : Grid) : List Vec2 → Int → Grid
  | [], _ => g
  | pos :: rest, type =>
    updateGrid
      (if pos.x ≥ 0 ∧ pos.x < GRID_WIDTH ∧ pos.y ≥ 0 ∧ pos.y < GRID_HEIGHT then
        setCell g pos.x pos.y type
      else g) rest type

/-- The grid `loadLevelData` builds: all cells 0, then the seven `updateGrid` calls in the
order of the source. -/
def levelGrid (levelData : LevelData) : Grid :=
  let grid : Grid := fun _ _ => 0
  let grid := updateGrid grid levelData.blocks 1
  let grid := updateGrid grid levelData.invisibleBlocks 7
  let grid := updateGrid grid levelData.bearBlocks 2
  let grid := updateGrid grid levelData.penguinBlocks 3
  let grid := updateGrid grid levelData.bearFinishBlocks 4
  let grid := updateGrid grid levelData.penguinFinishBlocks 5
  updateGrid grid levelData.breakableBlocks 6

/-- `loadLevelData`; `loadLevel` stands for `LevelData::loadLevel(_assets, ·)`, the parsed
level file of a level number.  Renderer and button set-up are left out. -/
def loadLevelData (loadLevel : Int → LevelData) (levelNum : Int) (s : State) : State :=
  let levelData := loadLevel levelNum
  { s with
    currentLevel := levelNum
    isMoving := false
    hasWon := false
    bearMoves := 0
    penguinMoves := 0
    bearFinished := false
    penguinFinished := false
    moveDirection := Vec2.ZERO
    blocksToBreak := []
    polarBearGridPos := levelData.polarBearPos
    penguinGridPos := levelData.penguinPos
    bearBlocks := levelData.bearBlocks
    penguinBlocks := levelData.penguinBlocks
    breakableBlocks := levelData.breakableBlocks
    bearFinishBlocks := levelData.bearFinishBlocks
    penguinFinishBlocks := levelData.penguinFinishBlocks
    grid := levelGrid levelData }

/-- `restartLevel`. -/
def restartLevel (loadLevel : Int → LevelData) (s : State) : State :=
  loadLevelData loadLevel s.currentLevel s

/-- `switchLevel`. -/
def switchLevel (loadLevel : Int → LevelData) (levelNum : Int) (s : State) : State :=
  loadLevelData loadLevel levelNum s

/-- `createMoveCounters` (defined in the source, called from nowhere). -/
def createMoveCounters (s : State) : State :=
  { s with
    bearMoves := 0
    penguinMoves := 0
    bearFinished := false
    penguinFinished := false
    simultaneousDestinationReached := false }

/-- The win-delay countdown at the top of `update`. -/
def updateWinDelay (timestep : ℚ) (s : State) : State :=
  if s.winConditionMet = true then
    let s : State := { s with winDelay := fsub s.winDelay timestep }
    if s.winDelay ≤ 0 then { s with hasWon := true, winConditionMet := false } else s
  else s

/-- `processInput` during gameplay: `swipe` is the direction of the swipe that ended in this
frame, if one did. -/
def processInput (fuel : Nat) (s : State) (swipe : Option Vec2) : Option State :=
  if s.isMoving = true then some s
  else match swipe with
    | some direction => moveCharacters fuel s direction
    | none => some s

/-- `update` in its gameplay branch (not paused, no instruction screen, no fade): the
win-delay countdown, then input or movement, then `updateBlockBreaking`.  `complete` is the
outcome of the float test `_moveProgress >= 1.0f` as in `updateMovement`. -/
def update (fuel : Nat) (timestep : ℚ) (swipe : Option Vec2) (complete : Bool) (s : State) :
    Option State :=
  let s : State := updateWinDelay timestep s
  let r : Option State :=
    if s.isMoving = false then processInput fuel s swipe
    else some (updateMovement complete s)
  r.map (updateBlockBreaking timestep)

/-- What can happen to the controller between two frames: a frame of `update`, or the
release of the restart button. -/
inductive Event where
  | tick (timestep : ℚ) (swipe : Option Vec2) (complete : Bool)
  | restart

/-- One event applied to the controller. -/
def applyEvent (fuel : Nat) (loadLevel : Int → LevelData) (s : State) : Event → Option State
  | Event.tick timestep swipe complete => update fuel timestep swipe complete s
  | Event.restart => some (restartLevel loadLevel s)

/-- A sequence of events applied in order. -/
def runEvents (fuel : Nat) (loadLevel : Int → LevelData) : State → List Event → Option State
  | s, [] => some s
  | s, e :: rest =>
    match applyEvent fuel loadLevel s e with
    | some s' => runEvents fuel loadLevel s' rest
    | none => none

/-- The `_levels` vector after `LevelManager::init` with no save file: twelve levels, the
first unlocked, all scores 0. -/
def initLevels : List LevelInfo :=
  { levelNumber := 1, isUnlocked := true, score := 0 } ::
    (List.range 11).map (fun i => { levelNumber := (i : Int) + 2, isUnlocked := false, score := 0 })

/-- The controller after the constructor and `init`, which ends with
`loadLevelData(_currentLevel)` at level 1; `levels` is the content of the level manager and
`bearPar`, `sealPar` the par values of the level files. -/
def initController (loadLevel : Int → LevelData) (levels : List LevelInfo)
    (bearPar sealPar : Int → Int) : State :=
  loadLevelData loadLevel 1
    { mkState (fun _ _ => 0) [] [] Vec2.ZERO Vec2.ZERO with
      levels := levels
      targetBearSteps := bearPar
      targetSealSteps := sealPar }

/-- The two frames of one move: the swipe is taken in the first, the movement completes in
the second. -/
def moveEvents (direction : Vec2) : List Event :=
  [Event.tick (1 / 10) (some direction) false, Event.tick (1 / 10) none true]

/-- A level for the scoring examples: heavy at (1,0) with its finish at (3,0), light at
(1,2) with its finish at (3,2), nothing else. -/
def twinLevel : LevelData :=
  { polarBearPos := ⟨1, 0⟩, penguinPos := ⟨1, 2⟩, blocks := [], bearBlocks := [],
    penguinBlocks := [], breakableBlocks := [], bearFinishBlocks := [⟨3, 0⟩],
    penguinFinishBlocks := [⟨3, 2⟩], invisibleBlocks := [] }

/-- A level in which the characters can finish one after the other: heavy at (0,0) with its
finish at (6,3), light at (3,5) with its finish at (2,5), a wall at (6,6). -/
def apartLevel : LevelData :=
  { polarBearPos := ⟨0, 0⟩, penguinPos := ⟨3, 5⟩, blocks := [⟨6, 6⟩], bearBlocks := [],
    penguinBlocks := [], breakableBlocks := [], bearFinishBlocks := [⟨6, 3⟩],
    penguinFinishBlocks := [⟨2, 5⟩], invisibleBlocks := [] }

/-- A state at the end of a won attempt scored 0: both characters finished after one move
each, par 0 for both, no joint move, fresh level manager. -/
def zeroScoreWin : State :=
  { mkState (fun _ _ => 0) [⟨6, 3⟩] [⟨2, 5⟩] ⟨6, 3⟩ ⟨2, 5⟩ with
    bearFinished := true, penguinFinished := true, bearMoves := 1, penguinMoves := 1,
    levels := initLevels }

/-- A level with one Breakable tile at (2,2): heavy at (2,0), light at (5,5). -/
def breakLevel : LevelData :=
  { polarBearPos := ⟨2, 0⟩, penguinPos := ⟨5, 5⟩, blocks := [], bearBlocks := [],
    penguinBlocks := [], breakableBlocks := [⟨2, 2⟩], bearFinishBlocks := [],
    penguinFinishBlocks := [], invisibleBlocks := [] }

/-- A state late in an attempt of `breakLevel`: the tile at (2,2) is broken (kind 8, gone
from the breakable list), the heavy character has moved three times and a move is running. -/
def brokenState : State :=
  { mkState (fun x y => if x = 2 ∧ y = 2 then 8 else 0) [] [] ⟨2, 1⟩ ⟨6, 5⟩ with
    bearMoves := 3, penguinMoves := 1, isMoving := true, moveDirection := ⟨0, 1⟩,
    blocksToBreak := [⟨⟨2, 2⟩, 1 / 10⟩] }

/-- Whether `checkWinCondition` passes its guard during the event: the win-pending flag is
off after the countdown at the top of `update` and on at the end of the frame. -/
def scoringFires (fuel : Nat) (s : State) : Event → Bool
  | Event.tick timestep swipe complete =>
    match update fuel timestep swipe complete s with
    | some s' => !(updateWinDelay timestep s).winConditionMet && s'.winConditionMet
    | none => false
  | Event.restart => false

/-- The number of events of the run in which the scoring rule fires. -/
def countFires (fuel : Nat) (loadLevel : Int → LevelData) : State → List Event → Nat
  | _, [] => 0
  | s, e :: rest =>
    match applyEvent fuel loadLevel s e with
    | some s' => (if scoringFires fuel s e then 1 else 0) + countFires fuel loadLevel s' rest
    | none => 0

/-- The break list holds no coordinate twice and lists only in-bounds cells of kind 6. -/
def BreakInv (s : State) : Prop :=
  (s.blocksToBreak.map (fun e => e.position)).Nodup ∧
    ∀ p ∈ s.blocksToBreak.map (fun e => e.position), ¬ outOfBounds p ∧ s.grid p.x p.y = 6

/-- The only change between two grids is kind 6 turning into kind 8. -/
def GridStep (g g' : Grid) : Prop :=
  ∀ x y, g' x y = g x y ∨ (g x y = 6 ∧ g' x y = 8)

/-- The state a completed `updateMovement` hands to `updateFinishState`. -/
def movedState (s : State) : State :=
  resetMovement
    (countMoves (decide ((applyTargets s).polarBearGridPos ≠ (applyTargets s).polarBearPrevPos))
      (decide ((applyTargets s).penguinGridPos ≠ (applyTargets s).penguinPrevPos))
      (markSimultaneous
        (decide ((applyTargets s).polarBearGridPos ≠ (applyTargets s).polarBearPrevPos))
        (decide ((applyTargets s).penguinGridPos ≠ (applyTargets s).penguinPrevPos))
        (applyTargets s)))

/-- Every event of the list is a frame of `update`, none a restart. -/
def allTicks : List Event → Bool
  | [] => true
  | Event.tick _ _ _ :: rest => allTicks rest
  | Event.restart :: _ => false

/-- A finished flag is set only for a character that stands on a tile of its finish list. -/
def FinishInv (s : State) : Prop :=
  (s.bearFinished = true → s.polarBearGridPos ∈ s.bearFinishBlocks) ∧
    (s.penguinFinished = true → s.penguinGridPos ∈ s.penguinFinishBlocks)

/-- A lane example: a heavy-only lane tile at (3,5), heavy at (0,5), light at (0,0). -/
def laneExample : State :=
  { mkState (fun x y => if x = 3 ∧ y = 5 then 2 else 0) [] [] ⟨0, 5⟩ ⟨0, 0⟩ with
    bearBlocks := [⟨3, 5⟩] }

/-- Two grids give the same answers at the cell `p` to every test the resolver makes on a
cell kind: wall or invisible, heavy lane or heavy finish, light lane or light finish,
breakable. -/
def GridAgree (g g' : Grid) (p : Vec2) : Prop :=
  ((g' p.x p.y = 1 ∨ g' p.x p.y = 7) ↔ (g p.x p.y = 1 ∨ g p.x p.y = 7)) ∧
    ((g' p.x p.y = 2 ∨ g' p.x p.y = 4) ↔ (g p.x p.y = 2 ∨ g p.x p.y = 4)) ∧
    ((g' p.x p.y = 3 ∨ g' p.x p.y = 5) ↔ (g p.x p.y = 3 ∨ g p.x p.y = 5)) ∧
    (g' p.x p.y = 6 ↔ g p.x p.y = 6)

/-- The traversal class of a cell kind in the words of the specification: Passable (8)
behaves like Empty (0), Invisible (7) like Wall (1); every other kind is its own class. -/
def traversalClass (c : Int) : Int :=
  if c = 8 then 0 else if c = 7 then 1 else c

/-- Both characters on (0,0) with a wall at (1,0), direction right stored. -/
def sharedCell : State :=
  { mkState (fun x y => if x = 1 ∧ y = 0 then 1 else 0) [] [] ⟨0, 0⟩ ⟨0, 0⟩ with
    moveDirection := ⟨1, 0⟩ }

/-- The direction in which a character slides in a squeeze: the front character (the one
standing one step further along `_moveDirection`) slides against the direction, the rear
character along it. -/
def squeezeDirection (s : State) (isPenguin : Bool) : Vec2 :=
  if isPenguin = (!decide (bearIsFront s s.moveDirection)) then -s.moveDirection
  else s.moveDirection

/-- A level whose file has no start markers: both start positions keep the default (0,0);
a wall at (1,0). -/
def sharedStartLevel : LevelData :=
  { polarBearPos := ⟨0, 0⟩, penguinPos := ⟨0, 0⟩, blocks := [⟨1, 0⟩], bearBlocks := [],
    penguinBlocks := [], breakableBlocks := [], bearFinishBlocks := [],
    penguinFinishBlocks := [], invisibleBlocks := [] }

theorem roundEven_le (a : ℚ) : roundEven a ≤ ⌊a⌋₊ + 1 := by
  unfold roundEven
  simp only []
  split_ifs <;> omega

theorem le_roundEven (a : ℚ) : ⌊a⌋₊ ≤ roundEven a := by
  unfold roundEven
  simp only []
  split_ifs <;> omega

theorem roundEven_natCast (n : Nat) : roundEven (n : ℚ) = n := by
  unfold roundEven
  simp

theorem roundEven_mono {a b : ℚ} (h : a ≤ b) : roundEven a ≤ roundEven b := by
  have hf : ⌊a⌋₊ ≤ ⌊b⌋₊ := Nat.floor_le_floor h
  rcases Nat.lt_or_eq_of_le hf with hlt | heq
  · have h1 := roundEven_le a
    have h2 := le_roundEven b
    omega
  · unfold roundEven
    simp only []
    rw [← heq]
    have hr : a - (⌊a⌋₊ : ℚ) ≤ b - (⌊a⌋₊ : ℚ) := by linarith
    split_ifs <;> first | omega | (exfalso; linarith)

theorem expoUp_spec : ∀ (fuel : Nat) (a : ℚ), 1 ≤ a → a < 2 ^ (fuel + 1) →
    (2 : ℚ) ^ (expoUp fuel a) ≤ a ∧ a < 2 ^ (expoUp fuel a + 1) ∧ 0 ≤ expoUp fuel a := by
  intro fuel
  induction fuel with
  | zero =>
    intro a h1 h2
    simp only [expoUp]
    norm_num at h2 ⊢
    exact ⟨h1, h2⟩
  | succ n ih =>
    intro a h1 h2
    rw [expoUp]
    by_cases h : 2 ≤ a
    · rw [if_pos h]
      have h3 : a / 2 < 2 ^ (n + 1) := by
        rw [pow_succ] at h2
        linarith
      obtain ⟨i1, i2, i3⟩ := ih (a / 2) (by linarith) h3
      refine ⟨?_, ?_, by omega⟩
      · rw [zpow_add_one₀ (by norm_num)]
        linarith
      · rw [zpow_add_one₀ (by norm_num)]
        linarith
    · rw [if_neg h]
      norm_num
      exact ⟨h1, lt_of_not_le h⟩

theorem expoDown_spec : ∀ (fuel : Nat) (a : ℚ), 0 < a → a < 2 →
    a < 2 ^ (expoDown fuel a + 1) ∧
      ((2 : ℚ) ^ (expoDown fuel a) ≤ a ∨ expoDown fuel a = -(fuel : Int)) ∧
      -(fuel : Int) ≤ expoDown fuel a := by
  intro fuel
  induction fuel with
  | zero =>
    intro a h0 h2
    simp only [expoDown]
    norm_num
    exact h2
  | succ n ih =>
    intro a h0 h2
    rw [expoDown]
    by_cases h : a < 1
    · rw [if_pos h]
      obtain ⟨i1, i2, i3⟩ := ih (2 * a) (by linarith) (by linarith)
      refine ⟨?_, ?_, by push_cast; omega⟩
      · rw [sub_add_cancel]
        rw [zpow_add_one₀ (by norm_num)] at i1
        linarith
      · rcases i2 with i2 | i2
        · left
          rw [zpow_sub_one₀ (by norm_num)]
          rw [mul_inv_le_iff₀ (by norm_num)]
          linarith
        · right
          rw [i2]; push_cast; ring
    · rw [if_neg h]
      refine ⟨by norm_num; exact h2, Or.inl (by norm_num; exact le_of_not_lt h), ?_⟩
      have : (0 : Int) ≤ (n : Int) := Int.natCast_nonneg n
      push_cast
      omega

theorem binade_spec (a : ℚ) (h0 : 0 < a) :
    a < 2 ^ (binade a + 1) ∧ ((2 : ℚ) ^ (binade a) ≤ a ∨ binade a = -126) ∧
      -126 ≤ binade a := by
  unfold binade
  by_cases h : 1 ≤ a
  · rw [if_pos h]
    have hlt : a < 2 ^ (⌊a⌋₊ + 1) := by
      have h1 : a < (⌊a⌋₊ : ℚ) + 1 := Nat.lt_floor_add_one a
      have h2 : ((⌊a⌋₊ + 1 : Nat) : ℚ) ≤ ((2 ^ (⌊a⌋₊ + 1) : Nat) : ℚ) := by
        exact_mod_cast (Nat.lt_two_pow (⌊a⌋₊ + 1)).le
      push_cast at h2
      linarith
    obtain ⟨i1, i2, i3⟩ := expoUp_spec ⌊a⌋₊ a h hlt
    exact ⟨i2, Or.inl i1, by omega⟩
  · rw [if_neg h]
    obtain ⟨i1, i2, i3⟩ := expoDown_spec 126 a h0 (by linarith)
    exact ⟨i1, i2, i3⟩

theorem binade_mono {a b : ℚ} (h0 : 0 < a) (h : a ≤ b) : binade a ≤ binade b := by
  by_contra hc
  push_neg at hc
  obtain ⟨-, a2, -⟩ := binade_spec a h0
  obtain ⟨b1, -, b3⟩ := binade_spec b (lt_of_lt_of_le h0 h)
  rcases a2 with a2 | a2
  · have : (2 : ℚ) ^ (binade b + 1) ≤ 2 ^ (binade a) :=
      zpow_le_zpow_right₀ (by norm_num) (by omega)
    linarith
  · omega

theorem scale24 (e : Int) : ((2 ^ 24 : Nat) : ℚ) * 2 ^ (e - 23) = 2 ^ (e + 1) := by
  have h : ((2 ^ 24 : Nat) : ℚ) = (2 : ℚ) ^ (24 : Int) := by norm_num
  rw [h, ← zpow_add₀ (by norm_num)]
  congr 1
  ring

theorem scale23 (e : Int) : ((2 ^ 23 : Nat) : ℚ) * 2 ^ (e - 23) = 2 ^ e := by
  have h : ((2 ^ 23 : Nat) : ℚ) = (2 : ℚ) ^ (23 : Int) := by norm_num
  rw [h, ← zpow_add₀ (by norm_num)]
  congr 1
  ring

theorem f32abs_nonneg (a : ℚ) : 0 ≤ f32abs a := by
  unfold f32abs
  positivity

theorem f32abs_mono {a b : ℚ} (h0 : 0 < a) (h : a ≤ b) : f32abs a ≤ f32abs b := by
  have hb0 : 0 < b := lt_of_lt_of_le h0 h
  rcases lt_or_eq_of_le (binade_mono h0 h) with hlt | heq
  · obtain ⟨a1, -, a3⟩ := binade_spec a h0
    obtain ⟨-, b2, b3⟩ := binade_spec b hb0
    have b2 : (2 : ℚ) ^ (binade b) ≤ b := by
      rcases b2 with b2 | b2
      · exact b2
      · omega
    have qa : (0 : ℚ) < 2 ^ (binade a - 23) := by positivity
    have qb : (0 : ℚ) < 2 ^ (binade b - 23) := by positivity
    have ha : f32abs a ≤ 2 ^ (binade a + 1) := by
      unfold f32abs
      simp only []
      have hm : a / 2 ^ (binade a - 23) ≤ ((2 ^ 24 : Nat) : ℚ) := by
        rw [div_le_iff₀ qa]
        rw [scale24]
        exact a1.le
      have hr := roundEven_mono hm
      rw [roundEven_natCast] at hr
      have hr2 : ((roundEven (a / 2 ^ (binade a - 23)) : Nat) : ℚ) ≤ ((2 ^ 24 : Nat) : ℚ) := by
        exact_mod_cast hr
      calc (roundEven (a / 2 ^ (binade a - 23)) : ℚ) * 2 ^ (binade a - 23)
          ≤ ((2 ^ 24 : Nat) : ℚ) * 2 ^ (binade a - 23) :=
            mul_le_mul_of_nonneg_right hr2 qa.le
        _ = 2 ^ (binade a + 1) := scale24 _
    have hb : (2 : ℚ) ^ (binade b) ≤ f32abs b := by
      unfold f32abs
      simp only []
      have hm : ((2 ^ 23 : Nat) : ℚ) ≤ b / 2 ^ (binade b - 23) := by
        rw [le_div_iff₀ qb]
        rw [scale23]
        exact b2
      have hr := roundEven_mono hm
      rw [roundEven_natCast] at hr
      have hr2 : ((2 ^ 23 : Nat) : ℚ) ≤ ((roundEven (b / 2 ^ (binade b - 23)) : Nat) : ℚ) := by
        exact_mod_cast hr
      calc (2 : ℚ) ^ (binade b) = ((2 ^ 23 : Nat) : ℚ) * 2 ^ (binade b - 23) :=
            (scale23 _).symm
        _ ≤ (roundEven (b / 2 ^ (binade b - 23)) : ℚ) * 2 ^ (binade b - 23) :=
            mul_le_mul_of_nonneg_right hr2 qb.le
    have hpow : (2 : ℚ) ^ (binade a + 1) ≤ 2 ^ (binade b) :=
      zpow_le_zpow_right₀ (by norm_num) (by omega)
    linarith
  · unfold f32abs
    simp only []
    rw [heq]
    have qb : (0 : ℚ) < 2 ^ (binade b - 23) := by positivity
    have hm : a / 2 ^ (binade b - 23) ≤ b / 2 ^ (binade b - 23) :=
      div_le_div_of_nonneg_right h qb.le
    have hr := roundEven_mono hm
    have hr2 : ((roundEven (a / 2 ^ (binade b - 23)) : Nat) : ℚ) ≤
        ((roundEven (b / 2 ^ (binade b - 23)) : Nat) : ℚ) := by
      exact_mod_cast hr
    exact mul_le_mul_of_nonneg_right hr2 qb.le

theorem f32_nonpos {x : ℚ} (h : x ≤ 0) : f32 x ≤ 0 := by
  unfold f32
  split_ifs with h1 h2
  · exact le_refl 0
  · have := f32abs_nonneg (-x)
    linarith
  · exact absurd (lt_of_le_of_ne h h1) h2

theorem f32_nonneg {x : ℚ} (h : 0 ≤ x) : 0 ≤ f32 x := by
  unfold f32
  split_ifs with h1 h2
  · exact le_refl 0
  · exact absurd h (not_le.2 h2)
  · exact f32abs_nonneg x

/-- Rounding to `float` preserves the order. -/
theorem f32_mono {x y : ℚ} (h : x ≤ y) : f32 x ≤ f32 y := by
  rcases le_or_lt x 0 with hx | hx
  · rcases le_or_lt 0 y with hy | hy
    · exact le_trans (f32_nonpos hx) (f32_nonneg hy)
    · have hx' : x < 0 := lt_of_le_of_lt h hy
      unfold f32
      rw [if_neg hx'.ne, if_pos hx', if_neg hy.ne, if_pos hy]
      have := f32abs_mono (neg_pos.2 hy) (neg_le_neg h)
      linarith
  · have hy : 0 < y := lt_of_lt_of_le hx h
    unfold f32
    rw [if_neg hx.ne', if_neg (not_lt.2 hx.le), if_neg hy.ne', if_neg (not_lt.2 hy.le)]
    exact f32abs_mono hx h

/-- A `float` subtraction of a value at least as large gives a result that is not positive. -/
theorem fsub_nonpos {a b : ℚ} (h : a ≤ b) : fsub a b ≤ 0 := by
  unfold fsub
  apply f32_nonpos
  have := f32_mono h
  linarith

/-- The `float` literals of the countdowns as binary32 values: `0.2f` is 0x3E4CCCCD, `0.7f`
is 0x3F333333, `0.1f` is 0x3DCCCCCD; a number with at most 24 significant bits is its own
value, and a tie goes to the even significand. -/
theorem float_literals :
    BREAK_DELAY = 13421773 / 2 ^ 26 ∧ WIN_DELAY = 11744051 / 2 ^ 24 ∧
      f32 (1 / 10) = 13421773 / 2 ^ 27 ∧ f32 (1 / 2) = 1 / 2 ∧ f32 (-3) = -3 ∧
      f32 16777217 = 16777216 ∧ f32 16777219 = 16777220 ∧
      fsub WIN_DELAY BREAK_DELAY = 1 / 2 := by
  refine ⟨?_, ?_, ?_, ?_, ?_, ?_, ?_, ?_⟩ <;> decide!

/-- Frames do not add up in `float` arithmetic as they do in the reals: the delay `0.2f`
is still positive after twelve frames of 1/60 s and after four frames of 0.05 s, and runs out
in the next frame; the win delay `0.7f` is still positive after ten frames of 0.07 s. -/
theorem float_countdowns :
    0 < (List.replicate 12 (1 / 60 : ℚ)).foldl fsub BREAK_DELAY ∧
      (List.replicate 13 (1 / 60 : ℚ)).foldl fsub BREAK_DELAY ≤ 0 ∧
      0 < (List.replicate 4 (1 / 20 : ℚ)).foldl fsub BREAK_DELAY ∧
      (List.replicate 5 (1 / 20 : ℚ)).foldl fsub BREAK_DELAY ≤ 0 ∧
      0 < (List.replicate 10 (7 / 100 : ℚ)).foldl fsub WIN_DELAY ∧
      (List.replicate 11 (7 / 100 : ℚ)).foldl fsub WIN_DELAY ≤ 0 := by
  refine ⟨?_, ?_, ?_, ?_, ?_, ?_⟩ <;> decide!

@[simp]
theorem Vec2.add_x (a b : Vec2) : (a + b).x = a.x + b.x := rfl

@[simp]
theorem Vec2.add_y (a b : Vec2) : (a + b).y = a.y + b.y := rfl

@[simp]
theorem Vec2.sub_x (a b : Vec2) : (a - b).x = a.x - b.x := rfl

@[simp]
theorem Vec2.sub_y (a b : Vec2) : (a - b).y = a.y - b.y := rfl

@[simp]
theorem Vec2.neg_x (a : Vec2) : (-a).x = -a.x := rfl

@[simp]
theorem Vec2.neg_y (a : Vec2) : (-a).y = -a.y := rfl

@[simp]
theorem Vec2.steps_x (p d : Vec2) (k : Nat) : (p.steps d k).x = p.x + (k : Int) * d.x := rfl

@[simp]
theorem Vec2.steps_y (p d : Vec2) (k : Nat) : (p.steps d k).y = p.y + (k : Int) * d.y := rfl

theorem Vec2.steps_zero (p d : Vec2) : p.steps d 0 = p := by
  ext <;> simp

theorem Vec2.steps_one (p d : Vec2) : p.steps d 1 = p + d := by
  ext <;> simp

theorem Vec2.steps_succ (p d : Vec2) (k : Nat) : (p + d).steps d k = p.steps d (k + 1) := by
  ext <;> simp <;> ring

theorem Vec2.steps_add_dir (p d : Vec2) (k : Nat) : p.steps d k + d = p.steps d (k + 1) := by
  ext <;> simp <;> ring

theorem finishBlockAt_iff (blocks : List Vec2) (p : Vec2) :
    finishBlockAt blocks p = true ↔ p ∈ blocks := by
  unfold finishBlockAt
  simp only [List.any_eq_true, decide_eq_true_eq]
  constructor
  · rintro ⟨q, hq, hx, hy⟩
    have : p = q := Vec2.ext hx hy
    rwa [this]
  · intro h; exact ⟨p, h, rfl, rfl⟩

theorem scheduled_any_iff (btb : List BreakableBlockInfo) (x y : Int) :
    btb.any (fun info => decide (info.position.x = x ∧ info.position.y = y)) = true ↔
      (⟨x, y⟩ : Vec2) ∈ btb.map (fun e => e.position) := by
  simp only [List.any_eq_true, decide_eq_true_eq, List.mem_map]
  constructor
  · rintro ⟨e, he, hx, hy⟩
    exact ⟨e, he, Vec2.ext hx hy⟩
  · rintro ⟨e, he, h⟩
    exact ⟨e, he, by rw [h], by rw [h]⟩

theorem mem_scheduleBlockBreaking (btb : List BreakableBlockInfo) (x y : Int) (dl : ℚ)
    (e : BreakableBlockInfo) :
    e ∈ scheduleBlockBreaking btb x y dl ↔
      e ∈ btb ∨ (e = ⟨⟨x, y⟩, dl⟩ ∧ (⟨x, y⟩ : Vec2) ∉ btb.map (fun e => e.position)) := by
  unfold scheduleBlockBreaking
  split_ifs with h
  · rw [scheduled_any_iff] at h
    constructor
    · intro he; exact Or.inl he
    · rintro (he | ⟨_, hn⟩)
      · exact he
      · exact absurd h hn
  · rw [scheduled_any_iff] at h
    simp only [List.mem_append, List.mem_singleton]
    constructor
    · rintro (he | he)
      · exact Or.inl he
      · exact Or.inr ⟨he, h⟩
    · rintro (he | ⟨he, _⟩)
      · exact Or.inl he
      · exact Or.inr he

theorem position_mem_scheduleBlockBreaking (btb : List BreakableBlockInfo) (x y : Int) (dl : ℚ) :
    (⟨x, y⟩ : Vec2) ∈ (scheduleBlockBreaking btb x y dl).map (fun e => e.position) := by
  unfold scheduleBlockBreaking
  split_ifs with h
  · exact (scheduled_any_iff btb x y).1 h
  · simp

theorem nodup_scheduleBlockBreaking (btb : List BreakableBlockInfo) (x y : Int) (dl : ℚ)
    (h : (btb.map (fun e => e.position)).Nodup) :
    ((scheduleBlockBreaking btb x y dl).map (fun e => e.position)).Nodup := by
  unfold scheduleBlockBreaking
  split_ifs with h1
  · exact h
  · rw [scheduled_any_iff] at h1
    rw [List.map_append, List.nodup_append]
    refine ⟨h, by simp, ?_⟩
    intro a ha hb
    simp only [List.map_cons, List.map_nil, List.mem_singleton] at hb
    rw [hb] at ha
    exact h1 ha

theorem PathLen.stay {ok halt : Vec2 → Prop} {d curr : Vec2} (h : ¬ ok (curr + d)) :
    PathLen ok halt d curr curr 0 :=
  ⟨(Vec2.steps_zero curr d).symm, fun j h1 h2 => by omega, fun j h1 h2 => by omega, Or.inr h⟩

theorem PathLen.stopAt {ok halt : Vec2 → Prop} {d curr : Vec2} (h : ok (curr + d))
    (hh : halt (curr + d)) : PathLen ok halt d curr (curr + d) 1 := by
  refine ⟨(Vec2.steps_one curr d).symm, fun j h1 h2 => ?_, fun j h1 h2 => by omega,
    Or.inl ⟨le_refl 1, hh⟩⟩
  have : j = 1 := by omega
  subst this
  rwa [Vec2.steps_one]

theorem PathLen.step {ok halt : Vec2 → Prop} {d curr t : Vec2} {k : Nat} (h : ok (curr + d))
    (hh : ¬ halt (curr + d)) (hp : PathLen ok halt d (curr + d) t k) :
    PathLen ok halt d curr t (k + 1) := by
  obtain ⟨hk, hok, hhalt, hstop⟩ := hp
  refine ⟨by rw [hk, Vec2.steps_succ], fun j h1 h2 => ?_, fun j h1 h2 => ?_, ?_⟩
  · rcases Nat.eq_or_lt_of_le h1 with h1 | h1
    · subst h1; rwa [Vec2.steps_one]
    · obtain ⟨i, rfl⟩ : ∃ i, j = i + 1 := ⟨j - 1, by omega⟩
      rw [← Vec2.steps_succ]
      exact hok i (by omega) (by omega)
  · rcases Nat.eq_or_lt_of_le h1 with h1 | h1
    · subst h1; rwa [Vec2.steps_one]
    · obtain ⟨i, rfl⟩ : ∃ i, j = i + 1 := ⟨j - 1, by omega⟩
      rw [← Vec2.steps_succ]
      exact hhalt i (by omega) (by omega)
  · rcases hstop with ⟨h1, h2⟩ | h2
    · exact Or.inl ⟨by omega, h2⟩
    · exact Or.inr h2

/-- A walk that meets a first cell that is not `ok` after `n` cells that are `ok` and do
not halt ends right before it. -/
theorem PathLen.exact {ok halt : Vec2 → Prop} {d curr t : Vec2} {k : Nat}
    (hp : PathLen ok halt d curr t k)
    (n : Nat) (hn : ¬ ok (curr.steps d (n + 1)))
    (hclear : ∀ j, 1 ≤ j → j ≤ n → ok (curr.steps d j) ∧ ¬ halt (curr.steps d j)) :
    k = n := by
  obtain ⟨hk, hok, hhalt, hstop⟩ := hp
  have h1 : k ≤ n := by
    by_contra hc
    exact hn (hok (n + 1) (by omega) (by omega))
  have h2 : n ≤ k := by
    by_contra hc
    rcases hstop with ⟨h3, h4⟩ | h4
    · rw [hk] at h4
      exact (hclear k h3 (by omega)).2 h4
    · rw [hk, Vec2.steps_add_dir] at h4
      exact h4 (hclear (k + 1) (by omega) (by omega)).1
  omega

theorem Recorded.refl (s : State) (isPenguin canBreak : Bool) (d curr : Vec2) (k : Nat)
    (btb : List BreakableBlockInfo)
    (h : canBreak = true → ∀ j, 1 ≤ j → j ≤ k →
      s.grid (curr.steps d j).x (curr.steps d j).y = 6 →
      finishBlockAt (ownFinishBlocks s isPenguin) (curr.steps d j) = false →
      curr.steps d j ∈ btb.map (fun e => e.position)) :
    Recorded s isPenguin canBreak d curr k btb btb :=
  ⟨fun _ he => he, fun _ he => Or.inl he, h, fun hn => hn, fun _ => rfl⟩

/-- One more step in front of a recorded run; `btb1` is the list after that step. -/
theorem Recorded.prepend {s : State} {isPenguin canBreak : Bool} {d curr : Vec2} {k : Nat}
    {btb btb1 btb' : List BreakableBlockInfo}
    (hr : Recorded s isPenguin canBreak d (curr + d) k btb1 btb')
    (h1 : btb1 = btb ∨ (canBreak = true ∧ s.grid (curr + d).x (curr + d).y = 6 ∧
      btb1 = scheduleBlockBreaking btb (curr + d).x (curr + d).y BREAK_DELAY))
    (h2 : canBreak = true → s.grid (curr + d).x (curr + d).y = 6 →
      finishBlockAt (ownFinishBlocks s isPenguin) (curr + d) = false →
      btb1 = scheduleBlockBreaking btb (curr + d).x (curr + d).y BREAK_DELAY) :
    Recorded s isPenguin canBreak d curr (k + 1) btb btb' := by
  obtain ⟨r1, r2, r3, r4, r5⟩ := hr
  refine ⟨fun e he => ?_, fun e he => ?_, fun hc j hj1 hj2 hg hf => ?_, fun hn => ?_, fun hc => ?_⟩
  · apply r1
    rcases h1 with h1 | ⟨_, _, h1⟩
    · rw [h1]; exact he
    · rw [h1, mem_scheduleBlockBreaking]; exact Or.inl he
  · rcases r2 e he with h | ⟨hc, hd, j, hj1, hj2, hp, hg⟩
    · rcases h1 with h1 | ⟨hc, hg, h1⟩
      · rw [h1] at h; exact Or.inl h
      · rw [h1, mem_scheduleBlockBreaking] at h
        rcases h with h | ⟨h, _⟩
        · exact Or.inl h
        · refine Or.inr ⟨hc, by rw [h], 1, le_refl 1, by omega, ?_, ?_⟩
          · rw [h, Vec2.steps_one]
          · rw [Vec2.steps_one]; exact hg
    · refine Or.inr ⟨hc, hd, j + 1, by omega, by omega, ?_, ?_⟩
      · rw [hp, Vec2.steps_succ]
      · rw [← Vec2.steps_succ]; exact hg
  · rcases Nat.eq_or_lt_of_le hj1 with hj | hj
    · subst hj
      rw [Vec2.steps_one] at hg hf ⊢
      have hb := h2 hc hg hf
      have hm := position_mem_scheduleBlockBreaking btb (curr + d).x (curr + d).y BREAK_DELAY
      rw [← hb] at hm
      obtain ⟨e, he, hpos⟩ := List.mem_map.1 hm
      exact List.mem_map.2 ⟨e, r1 e he, hpos⟩
    · obtain ⟨i, rfl⟩ : ∃ i, j = i + 1 := ⟨j - 1, by omega⟩
      rw [← Vec2.steps_succ] at hg hf ⊢
      exact r3 hc i (by omega) (by omega) hg hf
  · apply r4
    rcases h1 with h1 | ⟨_, _, h1⟩
    · rw [h1]; exact hn
    · rw [h1]; exact nodup_scheduleBlockBreaking _ _ _ _ hn
  · rw [r5 hc]
    rcases h1 with h1 | ⟨h, _, _⟩
    · exact h1
    · rw [hc] at h; cases h

theorem slideLoop_spec (s : State) (isPenguin canBreak : Bool) (d : Vec2) :
    ∀ (n : Nat) (curr : Vec2) (btb : List BreakableBlockInfo) (r : Vec2 × List BreakableBlockInfo),
      slideLoop s isPenguin canBreak d n curr btb = some r →
      ∃ k, PathLen (enterable s isPenguin) (slideHalt s isPenguin canBreak) d curr r.1 k ∧
        Recorded s isPenguin canBreak d curr k btb r.2 := by
  intro n
  induction n with
  | zero => intro curr btb r h; simp [slideLoop] at h
  | succ n ih =>
    intro curr btb r h
    simp only [slideLoop] at h
    have h0 : Recorded s isPenguin canBreak d curr 0 btb btb :=
      Recorded.refl s isPenguin canBreak d curr 0 btb (fun _ j h1 h2 => by omega)
    split_ifs at h with h1 h2 h3 h4 h5 h6 h7
    · cases h; exact ⟨0, PathLen.stay (fun hc => hc.1 h1), h0⟩
    · cases h
      exact ⟨0, PathLen.stay (fun hc => by
        rcases h2 with h2 | h2
        · exact hc.2.1 h2
        · exact hc.2.2.1 h2), h0⟩
    · cases h
      exact ⟨0, PathLen.stay (fun hc => by
        have := hc.2.2.2.1 h3.1
        rcases h3.2 with h | h
        · exact this.1 h
        · exact this.2 h), h0⟩
    · cases h
      exact ⟨0, PathLen.stay (fun hc => by
        have := hc.2.2.2.2 h4.1
        rcases h4.2 with h | h
        · exact this.1 h
        · exact this.2 h), h0⟩
    all_goals
      have hent : enterable s isPenguin (curr + d) := by
        refine ⟨h1, fun hc => h2 (Or.inl hc), fun hc => h2 (Or.inr hc),
          fun hp => ⟨fun hc => h3 ⟨hp, Or.inl hc⟩, fun hc => h3 ⟨hp, Or.inr hc⟩⟩,
          fun hp => ⟨fun hc => h4 ⟨hp, Or.inl hc⟩, fun hc => h4 ⟨hp, Or.inr hc⟩⟩⟩
    · cases h
      refine ⟨1, PathLen.stopAt hent (Or.inl h5), ?_⟩
      refine Recorded.refl s isPenguin canBreak d curr 1 btb (fun _ j hj1 hj2 hg hf => ?_)
      have : j = 1 := by omega
      subst this
      rw [Vec2.steps_one] at hf
      rw [h5] at hf; cases hf
    · obtain ⟨k, hp, hr⟩ := ih _ _ _ h
      refine ⟨k + 1, PathLen.step hent ?_ hp, Recorded.prepend hr (Or.inr ⟨h7, h6, rfl⟩)
        (fun _ _ _ => rfl)⟩
      rintro (hc | hc)
      · exact h5 hc
      · rw [h7] at hc; simp at hc
    · cases h
      refine ⟨1, PathLen.stopAt hent (Or.inr ⟨by simpa using h7, h6⟩), ?_⟩
      refine Recorded.refl s isPenguin canBreak d curr 1 btb (fun hc => ?_)
      exact absurd hc h7
    · obtain ⟨k, hp, hr⟩ := ih _ _ _ h
      refine ⟨k + 1, PathLen.step hent ?_ hp, Recorded.prepend hr (Or.inl rfl)
        (fun _ hg _ => absurd hg h6)⟩
      rintro (hc | hc)
      · exact h5 hc
      · exact h6 hc.2

theorem Vec2.add_sub_cancel (p d : Vec2) : p + d - d = p := by
  ext <;> simp

theorem computeTargetLoop_spec (s : State) (isPenguin canBreak : Bool)
    (d otherStart otherTarget : Vec2) :
    ∀ (n : Nat) (curr : Vec2) (btb : List BreakableBlockInfo) (r : Vec2 × List BreakableBlockInfo),
      computeTargetLoop s isPenguin canBreak d otherStart otherTarget n curr btb = some r →
      ∃ k, PathLen (targetOk s isPenguin canBreak d otherStart otherTarget)
          (targetHalt s isPenguin) d curr r.1 k ∧
        Recorded s isPenguin canBreak d curr k btb r.2 := by
  intro n
  induction n with
  | zero => intro curr btb r h; simp [computeTargetLoop] at h
  | succ n ih =>
    intro curr btb r h
    simp only [computeTargetLoop] at h
    have h0 : Recorded s isPenguin canBreak d curr 0 btb btb :=
      Recorded.refl s isPenguin canBreak d curr 0 btb (fun _ j h1 h2 => by omega)
    split_ifs at h with h1 ho hw h2 h3 h4 h5 h6 h7
    · cases h; exact ⟨0, PathLen.stay (fun hc => hc.2.2.1.1 h1), h0⟩
    · cases h; exact ⟨0, PathLen.stay (fun hc => hc.1 ho), h0⟩
    · cases h
      refine ⟨0, PathLen.stay (fun hc => ?_), h0⟩
      have := hc.2.1
      rw [Vec2.add_sub_cancel, hw] at this
      cases this
    · cases h
      exact ⟨0, PathLen.stay (fun hc => by
        rcases h2 with h2 | h2
        · exact hc.2.2.1.2.1 h2
        · exact hc.2.2.1.2.2.1 h2), h0⟩
    · cases h
      exact ⟨0, PathLen.stay (fun hc => by
        have := hc.2.2.1.2.2.2.1 h3.1
        rcases h3.2 with h | h
        · exact this.1 h
        · exact this.2 h), h0⟩
    · cases h
      exact ⟨0, PathLen.stay (fun hc => by
        have := hc.2.2.1.2.2.2.2 h4.1
        rcases h4.2 with h | h
        · exact this.1 h
        · exact this.2 h), h0⟩
    all_goals
      have hent : enterable s isPenguin (curr + d) := by
        refine ⟨h1, fun hc => h2 (Or.inl hc), fun hc => h2 (Or.inr hc),
          fun hp => ⟨fun hc => h3 ⟨hp, Or.inl hc⟩, fun hc => h3 ⟨hp, Or.inr hc⟩⟩,
          fun hp => ⟨fun hc => h4 ⟨hp, Or.inl hc⟩, fun hc => h4 ⟨hp, Or.inr hc⟩⟩⟩
      have hpass : wouldPassThroughOther (curr + d - d) (curr + d) d otherStart = false := by
        rw [Vec2.add_sub_cancel]; simpa using hw
    · cases h
      refine ⟨1, PathLen.stopAt ⟨ho, hpass, hent, fun _ _ => h5⟩ h5, ?_⟩
      refine Recorded.refl s isPenguin canBreak d curr 1 btb (fun _ j hj1 hj2 hg hf => ?_)
      have : j = 1 := by omega
      subst this
      rw [Vec2.steps_one] at hf
      rw [h5] at hf; cases hf
    · obtain ⟨k, hp, hr⟩ := ih _ _ _ h
      refine ⟨k + 1, PathLen.step ⟨ho, hpass, hent, fun hc => ?_⟩ h5 hp,
        Recorded.prepend hr (Or.inr ⟨h7, h6, rfl⟩) (fun _ _ _ => rfl)⟩
      rw [h7] at hc; cases hc
    · cases h
      refine ⟨0, PathLen.stay (fun hc => ?_), h0⟩
      exact h5 (hc.2.2.2 (by simpa using h7) h6)
    · obtain ⟨k, hp, hr⟩ := ih _ _ _ h
      exact ⟨k + 1, PathLen.step ⟨ho, hpass, hent, fun _ hc => absurd hc h6⟩ h5 hp,
        Recorded.prepend hr (Or.inl rfl) (fun _ hg _ => absurd hg h6)⟩

theorem room_step {d p : Vec2} (hd : isUnitDirection d) (h : ¬ outOfBounds (p + d)) :
    room d (p + d) + 1 = room d p := by
  unfold outOfBounds at h
  unfold room
  simp only [GRID_WIDTH, GRID_HEIGHT] at h ⊢
  rcases hd with rfl | rfl | rfl | rfl <;> simp at h ⊢ <;> omega

theorem room_le {d p : Vec2} (h : ¬ outOfBounds p) : room d p ≤ 10 := by
  unfold outOfBounds at h
  unfold room
  simp only [GRID_WIDTH, GRID_HEIGHT] at h ⊢
  split_ifs <;> omega

theorem slideLoop_terminates (s : State) (isPenguin canBreak : Bool) {d : Vec2}
    (hd : isUnitDirection d) :
    ∀ (n : Nat) (curr : Vec2) (btb : List BreakableBlockInfo), room d curr < n →
      ∃ r, slideLoop s isPenguin canBreak d n curr btb = some r := by
  intro n
  induction n with
  | zero => intro curr btb h; omega
  | succ n ih =>
    intro curr btb h
    simp only [slideLoop]
    split_ifs with h1 h2 h3 h4 h5 h6 h7
    all_goals first
      | exact ⟨_, rfl⟩
      | exact ih _ _ (by have := room_step hd h1; omega)

theorem computeTargetLoop_terminates (s : State) (isPenguin canBreak : Bool)
    {d : Vec2} (otherStart otherTarget : Vec2) (hd : isUnitDirection d) :
    ∀ (n : Nat) (curr : Vec2) (btb : List BreakableBlockInfo), room d curr < n →
      ∃ r, computeTargetLoop s isPenguin canBreak d otherStart otherTarget n curr btb
        = some r := by
  intro n
  induction n with
  | zero => intro curr btb h; omega
  | succ n ih =>
    intro curr btb h
    simp only [computeTargetLoop]
    split_ifs with h1 ho hw h2 h3 h4 h5 h6 h7
    all_goals first
      | exact ⟨_, rfl⟩
      | exact ih _ _ (by have := room_step hd h1; omega)

theorem sq_sum_eq_one_iff (a b : Int) :
    a * a + b * b = 1 ↔ (a = 0 ∧ (b = 1 ∨ b = -1)) ∨ ((a = 1 ∨ a = -1) ∧ b = 0) := by
  constructor
  · intro h
    have ha : -1 ≤ a ∧ a ≤ 1 := by constructor <;> nlinarith
    have hb : -1 ≤ b ∧ b ≤ 1 := by constructor <;> nlinarith
    obtain ⟨ha1, ha2⟩ := ha
    obtain ⟨hb1, hb2⟩ := hb
    interval_cases a <;> interval_cases b <;> simp_all
  · rintro (⟨rfl, rfl | rfl⟩ | ⟨rfl | rfl, rfl⟩) <;> simp

theorem checkNoSqueezeBlocks_iff (s : State) : checkNoSqueezeBlocks s = true ↔ anchored s := by
  unfold checkNoSqueezeBlocks anchored
  simp

theorem checkFrontBlocked_fst (s : State) (b : Bool) :
    (checkFrontBlocked s b).1 = true ↔
      blockedFor s (!b) ((if b then s.polarBearGridPos else s.penguinGridPos) + s.moveDirection) ∧
        ¬ anchored s := by
  have hns : ∀ btb, checkNoSqueezeBlocks { s with blocksToBreak := btb } = true ↔ anchored s :=
    fun btb => checkNoSqueezeBlocks_iff _
  unfold checkFrontBlocked blockedFor
  rw [← checkNoSqueezeBlocks_iff]
  cases b
  · simp only [Bool.false_eq_true, if_false, Bool.not_false]
    split_ifs <;> simp_all
    all_goals tauto
  · simp only [if_true, Bool.not_true]
    split_ifs <;> simp_all
    all_goals tauto

/-- For a unit direction, the code's adjacency and alignment tests are the
specification's, and its front test picks the character the direction points toward. -/
theorem adjacent_unit (s : State) (hd : isUnitDirection s.moveDirection) :
    (adjacentAlongAxis s s.moveDirection ↔
      ((s.polarBearGridPos - s.penguinGridPos).lengthSquared = 1 ∧
        ¬ ((decide (s.moveDirection.x ≠ 0) = true ∧ (s.polarBearGridPos - s.penguinGridPos).y ≠ 0) ∨
          (decide (s.moveDirection.x ≠ 0) = false ∧
            (s.polarBearGridPos - s.penguinGridPos).x ≠ 0)))) ∧
    (adjacentAlongAxis s s.moveDirection →
      ((if decide (s.moveDirection.x ≠ 0) = true
          then decide (s.moveDirection.x * (s.polarBearGridPos - s.penguinGridPos).x > 0)
          else decide (s.moveDirection.y * (s.polarBearGridPos - s.penguinGridPos).y > 0)) = true
        ↔ bearIsFront s s.moveDirection)) := by
  unfold adjacentAlongAxis bearIsFront Vec2.lengthSquared
  rw [sq_sum_eq_one_iff, Vec2.ext_iff]
  simp only [Vec2.sub_x, Vec2.sub_y, Vec2.add_x, Vec2.add_y]
  rcases hd with h | h | h | h <;> rw [h] <;> simp <;> omega

/-- The flag of `checkForSqueeze` is the squeeze condition of the specification. -/
theorem checkForSqueeze_true_iff (s : State) (hd : isUnitDirection s.moveDirection) :
    (checkForSqueeze s).1 = true ↔ squeezeSpec s := by
  obtain ⟨h1, h2⟩ := adjacent_unit s hd
  unfold squeezeSpec
  by_cases ha : adjacentAlongAxis s s.moveDirection
  · have h3 := h1.1 ha
    have h4 := h2 ha
    unfold checkForSqueeze
    simp only []
    rw [if_neg (not_not.2 h3.1), if_neg h3.2, checkFrontBlocked_fst]
    by_cases hb : bearIsFront s s.moveDirection
    · rw [h4.2 hb]; simp [ha, hb]
    · have : (if decide (s.moveDirection.x ≠ 0) = true
          then decide (s.moveDirection.x * (s.polarBearGridPos - s.penguinGridPos).x > 0)
          else decide (s.moveDirection.y * (s.polarBearGridPos - s.penguinGridPos).y > 0)) = false := by
        rw [← Bool.not_eq_true]; exact fun hc => hb (h4.1 hc)
      rw [this]; simp [ha, hb]
  · have h3 := fun hc => ha (h1.2 hc)
    constructor
    · intro h
      exfalso
      unfold checkForSqueeze at h
      simp only [] at h
      by_cases h5 : (s.polarBearGridPos - s.penguinGridPos).lengthSquared ≠ 1
      · rw [if_pos h5] at h; cases h
      · rw [if_neg h5] at h
        by_cases h6 : (decide (s.moveDirection.x ≠ 0) = true ∧
            (s.polarBearGridPos - s.penguinGridPos).y ≠ 0) ∨
            (decide (s.moveDirection.x ≠ 0) = false ∧
              (s.polarBearGridPos - s.penguinGridPos).x ≠ 0)
        · rw [if_pos h6] at h; cases h
        · exact h3 ⟨not_not.1 h5, h6⟩
    · intro h; exact absurd h.1 ha

/-- Claim C2.  For every state and unit direction, `checkForSqueeze` returns true if and
only if (a) heavy and light are orthogonally adjacent along the movement axis, (b) the cell
one step beyond the front character is blocked for it (off-grid, Wall, Invisible, a
lane/finish tile of the other character, or Breakable) and (c) neither character stands
on its own lane or finish tile. -/
theorem C2_checkForSqueeze_iff (s : State) (hd : isUnitDirection s.moveDirection) :
    (checkForSqueeze s).1 = true ↔ squeezeSpec s :=
  checkForSqueeze_true_iff s hd

theorem C2_witness :
    (checkForSqueeze { mkState gridB [] [] ⟨3, 5⟩ ⟨4, 5⟩ with moveDirection := ⟨1, 0⟩ }).1 = true ∧
      squeezeSpec { mkState gridB [] [] ⟨3, 5⟩ ⟨4, 5⟩ with moveDirection := ⟨1, 0⟩ } :=
  ⟨by decide,
   (C2_checkForSqueeze_iff { mkState gridB [] [] ⟨3, 5⟩ ⟨4, 5⟩ with moveDirection := ⟨1, 0⟩ }
      (by decide)).1 (by decide)⟩

theorem isUnitDirection_neg {d : Vec2} (hd : isUnitDirection d) : isUnitDirection (-d) := by
  rcases hd with h | h | h | h <;> rw [h] <;> decide

theorem slide_spec (fuel : Nat) (s : State) (start : Vec2) (isPenguin canBreak : Bool)
    {d : Vec2} (hd : isUnitDirection d) (hs : ¬ outOfBounds start) (hf : 11 ≤ fuel) :
    ∃ t btb k, slide fuel s start isPenguin canBreak d = some (t, { s with blocksToBreak := btb }) ∧
      PathLen (enterable s isPenguin) (slideHalt s isPenguin canBreak) d start t k ∧
      Recorded s isPenguin canBreak d start k s.blocksToBreak btb := by
  obtain ⟨r, hr⟩ := slideLoop_terminates s isPenguin canBreak hd fuel start s.blocksToBreak
    (by have := @room_le d start hs; omega)
  obtain ⟨k, hp, hrec⟩ := slideLoop_spec s isPenguin canBreak d fuel start s.blocksToBreak r hr
  exact ⟨r.1, r.2, k, by simp [slide, hr], hp, hrec⟩

theorem computeTarget_spec (fuel : Nat) (s : State) (start : Vec2) (isPenguin canBreak : Bool)
    {d : Vec2} (otherStart otherTarget : Vec2) (hd : isUnitDirection d)
    (hs : ¬ outOfBounds start) (hf : 11 ≤ fuel) :
    ∃ t btb k, computeTarget fuel s start isPenguin canBreak d otherStart otherTarget =
        some (t, { s with blocksToBreak := btb }) ∧
      PathLen (targetOk s isPenguin canBreak d otherStart otherTarget) (targetHalt s isPenguin)
        d start t k ∧
      Recorded s isPenguin canBreak d start k s.blocksToBreak btb := by
  obtain ⟨r, hr⟩ := computeTargetLoop_terminates s isPenguin canBreak otherStart otherTarget hd
    fuel start s.blocksToBreak (by have := @room_le d start hs; omega)
  obtain ⟨k, hp, hrec⟩ := computeTargetLoop_spec s isPenguin canBreak d otherStart otherTarget
    fuel start s.blocksToBreak r hr
  exact ⟨r.1, r.2, k, by simp [computeTarget, hr], hp, hrec⟩

/-- With `canBreak` off, `computeTarget` leaves the state as it is. -/
theorem computeTarget_noBreak (fuel : Nat) (s : State) (start : Vec2) (isPenguin : Bool)
    {d : Vec2} (otherStart otherTarget : Vec2) (hd : isUnitDirection d)
    (hs : ¬ outOfBounds start) (hf : 11 ≤ fuel) :
    ∃ t k, computeTarget fuel s start isPenguin false d otherStart otherTarget = some (t, s) ∧
      PathLen (targetOk s isPenguin false d otherStart otherTarget) (targetHalt s isPenguin)
        d start t k := by
  obtain ⟨t, btb, k, h1, h2, h3⟩ :=
    computeTarget_spec fuel s start isPenguin false otherStart otherTarget hd hs hf
  have : btb = s.blocksToBreak := h3.2.2.2.2 rfl
  rw [this] at h1
  exact ⟨t, k, h1, h2⟩

theorem checkFrontBlocked_snd (s : State) (b : Bool) :
    ∃ btb rear, (checkFrontBlocked s b).2 = { s with blocksToBreak := btb, polarBearIsRear := rear } ∧
      ((checkFrontBlocked s b).1 = true → rear = !b) ∧
      (btb = s.blocksToBreak ∨ ∃ p, ¬ outOfBounds p ∧ s.grid p.x p.y = 6 ∧
        btb = scheduleBlockBreaking s.blocksToBreak p.x p.y BREAK_DELAY) := by
  unfold checkFrontBlocked
  simp only []
  cases b
  all_goals
    simp only [Bool.false_eq_true, if_false, if_true]
    split_ifs with h1 h2 h3 h4 h5
  all_goals first
    | exact ⟨_, _, rfl, by simp, Or.inl rfl⟩
    | exact ⟨_, _, rfl, by simp, Or.inr ⟨_, h1, h3, rfl⟩⟩

/-- When the characters are adjacent along a unit direction, `checkForSqueeze` is its second
half run with the front character the direction points toward. -/
theorem checkForSqueeze_eq_front (s : State) (hd : isUnitDirection s.moveDirection)
    (ha : adjacentAlongAxis s s.moveDirection) :
    checkForSqueeze s = checkFrontBlocked s (decide (bearIsFront s s.moveDirection)) := by
  obtain ⟨h1, h2⟩ := adjacent_unit s hd
  have h3 := h1.1 ha
  have h4 := h2 ha
  unfold checkForSqueeze
  simp only []
  rw [if_neg (not_not.2 h3.1), if_neg h3.2]
  congr 1
  rw [Bool.eq_iff_iff, h4]
  simp

theorem checkForSqueeze_snd (s : State) :
    ∃ btb rear, (checkForSqueeze s).2 = { s with blocksToBreak := btb, polarBearIsRear := rear } ∧
      (btb = s.blocksToBreak ∨ ∃ p, ¬ outOfBounds p ∧ s.grid p.x p.y = 6 ∧
        btb = scheduleBlockBreaking s.blocksToBreak p.x p.y BREAK_DELAY) := by
  unfold checkForSqueeze
  simp only []
  split_ifs
  · exact ⟨_, _, rfl, Or.inl rfl⟩
  · exact ⟨_, _, rfl, Or.inl rfl⟩
  · obtain ⟨btb, rear, h1, _, h3⟩ := checkFrontBlocked_snd s
      (decide (s.moveDirection.x * (s.polarBearGridPos - s.penguinGridPos).x > 0))
    exact ⟨btb, rear, h1, h3⟩
  · obtain ⟨btb, rear, h1, _, h3⟩ := checkFrontBlocked_snd s
      (decide (s.moveDirection.y * (s.polarBearGridPos - s.penguinGridPos).y > 0))
    exact ⟨btb, rear, h1, h3⟩

/-- After a confirmed squeeze `_polarBearIsRear` is off exactly when the bear is in front. -/
theorem checkForSqueeze_rear (s : State) (hd : isUnitDirection s.moveDirection)
    (h : (checkForSqueeze s).1 = true) :
    (checkForSqueeze s).2.polarBearIsRear = !decide (bearIsFront s s.moveDirection) := by
  have ha := ((checkForSqueeze_true_iff s hd).1 h).1
  rw [checkForSqueeze_eq_front s hd ha] at h ⊢
  obtain ⟨btb, rear, h1, h2, _⟩ := checkFrontBlocked_snd s (decide (bearIsFront s s.moveDirection))
  rw [h1]
  exact h2 h

theorem slide_some {fuel : Nat} {s : State} {start : Vec2} {isPenguin canBreak : Bool}
    {d t : Vec2} {s1 : State} (h : slide fuel s start isPenguin canBreak d = some (t, s1)) :
    ∃ btb k, s1 = { s with blocksToBreak := btb } ∧
      PathLen (enterable s isPenguin) (slideHalt s isPenguin canBreak) d start t k ∧
      Recorded s isPenguin canBreak d start k s.blocksToBreak btb := by
  unfold slide at h
  rcases hl : slideLoop s isPenguin canBreak d fuel start s.blocksToBreak with _ | r
  · rw [hl] at h; cases h
  · rw [hl] at h
    obtain ⟨k, hp, hrec⟩ := slideLoop_spec s isPenguin canBreak d fuel start s.blocksToBreak r hl
    simp only [Option.map_some', Option.some.injEq, Prod.mk.injEq] at h
    exact ⟨r.2, k, h.2.symm, h.1 ▸ hp, hrec⟩

theorem slide_ne_none (fuel : Nat) (s : State) (start : Vec2) (isPenguin canBreak : Bool)
    {d : Vec2} (hd : isUnitDirection d) (hs : ¬ outOfBounds start) (hf : 11 ≤ fuel) :
    slide fuel s start isPenguin canBreak d ≠ none := by
  obtain ⟨t, btb, k, h, _⟩ := slide_spec fuel s start isPenguin canBreak hd hs hf
  rw [h]; simp

theorem computeTarget_some {fuel : Nat} {s : State} {start : Vec2} {isPenguin : Bool}
    {d otherStart otherTarget t : Vec2} {s1 : State}
    (h : computeTarget fuel s start isPenguin false d otherStart otherTarget = some (t, s1)) :
    ∃ k, s1 = s ∧
      PathLen (targetOk s isPenguin false d otherStart otherTarget) (targetHalt s isPenguin)
        d start t k := by
  unfold computeTarget at h
  rcases hl : computeTargetLoop s isPenguin false d otherStart otherTarget fuel start
    s.blocksToBreak with _ | r
  · rw [hl] at h; cases h
  · rw [hl] at h
    obtain ⟨k, hp, hrec⟩ := computeTargetLoop_spec s isPenguin false d otherStart otherTarget
      fuel start s.blocksToBreak r hl
    simp only [Option.map_some', Option.some.injEq, Prod.mk.injEq] at h
    have hb : r.2 = s.blocksToBreak := hrec.2.2.2.2 rfl
    rw [hb] at h
    exact ⟨k, h.2.symm, h.1 ▸ hp⟩

theorem computeTarget_ne_none (fuel : Nat) (s : State) (start : Vec2) (isPenguin canBreak : Bool)
    {d : Vec2} (otherStart otherTarget : Vec2) (hd : isUnitDirection d)
    (hs : ¬ outOfBounds start) (hf : 11 ≤ fuel) :
    computeTarget fuel s start isPenguin canBreak d otherStart otherTarget ≠ none := by
  obtain ⟨t, btb, k, h, _⟩ :=
    computeTarget_spec fuel s start isPenguin canBreak otherStart otherTarget hd hs hf
  rw [h]; simp

/-- What the squeeze branch returns: the front character (the penguin when
`_polarBearIsRear`) slid against the direction, the rear character slid along it, and each
unfinished character got its slide target. -/
theorem calculateSqueezeTargets_some {fuel : Nat} {s s' : State}
    (h : calculateSqueezeTargets fuel s = some s') :
    ∃ ft rt btb1 btb2 kf kr,
      s' = { s with
        bearIsBeingPushed := !s.polarBearIsRear
        blocksToBreak := btb2
        polarBearTarget := if s.bearFinished = false
          then (if s.polarBearIsRear then rt else ft) else s.polarBearTarget
        penguinTarget := if s.penguinFinished = false
          then (if s.polarBearIsRear then ft else rt) else s.penguinTarget } ∧
      PathLen (enterable s s.polarBearIsRear) (slideHalt s s.polarBearIsRear true)
        (-s.moveDirection)
        (if s.polarBearIsRear then s.penguinGridPos else s.polarBearGridPos) ft kf ∧
      PathLen (enterable s (!s.polarBearIsRear)) (slideHalt s (!s.polarBearIsRear) true)
        s.moveDirection
        (if s.polarBearIsRear then s.polarBearGridPos else s.penguinGridPos) rt kr ∧
      Recorded s s.polarBearIsRear true (-s.moveDirection)
        (if s.polarBearIsRear then s.penguinGridPos else s.polarBearGridPos) kf
        s.blocksToBreak btb1 ∧
      Recorded s (!s.polarBearIsRear) true s.moveDirection
        (if s.polarBearIsRear then s.polarBearGridPos else s.penguinGridPos) kr btb1 btb2 := by
  unfold calculateSqueezeTargets at h
  simp only [] at h
  split at h
  · cases h
  · rename_i ft s1 heq1
    obtain ⟨btb1, kf, hs1, hp1, hr1⟩ := slide_some heq1
    subst hs1
    split at h
    · cases h
    · rename_i rt s2 heq2
      obtain ⟨btb2, kr, hs2, hp2, hr2⟩ := slide_some heq2
      subst hs2
      refine ⟨ft, rt, btb1, btb2, kf, kr, ?_, ?_, ?_, ?_, ?_⟩
      · rcases hr : s.polarBearIsRear with _ | _ <;>
          rcases hbf : s.bearFinished with _ | _ <;>
          rcases hpf : s.penguinFinished with _ | _ <;>
          simp [hr, hbf, hpf] at h ⊢ <;> exact h.symm
      · rcases hr : s.polarBearIsRear with _ | _ <;> simp [hr] at hp1 ⊢ <;> exact hp1
      · rcases hr : s.polarBearIsRear with _ | _ <;> simp [hr] at hp2 ⊢ <;> exact hp2
      · rcases hr : s.polarBearIsRear with _ | _ <;> simp [hr] at hr1 ⊢ <;> exact hr1
      · rcases hr : s.polarBearIsRear with _ | _ <;> simp [hr] at hr2 ⊢ <;> exact hr2

theorem calculateSqueezeTargets_ne_none (fuel : Nat) (s : State)
    (hd : isUnitDirection s.moveDirection) (hb : ¬ outOfBounds s.polarBearGridPos)
    (hp : ¬ outOfBounds s.penguinGridPos) (hf : 11 ≤ fuel) :
    calculateSqueezeTargets fuel s ≠ none := by
  intro h
  unfold calculateSqueezeTargets at h
  simp only [] at h
  split at h
  · rename_i heq
    refine slide_ne_none _ _ _ _ _ (isUnitDirection_neg hd) ?_ hf heq
    split_ifs <;> assumption
  · rename_i ft s1 heq1
    obtain ⟨btb1, kf, hs1, -, -⟩ := slide_some heq1
    subst hs1
    split at h
    · rename_i heq
      refine slide_ne_none _ _ _ _ _ hd ?_ hf heq
      split_ifs <;> assumption
    · split_ifs at h

/-- The last cell of a walk is the start or a cell that is `ok`. -/
theorem PathLen.last {ok halt : Vec2 → Prop} {d curr t : Vec2} {k : Nat}
    (hp : PathLen ok halt d curr t k) : (k = 0 ∧ t = curr) ∨ (1 ≤ k ∧ ok t) := by
  obtain ⟨hk, hok, _, _⟩ := hp
  rcases Nat.eq_zero_or_pos k with h | h
  · left; subst h; exact ⟨rfl, by rw [hk, Vec2.steps_zero]⟩
  · right; rw [hk]; exact ⟨h, hok k h (le_refl k)⟩

theorem computeTarget_map_some {α : Type} {fuel : Nat} {s : State} {start : Vec2}
    {isPenguin : Bool} {d otherStart otherTarget : Vec2} {f : Vec2 × State → α} {x : α}
    (h : (computeTarget fuel s start isPenguin false d otherStart otherTarget).map f = some x) :
    ∃ t k, x = f (t, s) ∧
      PathLen (targetOk s isPenguin false d otherStart otherTarget) (targetHalt s isPenguin)
        d start t k := by
  obtain ⟨⟨t, s1⟩, h1, h2⟩ := Option.map_eq_some'.1 h
  obtain ⟨k, hs, hp⟩ := computeTarget_some h1
  subst hs
  exact ⟨t, k, h2.symm, hp⟩

/-- What the standard branch returns when the targets start at the positions: the front
character (by `standardBearInFront`) walked with the rear position as obstacle, the rear
character walked with the front target as obstacle, a finished character stayed, and the
overlap guard was applied to the two targets. -/
theorem calculateStandardTargets_some {fuel : Nat} {s s' : State}
    (hb : s.polarBearTarget = s.polarBearGridPos) (hp : s.penguinTarget = s.penguinGridPos)
    (h : calculateStandardTargets fuel s = some s') :
    ∃ ft rt kf kr,
      ((if standardBearInFront s then s.bearFinished else s.penguinFinished) = true →
        kf = 0 ∧ ft = (if standardBearInFront s then s.polarBearGridPos else s.penguinGridPos)) ∧
      ((if standardBearInFront s then s.bearFinished else s.penguinFinished) = false →
        PathLen (targetOk s (!standardBearInFront s) false s.moveDirection
            (if standardBearInFront s then s.penguinGridPos else s.polarBearGridPos) NO_TARGET)
          (targetHalt s (!standardBearInFront s)) s.moveDirection
          (if standardBearInFront s then s.polarBearGridPos else s.penguinGridPos) ft kf) ∧
      ((if standardBearInFront s then s.penguinFinished else s.bearFinished) = true →
        kr = 0 ∧ rt = (if standardBearInFront s then s.penguinGridPos else s.polarBearGridPos)) ∧
      ((if standardBearInFront s then s.penguinFinished else s.bearFinished) = false →
        PathLen (targetOk s (standardBearInFront s) false s.moveDirection ft ft)
          (targetHalt s (standardBearInFront s)) s.moveDirection
          (if standardBearInFront s then s.penguinGridPos else s.polarBearGridPos) rt kr) ∧
      s' = (if ft = rt then
          (if standardBearInFront s
            then { s with polarBearTarget := ft, penguinTarget := ft - s.moveDirection }
            else { s with penguinTarget := ft, polarBearTarget := ft - s.moveDirection })
        else
          { s with
            polarBearTarget := if standardBearInFront s then ft else rt
            penguinTarget := if standardBearInFront s then rt else ft }) := by
  unfold calculateStandardTargets at h
  simp only [] at h
  rcases hfr : standardBearInFront s with _ | _
  all_goals
    rcases hbf : s.bearFinished with _ | _ <;> rcases hpf : s.penguinFinished with _ | _
  all_goals
    simp only [hfr, hbf, hpf, Bool.false_eq_true, Bool.true_eq_false, if_false, if_true,
      Bool.not_false, Bool.not_true, and_true, and_false, not_true_eq_false,
      not_false_eq_true, true_and, false_and, and_self] at h ⊢
  -- both unfinished
  case false.false.false | true.false.false =>
    split at h
    · cases h
    · rename_i ft s1 heq1
      obtain ⟨t, kf, hx, hp1⟩ := computeTarget_map_some heq1
      simp only [Prod.mk.injEq] at hx
      obtain ⟨hx1, hx2⟩ := hx
      subst hx1 hx2
      simp only [hbf, hpf, Bool.false_eq_true, not_false_eq_true, if_true] at h
      split at h
      · cases h
      · rename_i s2 heq2
        obtain ⟨rt, kr, hx, hp2⟩ := computeTarget_map_some heq2
        subst hx
        simp only [] at h
        refine ⟨ft, rt, kf, kr, ?_, fun _ => hp1, ?_, fun _ => hp2, ?_⟩
        · intro hc; cases hc
        · intro hc; cases hc
        · by_cases hft : ft = rt
          · subst hft; simpa using h.symm
          · have hft2 : ¬ rt = ft := fun hc => hft hc.symm
            simpa [hft, hft2] using h.symm
  -- front finished, rear unfinished
  case false.false.true | true.true.false =>
    split at h
    · cases h
    · rename_i s2 heq2
      obtain ⟨rt, kr, hx, hp2⟩ := computeTarget_map_some heq2
      subst hx
      simp only [] at h
      refine ⟨_, rt, 0, kr, fun _ => ⟨rfl, rfl⟩, ?_, ?_, fun _ => hp2, ?_⟩
      · intro hc; cases hc
      · intro hc; cases hc
      · simp only [hb, hp] at h
        split_ifs at h ⊢ with h1 h2 h2
        all_goals first
          | exact absurd h1.symm h2
          | exact absurd h2.symm h1
          | (simp only [Option.some.injEq] at h
             rw [← h]
             try simp [hbf, hpf])
  -- front unfinished, rear finished
  case false.true.false | true.false.true =>
    split at h
    · cases h
    · rename_i ft s1 heq1
      obtain ⟨t, kf, hx, hp1⟩ := computeTarget_map_some heq1
      simp only [Prod.mk.injEq] at hx
      obtain ⟨hx1, hx2⟩ := hx
      subst hx1 hx2
      simp only [hbf, hpf, Bool.false_eq_true, not_false_eq_true, if_true, not_true_eq_false,
        if_false, Bool.true_eq_false, and_true, and_false, true_and, false_and, and_self] at h
      refine ⟨ft, _, kf, 0, ?_, fun _ => hp1, fun _ => ⟨rfl, rfl⟩, ?_, ?_⟩
      · intro hc; cases hc
      · intro hc; cases hc
      · simp only [hb, hp] at h
        split_ifs at h ⊢ with h1 h2 h2
        all_goals first
          | exact absurd h1.symm h2
          | exact absurd h2.symm h1
          | (simp only [Option.some.injEq] at h
             rw [← h]
             try simp [hbf, hpf])
  -- both finished
  case false.true.true | true.true.true =>
    refine ⟨_, _, 0, 0, fun _ => ⟨rfl, rfl⟩, ?_, fun _ => ⟨rfl, rfl⟩, ?_, ?_⟩
    · intro hc; cases hc
    · intro hc; cases hc
    · simp only [hb, hp] at h
      split_ifs at h ⊢ with h1 h2 h2
      all_goals first
        | exact absurd h1.symm h2
        | exact absurd h2.symm h1
        | (simp only [Option.some.injEq] at h
           subst h
           cases s
           simp_all)

theorem calculateStandardTargets_ne_none (fuel : Nat) (s : State)
    (hd : isUnitDirection s.moveDirection) (hb : ¬ outOfBounds s.polarBearGridPos)
    (hp : ¬ outOfBounds s.penguinGridPos) (hf : 11 ≤ fuel) :
    calculateStandardTargets fuel s ≠ none := by
  intro h
  unfold calculateStandardTargets at h
  simp only [] at h
  rcases hfr : standardBearInFront s with _ | _
  all_goals
    rcases hbf : s.bearFinished with _ | _ <;> rcases hpf : s.penguinFinished with _ | _
  all_goals
    simp only [hfr, hbf, hpf, Bool.false_eq_true, Bool.true_eq_false, if_false, if_true,
      Bool.not_false, Bool.not_true, and_true, and_false, not_true_eq_false,
      not_false_eq_true, true_and, false_and, and_self] at h
  case false.false.false | true.false.false =>
    split at h
    · rename_i heq
      rw [Option.map_eq_none'] at heq
      first
        | exact computeTarget_ne_none _ _ _ _ _ _ _ hd hb hf heq
        | exact computeTarget_ne_none _ _ _ _ _ _ _ hd hp hf heq
    · rename_i ft s1 heq1
      obtain ⟨t, kf, hx, -⟩ := computeTarget_map_some heq1
      simp only [Prod.mk.injEq] at hx
      obtain ⟨hx1, hx2⟩ := hx
      subst hx1 hx2
      simp only [hbf, hpf, Bool.false_eq_true, not_false_eq_true, if_true] at h
      split at h
      · rename_i heq
        rw [Option.map_eq_none'] at heq
        first
          | exact computeTarget_ne_none _ _ _ _ _ _ _ hd hb hf heq
          | exact computeTarget_ne_none _ _ _ _ _ _ _ hd hp hf heq
      · split_ifs at h
  case false.false.true | true.true.false =>
    split at h
    · rename_i heq
      rw [Option.map_eq_none'] at heq
      first
        | exact computeTarget_ne_none _ _ _ _ _ _ _ hd hb hf heq
        | exact computeTarget_ne_none _ _ _ _ _ _ _ hd hp hf heq
    · split_ifs at h
  case false.true.false | true.false.true =>
    split at h
    · rename_i heq
      rw [Option.map_eq_none'] at heq
      first
        | exact computeTarget_ne_none _ _ _ _ _ _ _ hd hb hf heq
        | exact computeTarget_ne_none _ _ _ _ _ _ _ hd hp hf heq
    · rename_i ft s1 heq1
      obtain ⟨t, kf, hx, -⟩ := computeTarget_map_some heq1
      simp only [Prod.mk.injEq] at hx
      obtain ⟨hx1, hx2⟩ := hx
      subst hx1 hx2
      simp only [hbf, hpf, Bool.false_eq_true, not_false_eq_true, if_true, not_true_eq_false,
        if_false, Bool.true_eq_false, and_true, and_false, true_and, false_and, and_self] at h
      split_ifs at h
  case false.true.true | true.true.true =>
    split_ifs at h

theorem checkForSqueeze_initTargets (s : State) :
    checkForSqueeze (initTargets s) = ((checkForSqueeze s).1, initTargets (checkForSqueeze s).2) := by
  unfold checkForSqueeze
  simp only []
  have hf : ∀ b, checkFrontBlocked (initTargets s) b =
      ((checkFrontBlocked s b).1, initTargets (checkFrontBlocked s b).2) := by
    intro b
    unfold checkFrontBlocked checkNoSqueezeBlocks initTargets
    simp only []
    split_ifs <;> rfl
  have h1 : (initTargets s).polarBearGridPos = s.polarBearGridPos := rfl
  have h2 : (initTargets s).penguinGridPos = s.penguinGridPos := rfl
  have h3 : (initTargets s).moveDirection = s.moveDirection := rfl
  rw [h1, h2, h3]
  split_ifs <;> first | rfl | exact hf _

theorem checkWinCondition_pos (s : State) :
    (checkWinCondition s).polarBearGridPos = s.polarBearGridPos ∧
      (checkWinCondition s).penguinGridPos = s.penguinGridPos := by
  unfold checkWinCondition
  by_cases h : s.bearFinished = true ∧ s.penguinFinished = true ∧ s.winConditionMet = false
  · rw [if_pos h]; exact ⟨rfl, rfl⟩
  · rw [if_neg h]; exact ⟨rfl, rfl⟩

theorem markSimultaneous_pos (b p : Bool) (s : State) :
    (markSimultaneous b p s).polarBearGridPos = s.polarBearGridPos ∧
      (markSimultaneous b p s).penguinGridPos = s.penguinGridPos := by
  unfold markSimultaneous
  split_ifs <;> exact ⟨rfl, rfl⟩

theorem countMoves_pos (b p : Bool) (s : State) :
    (countMoves b p s).polarBearGridPos = s.polarBearGridPos ∧
      (countMoves b p s).penguinGridPos = s.penguinGridPos := by
  unfold countMoves
  simp only []
  split_ifs <;> exact ⟨rfl, rfl⟩

theorem applyTargets_pos (s : State) :
    (applyTargets s).polarBearGridPos =
        (if s.bearFinished = false then s.polarBearTarget else s.polarBearGridPos) ∧
      (applyTargets s).penguinGridPos =
        (if s.penguinFinished = false then s.penguinTarget else s.penguinGridPos) := by
  unfold applyTargets
  simp only []
  split_ifs <;> exact ⟨rfl, rfl⟩

/-- The positions after a completed `updateMovement`: the target for an unfinished
character, the old position for a finished one. -/
theorem updateMovement_pos (s : State) :
    (updateMovement true s).polarBearGridPos =
        (if s.bearFinished = false then s.polarBearTarget else s.polarBearGridPos) ∧
      (updateMovement true s).penguinGridPos =
        (if s.penguinFinished = false then s.penguinTarget else s.penguinGridPos) := by
  unfold updateMovement
  simp only [if_true]
  rw [(checkWinCondition_pos _).1, (checkWinCondition_pos _).2]
  unfold updateFinishState resetMovement
  simp only []
  rw [(countMoves_pos _ _ _).1, (countMoves_pos _ _ _).2, (markSimultaneous_pos _ _ _).1,
    (markSimultaneous_pos _ _ _).2]
  exact applyTargets_pos s

theorem calculateMovementTargets_eq (fuel : Nat) (s : State) :
    calculateMovementTargets fuel s =
      if s.bearFinished = true ∧ s.penguinFinished = true then
        some { initTargets s with isMoving := false, moveDirection := Vec2.ZERO }
      else if (checkForSqueeze s).1 = true then
        calculateSqueezeTargets fuel
          { initTargets (checkForSqueeze s).2 with squeezeJustOccurred := true }
      else
        calculateStandardTargets fuel
          { initTargets (checkForSqueeze s).2 with squeezeJustOccurred := false } := by
  unfold calculateMovementTargets
  simp only []
  rw [checkForSqueeze_initTargets]
  by_cases hb : s.bearFinished = true ∧ s.penguinFinished = true
  · rw [if_pos hb, if_pos (show (initTargets s).bearFinished = true ∧
      (initTargets s).penguinFinished = true from hb)]
  · rw [if_neg hb, if_neg (show ¬ ((initTargets s).bearFinished = true ∧
      (initTargets s).penguinFinished = true) from hb)]
    rcases hc : (checkForSqueeze s).1 with _ | _
    · simp
    · simp

/-- The state `calculateSqueezeTargets` and `calculateStandardTargets` start from. -/
theorem checkForSqueeze_state (s : State) (b : Bool) :
    ∃ btb rear, ({ initTargets (checkForSqueeze s).2 with squeezeJustOccurred := b } : State) =
      { s with
        polarBearPrevPos := s.polarBearGridPos
        penguinPrevPos := s.penguinGridPos
        polarBearTarget := s.polarBearGridPos
        penguinTarget := s.penguinGridPos
        blocksToBreak := btb
        polarBearIsRear := rear
        squeezeJustOccurred := b } ∧
      (checkForSqueeze s).2.polarBearIsRear = rear ∧
      (checkForSqueeze s).2.blocksToBreak = btb := by
  obtain ⟨btb, rear, h, -⟩ := checkForSqueeze_snd s
  refine ⟨btb, rear, ?_, ?_, ?_⟩
  · rw [h]; rfl
  · rw [h]
  · rw [h]

theorem calculateMovementTargets_frame {fuel : Nat} {s s' : State}
    (h : calculateMovementTargets fuel s = some s') : Frame s s' := by
  rw [calculateMovementTargets_eq] at h
  split_ifs at h with h1 h2
  · simp only [Option.some.injEq] at h
    subst h
    simp [Frame, initTargets]
  · obtain ⟨btb, rear, hs, -, -⟩ := checkForSqueeze_state s true
    rw [hs] at h
    obtain ⟨ft, rt, btb1, btb2, kf, kr, hs', -⟩ := calculateSqueezeTargets_some h
    subst hs'
    simp [Frame]
  · obtain ⟨btb, rear, hs, -, -⟩ := checkForSqueeze_state s false
    rw [hs] at h
    obtain ⟨ft, rt, kf, kr, -, -, -, -, hs'⟩ := calculateStandardTargets_some rfl rfl h
    subst hs'
    unfold Frame
    split_ifs <;> simp

theorem calculateMovementTargets_ne_none (fuel : Nat) (s : State)
    (hd : isUnitDirection s.moveDirection) (hb : ¬ outOfBounds s.polarBearGridPos)
    (hp : ¬ outOfBounds s.penguinGridPos) (hf : 11 ≤ fuel) :
    calculateMovementTargets fuel s ≠ none := by
  rw [calculateMovementTargets_eq]
  split_ifs with h1 h2
  · simp
  · obtain ⟨btb, rear, hs, -, -⟩ := checkForSqueeze_state s true
    rw [hs]
    exact calculateSqueezeTargets_ne_none fuel _ hd hb hp hf
  · obtain ⟨btb, rear, hs, -, -⟩ := checkForSqueeze_state s false
    rw [hs]
    exact calculateStandardTargets_ne_none fuel _ hd hb hp hf

theorem isUnitDirection_ne_zero {d : Vec2} (hd : isUnitDirection d) : d ≠ Vec2.ZERO := by
  rcases hd with h | h | h | h <;> rw [h] <;> decide

theorem moveCharacters_eq (fuel : Nat) (s : State) {d : Vec2} (hd : isUnitDirection d)
    (hm : s.isMoving = false) :
    moveCharacters fuel s d =
      calculateMovementTargets fuel { s with moveDirection := d, isMoving := true } := by
  unfold moveCharacters
  rw [if_pos ⟨hm, isUnitDirection_ne_zero hd⟩]

/-- Outcome of a resolution on the squeeze path.  The front character is the penguin exactly
when the bear is not the front (`fP`); it slid against the direction, the rear character
along it, both with `slide` and `canBreak` on. -/
theorem squeeze_outcome {fuel : Nat} {s s' : State} (hd : isUnitDirection s.moveDirection)
    (h : calculateMovementTargets fuel s = some s')
    (hnf : ¬ (s.bearFinished = true ∧ s.penguinFinished = true))
    (hsq : (checkForSqueeze s).1 = true) :
    ∃ ft rt kf kr btb1,
      PathLen (enterable s (!decide (bearIsFront s s.moveDirection)))
        (slideHalt s (!decide (bearIsFront s s.moveDirection)) true) (-s.moveDirection)
        (s.posOf (!decide (bearIsFront s s.moveDirection))) ft kf ∧
      PathLen (enterable s (decide (bearIsFront s s.moveDirection)))
        (slideHalt s (decide (bearIsFront s s.moveDirection)) true) s.moveDirection
        (s.posOf (decide (bearIsFront s s.moveDirection))) rt kr ∧
      s'.targetOf (!decide (bearIsFront s s.moveDirection)) =
        (if s.finishedOf (!decide (bearIsFront s s.moveDirection)) = false then ft
         else s.posOf (!decide (bearIsFront s s.moveDirection))) ∧
      s'.targetOf (decide (bearIsFront s s.moveDirection)) =
        (if s.finishedOf (decide (bearIsFront s s.moveDirection)) = false then rt
         else s.posOf (decide (bearIsFront s s.moveDirection))) ∧
      Recorded s (!decide (bearIsFront s s.moveDirection)) true (-s.moveDirection)
        (s.posOf (!decide (bearIsFront s s.moveDirection))) kf
        (checkForSqueeze s).2.blocksToBreak btb1 ∧
      Recorded s (decide (bearIsFront s s.moveDirection)) true s.moveDirection
        (s.posOf (decide (bearIsFront s s.moveDirection))) kr btb1 s'.blocksToBreak := by
  rw [calculateMovementTargets_eq, if_neg hnf, if_pos hsq] at h
  obtain ⟨btb, rear, hs, hrear, hbtb⟩ := checkForSqueeze_state s true
  rw [hs] at h
  obtain ⟨ft, rt, btb1, btb2, kf, kr, hs', hp1, hp2, hr1, hr2⟩ := calculateSqueezeTargets_some h
  have hr := checkForSqueeze_rear s hd hsq
  rw [hrear] at hr
  rw [hbtb]
  subst hs'
  subst hr
  refine ⟨ft, rt, kf, kr, btb1, ?_, ?_, ?_, ?_, ?_, ?_⟩
  · simpa [State.posOf] using hp1
  · simpa [State.posOf] using hp2
  · by_cases hf : bearIsFront s s.moveDirection <;> simp [State.targetOf, State.posOf, State.finishedOf, hf]
  · by_cases hf : bearIsFront s s.moveDirection <;> simp [State.targetOf, State.posOf, State.finishedOf, hf]
  · simpa [State.posOf] using hr1
  · simpa [State.posOf] using hr2

/-- Outcome of a resolution on the standard path from distinct positions.  The front
character is the penguin exactly when `standardBearInFront` is off; it walked with the
rear position as obstacle, the rear character with the front target as obstacle, finished
characters stayed, the two targets differ and nothing was recorded for breaking. -/
theorem standard_outcome {fuel : Nat} {s s' : State}
    (h : calculateMovementTargets fuel s = some s')
    (hnf : ¬ (s.bearFinished = true ∧ s.penguinFinished = true))
    (hsq : (checkForSqueeze s).1 = false)
    (hne : s.polarBearGridPos ≠ s.penguinGridPos) :
    ∃ ft rt kf kr,
      (s.finishedOf (!standardBearInFront s) = true →
        kf = 0 ∧ ft = s.posOf (!standardBearInFront s)) ∧
      (s.finishedOf (!standardBearInFront s) = false →
        PathLen (targetOk s (!standardBearInFront s) false s.moveDirection
            (s.posOf (standardBearInFront s)) NO_TARGET)
          (targetHalt s (!standardBearInFront s)) s.moveDirection
          (s.posOf (!standardBearInFront s)) ft kf) ∧
      (s.finishedOf (standardBearInFront s) = true →
        kr = 0 ∧ rt = s.posOf (standardBearInFront s)) ∧
      (s.finishedOf (standardBearInFront s) = false →
        PathLen (targetOk s (standardBearInFront s) false s.moveDirection ft ft)
          (targetHalt s (standardBearInFront s)) s.moveDirection
          (s.posOf (standardBearInFront s)) rt kr) ∧
      ft ≠ rt ∧
      s'.targetOf (!standardBearInFront s) = ft ∧
      s'.targetOf (standardBearInFront s) = rt ∧
      s'.blocksToBreak = (checkForSqueeze s).2.blocksToBreak := by
  rw [calculateMovementTargets_eq, if_neg hnf, if_neg (by rw [hsq]; simp)] at h
  obtain ⟨btb, rear, hs, -, hbtb⟩ := checkForSqueeze_state s false
  rw [hs] at h
  obtain ⟨ft, rt, kf, kr, h1, h2, h3, h4, hs'⟩ := calculateStandardTargets_some rfl rfl h
  rw [hbtb]
  have hfr : ∀ x : State, x.polarBearGridPos = s.polarBearGridPos →
      x.penguinGridPos = s.penguinGridPos → x.moveDirection = s.moveDirection →
      standardBearInFront x = standardBearInFront s := by
    intro x hx1 hx2 hx3
    unfold standardBearInFront
    rw [hx1, hx2, hx3]
  have hfr1 := hfr { s with
    polarBearPrevPos := s.polarBearGridPos
    penguinPrevPos := s.penguinGridPos
    polarBearTarget := s.polarBearGridPos
    penguinTarget := s.penguinGridPos
    blocksToBreak := btb
    polarBearIsRear := rear
    squeezeJustOccurred := false } rfl rfl rfl
  rw [hfr1] at h1 h2 h3 h4 hs'
  -- the front target is not the rear position
  have hft : ft ≠ s.posOf (standardBearInFront s) := by
    rcases hff : s.finishedOf (!standardBearInFront s) with _ | _
    · have hp := h2 (by simpa [State.finishedOf] using hff)
      rcases hp.last with ⟨-, hl⟩ | ⟨-, hl⟩
      · rw [hl]
        rcases hb : standardBearInFront s with _ | _ <;> simp [State.posOf] <;> tauto
      · intro hc
        apply hl.1
        right
        refine ⟨rfl, ?_⟩
        rw [hc]
        rcases hb : standardBearInFront s with _ | _ <;> simp [State.posOf]
    · have hp := h1 (by simpa [State.finishedOf] using hff)
      rw [hp.2]
      rcases hb : standardBearInFront s with _ | _ <;> simp [State.posOf] <;> tauto
  have hne' : ft ≠ rt := by
    rcases hrf : s.finishedOf (standardBearInFront s) with _ | _
    · have hp := h4 (by simpa [State.finishedOf] using hrf)
      rcases hp.last with ⟨-, hl⟩ | ⟨-, hl⟩
      · rw [hl]
        rcases hb : standardBearInFront s with _ | _ <;> simpa [State.posOf, hb] using hft
      · intro hc
        exact hl.1 (Or.inl hc.symm)
    · have hp := h3 (by simpa [State.finishedOf] using hrf)
      rw [hp.2]
      rcases hb : standardBearInFront s with _ | _ <;> simpa [State.posOf, hb] using hft
  rw [if_neg hne'] at hs'
  subst hs'
  refine ⟨ft, rt, kf, kr, ?_, ?_, ?_, ?_, hne', ?_, ?_, rfl⟩
  · intro hf
    rcases hb : standardBearInFront s with _ | _ <;>
      simpa [State.posOf, State.finishedOf, hb] using h1 (by simpa [State.finishedOf, hb] using hf)
  · intro hf
    rcases hb : standardBearInFront s with _ | _ <;>
      simpa [State.posOf, State.finishedOf, hb] using h2 (by simpa [State.finishedOf, hb] using hf)
  · intro hf
    rcases hb : standardBearInFront s with _ | _ <;>
      simpa [State.posOf, State.finishedOf, hb] using h3 (by simpa [State.finishedOf, hb] using hf)
  · intro hf
    rcases hb : standardBearInFront s with _ | _ <;>
      simpa [State.posOf, State.finishedOf, hb] using h4 (by simpa [State.finishedOf, hb] using hf)
  · rcases hb : standardBearInFront s with _ | _ <;> simp [State.targetOf, hb]
  · rcases hb : standardBearInFront s with _ | _ <;> simp [State.targetOf, hb]

/-- The position of a character after the resolution `s'` of `s` has been applied. -/
theorem final_posOf {s s' : State} (hfr : Frame s s') (c : Bool) :
    (updateMovement true s').posOf c =
      (if s.finishedOf c = false then s'.targetOf c else s.posOf c) := by
  obtain ⟨-, h2, h3, h4, h5, -⟩ := hfr
  have h := updateMovement_pos s'
  cases c
  · simp only [State.posOf, State.finishedOf, State.targetOf, Bool.false_eq_true, if_false]
    rw [h.1, h4, h2]
  · simp only [State.posOf, State.finishedOf, State.targetOf, if_true]
    rw [h.2, h5, h3]

theorem posOf_ne {s : State} (c : Bool) (h : s.posOf c ≠ s.posOf (!c)) :
    s.polarBearGridPos ≠ s.penguinGridPos := by
  cases c
  · simpa [State.posOf] using h
  · intro hc; apply h; simp [State.posOf, hc]

/-- In a squeeze the front character stands one step ahead of the rear character. -/
theorem front_eq_rear_add {s : State} (hd : isUnitDirection s.moveDirection)
    (ha : adjacentAlongAxis s s.moveDirection) :
    s.posOf (!decide (bearIsFront s s.moveDirection)) =
      s.posOf (decide (bearIsFront s s.moveDirection)) + s.moveDirection := by
  by_cases hb : bearIsFront s s.moveDirection
  · simp only [State.posOf, hb, decide_True, Bool.not_true, Bool.false_eq_true, if_false,
      if_true]
    exact hb
  · simp only [State.posOf, hb, decide_False, Bool.not_false, if_true, Bool.false_eq_true,
      if_false]
    unfold bearIsFront at hb
    unfold adjacentAlongAxis at ha
    rw [Vec2.ext_iff] at hb ⊢
    simp only [Vec2.add_x, Vec2.add_y] at hb ⊢
    rcases hd with h | h | h | h <;> rw [h] at ha hb ⊢ <;> simp at ha hb ⊢ <;> omega

/-- Two opposite walks of at least one step each from adjacent cells end on different cells. -/
theorem steps_apart {d f r : Vec2} (hd : isUnitDirection d) (hfr : f = r + d) {kf kr : Nat}
    (hkf : 1 ≤ kf) (hkr : 1 ≤ kr) : f.steps (-d) kf ≠ r.steps d kr := by
  rw [hfr]
  intro h
  rw [Vec2.ext_iff] at h
  simp only [Vec2.steps_x, Vec2.steps_y, Vec2.add_x, Vec2.add_y, Vec2.neg_x, Vec2.neg_y] at h
  rcases hd with h1 | h1 | h1 | h1 <;> rw [h1] at h <;> simp at h <;> omega

theorem PathLen.pos {ok halt : Vec2 → Prop} {d curr t : Vec2} {k : Nat}
    (hp : PathLen ok halt d curr t k) (h : ok (curr + d)) : 1 ≤ k := by
  by_contra hc
  have hk : k = 0 := by omega
  subst hk
  obtain ⟨ht, -, -, hstop⟩ := hp
  rw [Vec2.steps_zero] at ht
  rcases hstop with ⟨h1, -⟩ | h1
  · omega
  · rw [ht] at h1; exact h1 h

/-- Claim C1.  For every grid, every unit direction and every pair of distinct in-bounds
positions in which each character stands on a cell it may occupy, the finish-tile lists
agreeing with the grid and a finished flag set only for a character on its finish tile (as
`updateFinishState` keeps it), the two positions applied by the completing `updateMovement`
after `calculateMovementTargets` are never equal. -/
theorem C1_final_positions_distinct (fuel : Nat) (s : State) (hf : 11 ≤ fuel)
    (hd : isUnitDirection s.moveDirection)
    (hne : s.polarBearGridPos ≠ s.penguinGridPos)
    (hbe : enterable s false s.polarBearGridPos) (hpe : enterable s true s.penguinGridPos)
    (hbl : ∀ p, ¬ outOfBounds p → (p ∈ s.bearFinishBlocks ↔ s.grid p.x p.y = 4))
    (hpl : ∀ p, ¬ outOfBounds p → (p ∈ s.penguinFinishBlocks ↔ s.grid p.x p.y = 5))
    (hbf : s.bearFinished = true → s.polarBearGridPos ∈ s.bearFinishBlocks)
    (hpf : s.penguinFinished = true → s.penguinGridPos ∈ s.penguinFinishBlocks) :
    ∃ s', calculateMovementTargets fuel s = some s' ∧
      (updateMovement true s').polarBearGridPos ≠ (updateMovement true s').penguinGridPos := by
  rcases hr : calculateMovementTargets fuel s with _ | s'
  · exact absurd hr (calculateMovementTargets_ne_none fuel s hd hbe.1 hpe.1 hf)
  refine ⟨s', rfl, ?_⟩
  have hfr := calculateMovementTargets_frame hr
  by_cases hboth : s.bearFinished = true ∧ s.penguinFinished = true
  · have h1 := final_posOf hfr false
    have h2 := final_posOf hfr true
    simp only [State.posOf, State.finishedOf, hboth.1, hboth.2, Bool.false_eq_true, if_false,
      if_true, Bool.true_eq_false] at h1 h2
    rw [h1, h2]; exact hne
  rcases hsq : (checkForSqueeze s).1 with _ | _
  · -- standard path
    obtain ⟨ft, rt, kf, kr, h1, h2, h3, h4, hne', ht1, ht2, -⟩ :=
      standard_outcome hr hboth hsq hne
    apply posOf_ne (!standardBearInFront s)
    rw [final_posOf hfr, final_posOf hfr, Bool.not_not, ht1, ht2]
    rcases hff : s.finishedOf (!standardBearInFront s) with _ | _ <;>
      rcases hrf : s.finishedOf (standardBearInFront s) with _ | _
    · simpa using hne'
    · simpa [(h3 hrf).2] using hne'
    · simpa [(h1 hff).2] using hne'
    · simp only [Bool.true_eq_false, if_false]
      rw [← (h1 hff).2, ← (h3 hrf).2]; exact hne'
  · -- squeeze path
    have hspec := (checkForSqueeze_true_iff s hd).1 hsq
    obtain ⟨hadj, -, hanch⟩ := hspec
    have hbu : s.bearFinished = false := by
      rw [← Bool.not_eq_true]
      intro hc
      exact hanch (Or.inr (Or.inl ((hbl _ hbe.1).1 (hbf hc))))
    have hpu : s.penguinFinished = false := by
      rw [← Bool.not_eq_true]
      intro hc
      exact hanch (Or.inr (Or.inr (Or.inr ((hpl _ hpe.1).1 (hpf hc)))))
    obtain ⟨ft, rt, kf, kr, btb1, hp1, hp2, ht1, ht2, -, -⟩ := squeeze_outcome hd hr hboth hsq
    have hfr' := front_eq_rear_add hd hadj
    have hanch' : s.grid s.polarBearGridPos.x s.polarBearGridPos.y ≠ 2 ∧
        s.grid s.polarBearGridPos.x s.polarBearGridPos.y ≠ 4 ∧
        s.grid s.penguinGridPos.x s.penguinGridPos.y ≠ 3 ∧
        s.grid s.penguinGridPos.x s.penguinGridPos.y ≠ 5 := by
      unfold anchored at hanch; tauto
    have hkf : 1 ≤ kf := by
      apply hp1.pos
      have : s.posOf (!decide (bearIsFront s s.moveDirection)) + -s.moveDirection =
          s.posOf (decide (bearIsFront s s.moveDirection)) := by
        rw [hfr']; ext <;> simp
      rw [this]
      by_cases hb : bearIsFront s s.moveDirection
      · simp only [hb, decide_True, Bool.not_true, State.posOf, if_true]
        exact ⟨hpe.1, hpe.2.1, hpe.2.2.1, fun hc => Bool.noConfusion hc,
          fun _ => ⟨hanch'.2.2.1, hanch'.2.2.2⟩⟩
      · simp only [hb, decide_False, Bool.not_false, State.posOf, Bool.false_eq_true, if_false]
        exact ⟨hbe.1, hbe.2.1, hbe.2.2.1, fun _ => ⟨hanch'.1, hanch'.2.1⟩,
          fun hc => Bool.noConfusion hc⟩
    have hkr : 1 ≤ kr := by
      apply hp2.pos
      rw [← hfr']
      by_cases hb : bearIsFront s s.moveDirection
      · simp only [hb, decide_True, Bool.not_true, State.posOf, Bool.false_eq_true, if_false]
        exact ⟨hbe.1, hbe.2.1, hbe.2.2.1, fun _ => ⟨hanch'.1, hanch'.2.1⟩,
          fun hc => Bool.noConfusion hc⟩
      · simp only [hb, decide_False, Bool.not_false, State.posOf, if_true]
        exact ⟨hpe.1, hpe.2.1, hpe.2.2.1, fun hc => Bool.noConfusion hc,
          fun _ => ⟨hanch'.2.2.1, hanch'.2.2.2⟩⟩
    have hdiff : ft ≠ rt := by
      rw [hp1.1, hp2.1]
      exact steps_apart hd hfr' hkf hkr
    apply posOf_ne (!decide (bearIsFront s s.moveDirection))
    rw [final_posOf hfr, final_posOf hfr, Bool.not_not, ht1, ht2]
    have hfin : ∀ c, s.finishedOf c = false := by
      intro c; cases c
      · simpa [State.finishedOf] using hbu
      · simpa [State.finishedOf] using hpu
    simp only [hfin, if_true]
    exact hdiff

theorem C1_witness :
    (calculateMovementTargets 11 scenarioB).map (fun s' =>
      decide ((updateMovement true s').polarBearGridPos ≠
        (updateMovement true s').penguinGridPos)) = some true := by
  obtain ⟨s', h, hne⟩ := C1_final_positions_distinct 11 scenarioB (by decide) (by decide)
    (by decide) (by decide) (by decide)
    (by intro p _; simp only [scenarioB, mkState, gridB]; split_ifs <;> simp)
    (by intro p _; simp only [scenarioB, mkState, gridB]; split_ifs <;> simp)
    (by decide) (by decide)
  rw [h]
  simp [hne]

theorem slideLoop_mono (s : State) (isPenguin canBreak : Bool) (d : Vec2) :
    ∀ (n : Nat) (curr : Vec2) (btb : List BreakableBlockInfo) (r : Vec2 × List BreakableBlockInfo),
      slideLoop s isPenguin canBreak d n curr btb = some r →
      slideLoop s isPenguin canBreak d (n + 1) curr btb = some r := by
  intro n
  induction n with
  | zero => intro curr btb r h; simp [slideLoop] at h
  | succ n ih =>
    intro curr btb r h
    rw [slideLoop] at h ⊢
    simp only [] at h ⊢
    split_ifs at h ⊢
    all_goals first
      | with_reducible exact h
      | with_reducible exact ih _ _ _ h

set_option maxHeartbeats 1000000 in
theorem computeTargetLoop_mono (s : State) (isPenguin canBreak : Bool)
    (d otherStart otherTarget : Vec2) :
    ∀ (n : Nat) (curr : Vec2) (btb : List BreakableBlockInfo) (r : Vec2 × List BreakableBlockInfo),
      computeTargetLoop s isPenguin canBreak d otherStart otherTarget n curr btb = some r →
      computeTargetLoop s isPenguin canBreak d otherStart otherTarget (n + 1) curr btb
        = some r := by
  intro n
  induction n with
  | zero => intro curr btb r h; simp [computeTargetLoop] at h
  | succ n ih =>
    intro curr btb r h
    rw [computeTargetLoop] at h ⊢
    simp only [] at h ⊢
    split_ifs at h ⊢
    all_goals first
      | with_reducible exact h
      | with_reducible exact ih _ _ _ h

theorem slide_mono {fuel : Nat} {s : State} {start : Vec2} {isPenguin canBreak : Bool}
    {d : Vec2} {r : Vec2 × State} (h : slide fuel s start isPenguin canBreak d = some r)
    (m : Nat) (hm : fuel ≤ m) : slide m s start isPenguin canBreak d = some r := by
  induction m with
  | zero =>
    have : fuel = 0 := by omega
    subst this; exact h
  | succ m ih =>
    rcases Nat.eq_or_lt_of_le hm with h1 | h1
    · subst h1; exact h
    · have h2 := ih (by omega)
      unfold slide at h2 ⊢
      obtain ⟨a, ha, hf⟩ := Option.map_eq_some'.1 h2
      rw [slideLoop_mono s isPenguin canBreak d m start s.blocksToBreak a ha]
      simpa using hf

theorem computeTarget_mono {fuel : Nat} {s : State} {start : Vec2} {isPenguin canBreak : Bool}
    {d otherStart otherTarget : Vec2} {r : Vec2 × State}
    (h : computeTarget fuel s start isPenguin canBreak d otherStart otherTarget = some r)
    (m : Nat) (hm : fuel ≤ m) :
    computeTarget m s start isPenguin canBreak d otherStart otherTarget = some r := by
  induction m with
  | zero =>
    have : fuel = 0 := by omega
    subst this; exact h
  | succ m ih =>
    rcases Nat.eq_or_lt_of_le hm with h1 | h1
    · subst h1; exact h
    · have h2 := ih (by omega)
      unfold computeTarget at h2 ⊢
      obtain ⟨a, ha, hf⟩ := Option.map_eq_some'.1 h2
      rw [computeTargetLoop_mono s isPenguin canBreak d otherStart otherTarget m start
        s.blocksToBreak a ha]
      simpa using hf

theorem calculateSqueezeTargets_mono {fuel : Nat} {s s' : State}
    (h : calculateSqueezeTargets fuel s = some s') (m : Nat) (hm : fuel ≤ m) :
    calculateSqueezeTargets m s = some s' := by
  unfold calculateSqueezeTargets at h ⊢
  simp only [] at h ⊢
  split at h
  · cases h
  · rename_i ft s1 heq1
    rw [slide_mono heq1 m hm]
    simp only []
    split at h
    · cases h
    · rename_i rt s2 heq2
      rw [slide_mono heq2 m hm]
      exact h

theorem calculateStandardTargets_mono {fuel : Nat} {s s' : State}
    (h : calculateStandardTargets fuel s = some s') (m : Nat) (hm : fuel ≤ m) :
    calculateStandardTargets m s = some s' := by
  have key : ∀ {α : Type} (st : State) (start : Vec2) (ip : Bool) (dd o1 o2 : Vec2)
      (f : Vec2 × State → α) (x : α),
      (computeTarget fuel st start ip false dd o1 o2).map f = some x →
      (computeTarget m st start ip false dd o1 o2).map f = some x := by
    intro α st start ip dd o1 o2 f x hx
    obtain ⟨a, ha, hf⟩ := Option.map_eq_some'.1 hx
    rw [computeTarget_mono ha m hm]
    simpa using hf
  unfold calculateStandardTargets at h ⊢
  simp only [] at h ⊢
  rcases hfr : standardBearInFront s with _ | _
  all_goals
    rcases hbf : s.bearFinished with _ | _ <;> rcases hpf : s.penguinFinished with _ | _
  all_goals
    simp only [hfr, hbf, hpf, Bool.false_eq_true, Bool.true_eq_false, if_false, if_true,
      Bool.not_false, Bool.not_true, and_true, and_false, not_true_eq_false,
      not_false_eq_true, true_and, false_and, and_self] at h ⊢
  case false.false.false | true.false.false =>
    split at h
    · cases h
    · rename_i ft s1 heq1
      rw [key _ _ _ _ _ _ _ _ heq1]
      obtain ⟨t, kf, hx, -⟩ := computeTarget_map_some heq1
      simp only [Prod.mk.injEq] at hx
      obtain ⟨hx1, hx2⟩ := hx
      subst hx1 hx2
      simp only [hbf, hpf, Bool.false_eq_true, not_false_eq_true, if_true] at h ⊢
      split at h
      · cases h
      · rename_i s2 heq2
        rw [key _ _ _ _ _ _ _ _ heq2]
        exact h
  case false.false.true | true.true.false =>
    split at h
    · cases h
    · rename_i s2 heq2
      rw [key _ _ _ _ _ _ _ _ heq2]
      exact h
  case false.true.false | true.false.true =>
    split at h
    · cases h
    · rename_i ft s1 heq1
      rw [key _ _ _ _ _ _ _ _ heq1]
      obtain ⟨t, kf, hx, -⟩ := computeTarget_map_some heq1
      simp only [Prod.mk.injEq] at hx
      obtain ⟨hx1, hx2⟩ := hx
      subst hx1 hx2
      simp only [hbf, hpf, Bool.false_eq_true, not_false_eq_true, if_true, not_true_eq_false,
        if_false, Bool.true_eq_false, and_true, and_false, true_and, false_and, and_self] at h ⊢
      exact h
  case false.true.true | true.true.true =>
    exact h

theorem calculateMovementTargets_mono {fuel : Nat} {s s' : State}
    (h : calculateMovementTargets fuel s = some s') (m : Nat) (hm : fuel ≤ m) :
    calculateMovementTargets m s = some s' := by
  rw [calculateMovementTargets_eq] at h ⊢
  split_ifs at h ⊢ with h1 h2
  · exact h
  · exact calculateSqueezeTargets_mono h m hm
  · exact calculateStandardTargets_mono h m hm

theorem moveCharacters_mono {fuel : Nat} {s s' : State} {d : Vec2}
    (h : moveCharacters fuel s d = some s') (m : Nat) (hm : fuel ≤ m) :
    moveCharacters m s d = some s' := by
  unfold moveCharacters at h ⊢
  split_ifs at h ⊢ with h1
  · exact calculateMovementTargets_mono h m hm
  · exact h

/-- Claim C4, as stated, fails: in Scenario B the resolution does not yield light target
(3,5) and heavy target (2,5). -/
theorem C4_counterexample :
    (moveCharacters 11 (mkState gridB [] [] ⟨3, 5⟩ ⟨4, 5⟩) ⟨1, 0⟩).map
      (fun s' => (s'.squeezeJustOccurred, s'.penguinTarget, s'.polarBearTarget)) ≠
      some (true, ⟨3, 5⟩, ⟨2, 5⟩) := by
  decide

/-- Claim C4, amended.  Scenario B: on an otherwise empty 7x11 grid with a Wall at (5,5),
heavy at (3,5), light at (4,5) and direction right, the resolution (with any fuel of at
least 11) reports a squeeze and yields light target (0,5) and heavy target (4,5): the two
characters pass through each other, and the two targets are distinct. -/
theorem C4_scenarioB_squeeze (fuel : Nat) (hf : 11 ≤ fuel) :
    (moveCharacters fuel (mkState gridB [] [] ⟨3, 5⟩ ⟨4, 5⟩) ⟨1, 0⟩).map
      (fun s' => (s'.squeezeJustOccurred, s'.penguinTarget, s'.polarBearTarget,
        decide (s'.penguinTarget ≠ s'.polarBearTarget))) =
      some (true, ⟨0, 5⟩, ⟨4, 5⟩, true) := by
  rcases h : moveCharacters 11 (mkState gridB [] [] ⟨3, 5⟩ ⟨4, 5⟩) ⟨1, 0⟩ with _ | s'
  · have hs : (moveCharacters 11 (mkState gridB [] [] ⟨3, 5⟩ ⟨4, 5⟩) ⟨1, 0⟩).isSome = true := by
      decide
    rw [h] at hs
    cases hs
  · rw [moveCharacters_mono h fuel hf]
    have h2 : (moveCharacters 11 (mkState gridB [] [] ⟨3, 5⟩ ⟨4, 5⟩) ⟨1, 0⟩).map
      (fun s' => (s'.squeezeJustOccurred, s'.penguinTarget, s'.polarBearTarget,
        decide (s'.penguinTarget ≠ s'.polarBearTarget))) =
      some (true, ⟨0, 5⟩, ⟨4, 5⟩, true) := by decide
    rw [h] at h2
    exact h2

theorem C4_witness :
    (moveCharacters 12 (mkState gridB [] [] ⟨3, 5⟩ ⟨4, 5⟩) ⟨1, 0⟩).map
      (fun s' => (s'.squeezeJustOccurred, s'.penguinTarget, s'.polarBearTarget,
        decide (s'.penguinTarget ≠ s'.polarBearTarget))) =
      some (true, ⟨0, 5⟩, ⟨4, 5⟩, true) :=
  C4_scenarioB_squeeze 12 (by decide)

theorem Vec2.steps_steps (p d : Vec2) (a b : Nat) :
    (p.steps d a).steps d b = p.steps d (a + b) := by
  ext <;> simp <;> ring

theorem steps_injective {d p : Vec2} (hd : isUnitDirection d) {a b : Nat}
    (h : p.steps d a = p.steps d b) : a = b := by
  rw [Vec2.ext_iff] at h
  simp only [Vec2.steps_x, Vec2.steps_y] at h
  rcases hd with h1 | h1 | h1 | h1 <;> rw [h1] at h <;> simp at h <;> omega

theorem wouldPassThroughOther_unit {d : Vec2} (hd : isUnitDirection d) (p o : Vec2) :
    wouldPassThroughOther (p - d) p d o = false := by
  unfold wouldPassThroughOther
  rcases hd with h1 | h1 | h1 | h1 <;> rw [h1] <;> simp <;> intros <;> omega

/-- On a common line along a unit direction the code's coordinate comparison finds the
character that is ahead: the bear is in front exactly when the rear is the penguin. -/
theorem standardBearInFront_of_line {s : State} (hd : isUnitDirection s.moveDirection)
    (c : Bool) {a : Nat} (ha : 1 ≤ a)
    (hline : s.posOf (!c) = (s.posOf c).steps s.moveDirection a) :
    standardBearInFront s = c := by
  unfold standardBearInFront
  rw [Vec2.ext_iff] at hline
  cases c <;> simp only [State.posOf, Bool.not_false, Bool.not_true, if_true,
    Bool.false_eq_true, if_false, Vec2.steps_x, Vec2.steps_y] at hline <;>
  rcases hd with h1 | h1 | h1 | h1 <;> rw [h1] at hline ⊢ <;> simp at hline ⊢ <;> omega

theorem pos_ne_of_line {s : State} (hd : isUnitDirection s.moveDirection)
    (c : Bool) {a : Nat} (ha : 1 ≤ a)
    (hline : s.posOf (!c) = (s.posOf c).steps s.moveDirection a) :
    s.polarBearGridPos ≠ s.penguinGridPos := by
  apply posOf_ne (!c)
  rw [Bool.not_not, hline]
  intro h
  have h0 : (s.posOf c).steps s.moveDirection a = (s.posOf c).steps s.moveDirection 0 := by
    rw [h, Vec2.steps_zero]
  have := steps_injective hd h0
  omega

/-- Claim C8.  For every slide (`slide` and `computeTarget`, any unit direction, any
in-bounds start, enough fuel), the call returns a target `k` steps from the start, and if
a cell `j ≥ 1` steps after the start is in the character's own finish-tile list then
`k ≤ j`: the target is the first such cell or an earlier one, never a later one. -/
theorem C8_never_past_own_finish (fuel : Nat) (s : State) (start : Vec2)
    (isPenguin canBreak : Bool) (d otherStart otherTarget : Vec2) (hf : 11 ≤ fuel)
    (hd : isUnitDirection d) (hs : ¬ outOfBounds start) :
    (∃ t s1 k, slide fuel s start isPenguin canBreak d = some (t, s1) ∧ t = start.steps d k ∧
      ∀ j, 1 ≤ j → start.steps d j ∈ ownFinishBlocks s isPenguin → k ≤ j) ∧
    (∃ t s1 k, computeTarget fuel s start isPenguin canBreak d otherStart otherTarget
        = some (t, s1) ∧ t = start.steps d k ∧
      ∀ j, 1 ≤ j → start.steps d j ∈ ownFinishBlocks s isPenguin → k ≤ j) := by
  constructor
  · obtain ⟨t, btb, k, h, hp, -⟩ := slide_spec fuel s start isPenguin canBreak hd hs hf
    refine ⟨t, _, k, h, hp.1, fun j hj hm => ?_⟩
    by_contra hc
    exact hp.2.2.1 j hj (by omega) (Or.inl ((finishBlockAt_iff _ _).2 hm))
  · obtain ⟨t, btb, k, h, hp, -⟩ :=
      computeTarget_spec fuel s start isPenguin canBreak otherStart otherTarget hd hs hf
    refine ⟨t, _, k, h, hp.1, fun j hj hm => ?_⟩
    by_contra hc
    exact hp.2.2.1 j hj (by omega) ((finishBlockAt_iff _ _).2 hm)

theorem C8_witness :
    (∃ t s1 k, slide 11 finishExample ⟨1, 1⟩ false true ⟨1, 0⟩ = some (t, s1) ∧
      t = (⟨1, 1⟩ : Vec2).steps ⟨1, 0⟩ k ∧
      ∀ j, 1 ≤ j → (⟨1, 1⟩ : Vec2).steps ⟨1, 0⟩ j ∈ ownFinishBlocks finishExample false →
        k ≤ j) ∧
    (∃ t s1 k, computeTarget 11 finishExample ⟨1, 1⟩ false true ⟨1, 0⟩ ⟨5, 5⟩ NO_TARGET
        = some (t, s1) ∧ t = (⟨1, 1⟩ : Vec2).steps ⟨1, 0⟩ k ∧
      ∀ j, 1 ≤ j → (⟨1, 1⟩ : Vec2).steps ⟨1, 0⟩ j ∈ ownFinishBlocks finishExample false →
        k ≤ j) :=
  C8_never_past_own_finish 11 finishExample ⟨1, 1⟩ false true ⟨1, 0⟩ ⟨5, 5⟩ NO_TARGET
    (by decide) (by decide) (by decide)

theorem both_finished_targets {fuel : Nat} {s s' : State}
    (h : calculateMovementTargets fuel s = some s')
    (hboth : s.bearFinished = true ∧ s.penguinFinished = true) (c : Bool) :
    s'.targetOf c = s.posOf c := by
  rw [calculateMovementTargets_eq, if_pos hboth] at h
  simp only [Option.some.injEq] at h
  subst h
  cases c <;> rfl

/-- Claim C10.  In a standard (non-squeeze) resolution from distinct positions on the same
line along the move axis (the front character `a ≥ 1` steps ahead of the rear character,
whose `isPenguin` flag is `c`), the front target lies `n ≥ 1` steps ahead of the rear
target: the rear never lands on and never passes the front. -/
theorem C10_rear_stays_behind (fuel : Nat) (s : State) (c : Bool) (a : Nat) (hf : 11 ≤ fuel)
    (hd : isUnitDirection s.moveDirection)
    (hb : ¬ outOfBounds s.polarBearGridPos) (hp : ¬ outOfBounds s.penguinGridPos)
    (hsq : (checkForSqueeze s).1 = false) (ha : 1 ≤ a)
    (hline : s.posOf (!c) = (s.posOf c).steps s.moveDirection a) :
    ∃ s', calculateMovementTargets fuel s = some s' ∧
      ∃ n, 1 ≤ n ∧ s'.targetOf (!c) = (s'.targetOf c).steps s.moveDirection n := by
  rcases hr : calculateMovementTargets fuel s with _ | s'
  · exact absurd hr (calculateMovementTargets_ne_none fuel s hd hb hp hf)
  refine ⟨s', rfl, ?_⟩
  by_cases hboth : s.bearFinished = true ∧ s.penguinFinished = true
  · refine ⟨a, ha, ?_⟩
    rw [both_finished_targets hr hboth, both_finished_targets hr hboth]
    exact hline
  have hne := pos_ne_of_line hd c ha hline
  obtain ⟨ft, rt, kf, kr, h1, h2, h3, h4, -, ht1, ht2, -⟩ := standard_outcome hr hboth hsq hne
  have hfront := standardBearInFront_of_line hd c ha hline
  rw [hfront] at h1 h2 h3 h4 ht1 ht2
  have hft : ft = (s.posOf c).steps s.moveDirection (a + kf) := by
    rw [← Vec2.steps_steps, ← hline]
    rcases hff : s.finishedOf (!c) with _ | _
    · exact (h2 hff).1
    · rw [(h1 hff).1, (h1 hff).2, Vec2.steps_zero]
  have hrt : rt = (s.posOf c).steps s.moveDirection kr := by
    rcases hrf : s.finishedOf c with _ | _
    · exact (h4 hrf).1
    · rw [(h3 hrf).1, (h3 hrf).2, Vec2.steps_zero]
  have hlt : kr < a + kf := by
    by_contra hc
    rcases hrf : s.finishedOf c with _ | _
    · have hok := (h4 hrf).2.1 (a + kf) (by omega) (by omega)
      exact hok.1 (Or.inl hft.symm)
    · have := (h3 hrf).1
      omega
  refine ⟨a + kf - kr, by omega, ?_⟩
  rw [ht1, ht2, hrt, Vec2.steps_steps, hft]
  congr 1
  omega

/-- Claim C5.  In a standard (non-squeeze) resolution with both characters unfinished and
on the same line along the move axis (the front `a ≥ 1` steps ahead of the rear, whose
`isPenguin` flag is `c`): if the front's newly computed target is the cell `n + 1` steps
from the rear's start and each of the `n` cells before it on the rear's path is enterable
for the rear, not Breakable and not one of its own finish tiles, then the rear's target is
the cell immediately behind that new target. -/
theorem C5_rear_follows_front (fuel : Nat) (s : State) (c : Bool) (a n : Nat) (hf : 11 ≤ fuel)
    (hd : isUnitDirection s.moveDirection)
    (hb : ¬ outOfBounds s.polarBearGridPos) (hp : ¬ outOfBounds s.penguinGridPos)
    (hsq : (checkForSqueeze s).1 = false)
    (hbu : s.bearFinished = false) (hpu : s.penguinFinished = false) (ha : 1 ≤ a)
    (hline : s.posOf (!c) = (s.posOf c).steps s.moveDirection a) :
    ∃ s', calculateMovementTargets fuel s = some s' ∧
      (s'.targetOf (!c) = (s.posOf c).steps s.moveDirection (n + 1) →
        (∀ j, 1 ≤ j → j ≤ n →
          enterable s c ((s.posOf c).steps s.moveDirection j) ∧
          s.grid ((s.posOf c).steps s.moveDirection j).x
            ((s.posOf c).steps s.moveDirection j).y ≠ 6 ∧
          (s.posOf c).steps s.moveDirection j ∉ ownFinishBlocks s c) →
        s'.targetOf c = s'.targetOf (!c) - s.moveDirection) := by
  rcases hr : calculateMovementTargets fuel s with _ | s'
  · exact absurd hr (calculateMovementTargets_ne_none fuel s hd hb hp hf)
  refine ⟨s', rfl, fun hfront hclear => ?_⟩
  have hboth : ¬ (s.bearFinished = true ∧ s.penguinFinished = true) := by
    rw [hbu]; simp
  have hne := pos_ne_of_line hd c ha hline
  obtain ⟨ft, rt, kf, kr, -, -, -, h4, -, ht1, ht2, -⟩ := standard_outcome hr hboth hsq hne
  have hfr := standardBearInFront_of_line hd c ha hline
  rw [hfr] at h4 ht1 ht2
  have hrf : s.finishedOf c = false := by
    cases c
    · simpa [State.finishedOf] using hbu
    · simpa [State.finishedOf] using hpu
  have hpath := h4 hrf
  rw [ht1] at hfront
  have hkr : kr = n := by
    apply hpath.exact n
    · intro hok
      exact hok.1 (Or.inl hfront.symm)
    · intro j hj1 hj2
      obtain ⟨he, h6, hfin⟩ := hclear j hj1 hj2
      have hneq : (s.posOf c).steps s.moveDirection j ≠ ft := by
        rw [hfront]
        intro hc
        have := steps_injective hd hc
        omega
      refine ⟨⟨?_, wouldPassThroughOther_unit hd _ _, he, fun _ h => absurd h h6⟩, ?_⟩
      · rintro (hc | ⟨-, hc⟩)
        · exact hneq hc
        · exact hneq hc
      · intro hh
        exact hfin ((finishBlockAt_iff _ _).1 hh)
  rw [ht2, ht1, hpath.1, hkr, hfront]
  ext <;> simp <;> ring

theorem C10_witness :
    ∃ s', calculateMovementTargets 11 scenarioA = some s' ∧
      ∃ n, 1 ≤ n ∧ s'.targetOf (!false) = (s'.targetOf false).steps scenarioA.moveDirection n :=
  C10_rear_stays_behind 11 scenarioA false 4 (by decide) (by decide) (by decide) (by decide)
    (by decide) (by decide) (by decide)

theorem C5_witness :
    (calculateMovementTargets 11 scenarioA).map (fun s' => (s'.penguinTarget, s'.polarBearTarget))
      = some (⟨5, 1⟩, ⟨4, 1⟩) := by
  obtain ⟨s', h, hC⟩ := C5_rear_follows_front 11 scenarioA false 4 3 (by decide) (by decide)
    (by decide) (by decide) (by decide) (by decide) (by decide) (by decide) (by decide)
  have hpt : (calculateMovementTargets 11 scenarioA).map (fun s' => s'.penguinTarget)
      = some ⟨5, 1⟩ := by decide
  rw [h] at hpt ⊢
  simp only [Option.map_some', Option.some.injEq] at hpt
  have hfront : s'.targetOf (!false) = (scenarioA.posOf false).steps scenarioA.moveDirection (3 + 1) := by
    simp only [State.targetOf, Bool.not_false, if_true, hpt]
    decide
  have hrear := hC hfront (by
    intro j h1 h2
    interval_cases j <;> decide)
  simp only [State.targetOf, Bool.not_false, if_true, Bool.false_eq_true, if_false, hpt] at hrear
  simp only [Option.map_some', hpt, hrear]
  decide

theorem bool_eq_or_not (b c : Bool) : c = b ∨ c = !b := by
  cases b <;> cases c <;> simp

/-- Claim C9, as stated, fails when the characters share a cell.  In `sharedStartLevel` both
start on (0,0) with a wall at (1,0).  On the move to the left neither can leave the grid, both
targets stay (0,0), and the overlap guard then sets the heavy target to (0,0) minus the
direction, which is (1,0): the heavy character enters a Wall cell and stands on it when the
move completes. -/
theorem C9_counterexample :
    (moveCharacters 11
        (initController (fun _ => sharedStartLevel) initLevels (fun _ => 0) (fun _ => 0))
        ⟨-1, 0⟩).map
          (fun r => decide (r.polarBearTarget = ⟨1, 0⟩ ∧ r.penguinTarget = ⟨0, 0⟩ ∧
            r.grid 1 0 = 1)) = some true ∧
      (runEvents 11 (fun _ => sharedStartLevel)
        (initController (fun _ => sharedStartLevel) initLevels (fun _ => 0) (fun _ => 0))
        (moveEvents ⟨-1, 0⟩)).map
          (fun r => decide (r.polarBearGridPos = ⟨1, 0⟩ ∧ r.penguinGridPos = ⟨0, 0⟩ ∧
            r.grid 1 0 = 1 ∧ r.isMoving = false)) = some true := by
  refine ⟨?_, ?_⟩ <;> decide!

/-- Claim C9, amended.  For every resolution (standard or squeeze) from distinct in-bounds positions
along a unit direction, each character's target is `k` steps from its start along the
direction or against it, and every cell it enters (each cell `1 ≤ j ≤ k` steps from the
start) is inside the grid and is neither Wall, Invisible, nor a lane/finish kind exclusive
to the other character. -/
theorem C9_entered_cells_enterable (fuel : Nat) (s : State) (hf : 11 ≤ fuel)
    (hd : isUnitDirection s.moveDirection)
    (hb : ¬ outOfBounds s.polarBearGridPos) (hp : ¬ outOfBounds s.penguinGridPos)
    (hne : s.polarBearGridPos ≠ s.penguinGridPos) :
    ∃ s', calculateMovementTargets fuel s = some s' ∧
      ∀ c : Bool, ∃ (dir : Vec2) (k : Nat),
        (dir = s.moveDirection ∨ dir = -s.moveDirection) ∧
        s'.targetOf c = (s.posOf c).steps dir k ∧
        ∀ j, 1 ≤ j → j ≤ k → enterable s c ((s.posOf c).steps dir j) := by
  rcases hr : calculateMovementTargets fuel s with _ | s'
  · exact absurd hr (calculateMovementTargets_ne_none fuel s hd hb hp hf)
  refine ⟨s', rfl, fun c => ?_⟩
  have stay : s'.targetOf c = s.posOf c → ∃ (dir : Vec2) (k : Nat),
      (dir = s.moveDirection ∨ dir = -s.moveDirection) ∧
      s'.targetOf c = (s.posOf c).steps dir k ∧
      ∀ j, 1 ≤ j → j ≤ k → enterable s c ((s.posOf c).steps dir j) := by
    intro h
    exact ⟨s.moveDirection, 0, Or.inl rfl, by rw [h, Vec2.steps_zero], fun j h1 h2 => by omega⟩
  by_cases hboth : s.bearFinished = true ∧ s.penguinFinished = true
  · exact stay (both_finished_targets hr hboth c)
  rcases hsq : (checkForSqueeze s).1 with _ | _
  · obtain ⟨ft, rt, kf, kr, h1, h2, h3, h4, -, ht1, ht2, -⟩ :=
      standard_outcome hr hboth hsq hne
    rcases bool_eq_or_not (standardBearInFront s) c with hc | hc
    · subst hc
      rcases hrf : s.finishedOf (standardBearInFront s) with _ | _
      · have hpath := h4 hrf
        exact ⟨s.moveDirection, kr, Or.inl rfl, by rw [ht2]; exact hpath.1,
          fun j hj1 hj2 => (hpath.2.1 j hj1 hj2).2.2.1⟩
      · exact stay (by rw [ht2]; exact (h3 hrf).2)
    · subst hc
      rcases hff : s.finishedOf (!standardBearInFront s) with _ | _
      · have hpath := h2 hff
        exact ⟨s.moveDirection, kf, Or.inl rfl, by rw [ht1]; exact hpath.1,
          fun j hj1 hj2 => (hpath.2.1 j hj1 hj2).2.2.1⟩
      · exact stay (by rw [ht1]; exact (h1 hff).2)
  · obtain ⟨ft, rt, kf, kr, btb1, hp1, hp2, ht1, ht2, -, -⟩ := squeeze_outcome hd hr hboth hsq
    rcases bool_eq_or_not (decide (bearIsFront s s.moveDirection)) c with hc | hc
    · subst hc
      rcases hrf : s.finishedOf (decide (bearIsFront s s.moveDirection)) with _ | _
      · rw [hrf] at ht2
        exact ⟨s.moveDirection, kr, Or.inl rfl, by rw [ht2]; exact hp2.1,
          fun j hj1 hj2 => hp2.2.1 j hj1 hj2⟩
      · rw [hrf] at ht2
        exact stay ht2
    · subst hc
      rcases hff : s.finishedOf (!decide (bearIsFront s s.moveDirection)) with _ | _
      · rw [hff] at ht1
        exact ⟨-s.moveDirection, kf, Or.inr rfl, by rw [ht1]; exact hp1.1,
          fun j hj1 hj2 => hp1.2.1 j hj1 hj2⟩
      · rw [hff] at ht1
        exact stay ht1

theorem C9_witness :
    ∃ s', calculateMovementTargets 11 scenarioB = some s' ∧
      ∀ c : Bool, ∃ (dir : Vec2) (k : Nat),
        (dir = scenarioB.moveDirection ∨ dir = -scenarioB.moveDirection) ∧
        s'.targetOf c = (scenarioB.posOf c).steps dir k ∧
        ∀ j, 1 ≤ j → j ≤ k → enterable scenarioB c ((scenarioB.posOf c).steps dir j) :=
  C9_entered_cells_enterable 11 scenarioB (by decide) (by decide) (by decide) (by decide)
    (by decide)

/-- Claim C6.  For every state in which exactly one character is finished and every unit
direction given while idle, the resolution returns and, once applied by the completing
`updateMovement`, leaves the finished character's grid position where it was. -/
theorem C6_finished_position_invariant (fuel : Nat) (s : State) (d : Vec2) (hf : 11 ≤ fuel)
    (hd : isUnitDirection d) (hm : s.isMoving = false)
    (hb : ¬ outOfBounds s.polarBearGridPos) (hp : ¬ outOfBounds s.penguinGridPos) :
    ∃ s', moveCharacters fuel s d = some s' ∧
      (s.bearFinished = true → s.penguinFinished = false →
        (updateMovement true s').polarBearGridPos = s.polarBearGridPos) ∧
      (s.penguinFinished = true → s.bearFinished = false →
        (updateMovement true s').penguinGridPos = s.penguinGridPos) := by
  rw [moveCharacters_eq fuel s hd hm]
  rcases hr : calculateMovementTargets fuel { s with moveDirection := d, isMoving := true }
    with _ | s'
  · exact absurd hr (calculateMovementTargets_ne_none fuel _ hd hb hp hf)
  have hfr := calculateMovementTargets_frame hr
  refine ⟨s', rfl, fun h1 _ => ?_, fun h1 _ => ?_⟩
  · have := final_posOf hfr false
    simpa [State.posOf, State.finishedOf, h1] using this
  · have := final_posOf hfr true
    simpa [State.posOf, State.finishedOf, h1] using this

theorem C6_witness :
    ∃ s', moveCharacters 11 finishedExample ⟨1, 0⟩ = some s' ∧
      (finishedExample.bearFinished = true → finishedExample.penguinFinished = false →
        (updateMovement true s').polarBearGridPos = finishedExample.polarBearGridPos) ∧
      (finishedExample.penguinFinished = true → finishedExample.bearFinished = false →
        (updateMovement true s').penguinGridPos = finishedExample.penguinGridPos) :=
  C6_finished_position_invariant 11 finishedExample ⟨1, 0⟩ (by decide) (by decide) (by decide)
    (by decide) (by decide)

theorem breakBlock_grid (s : State) (x y : Int) (h : ¬ outOfBounds ⟨x, y⟩ ∧ s.grid x y = 6) :
    (breakBlock s x y).grid = setCell s.grid x y 8 := by
  unfold breakBlock
  simp only [if_pos h]

/-- The grid after `updateBlockBreaking` has processed a list whose delays have all
elapsed: every listed in-bounds cell of kind 6 has become kind 8, nothing else changed. -/
theorem updateBlockBreakingLoop_grid (ts : ℚ) :
    ∀ (l : List BreakableBlockInfo) (s : State), (∀ e ∈ l, e.delay ≤ ts) → ∀ x y : Int,
      (updateBlockBreakingLoop ts l s).2.grid x y =
        if (⟨x, y⟩ : Vec2) ∈ l.map (fun e => e.position) ∧ ¬ outOfBounds ⟨x, y⟩ ∧ s.grid x y = 6
        then 8 else s.grid x y := by
  intro l
  induction l with
  | nil => intro s _ x y; simp [updateBlockBreakingLoop]
  | cons info rest ih =>
    intro s hdl x y
    have h0 : fsub info.delay ts ≤ 0 := fsub_nonpos (hdl info (List.mem_cons_self _ _))
    have hrest : ∀ e ∈ rest, e.delay ≤ ts := fun e he => hdl e (List.mem_cons_of_mem _ he)
    rw [updateBlockBreakingLoop]
    simp only [if_pos h0]
    rw [ih _ hrest]
    by_cases hc : ¬ outOfBounds ⟨info.position.x, info.position.y⟩ ∧
        s.grid info.position.x info.position.y = 6
    · rw [if_pos hc, breakBlock_grid s _ _ hc]
      by_cases hxy : x = info.position.x ∧ y = info.position.y
      · obtain ⟨rfl, rfl⟩ := hxy
        simp [setCell, hc.1, hc.2]
      · have hne : (⟨x, y⟩ : Vec2) ≠ info.position := by
          intro h; apply hxy; rw [← h]; exact ⟨rfl, rfl⟩
        simp [setCell, hxy, hne]
    · rw [if_neg hc]
      by_cases hxy : x = info.position.x ∧ y = info.position.y
      · obtain ⟨rfl, rfl⟩ := hxy
        have : ¬ (¬ outOfBounds ⟨info.position.x, info.position.y⟩ ∧
            s.grid info.position.x info.position.y = 6) := hc
        simp only [List.map_cons, List.mem_cons]
        rw [if_neg (fun h => this h.2), if_neg (fun h => this h.2)]
      · have hne : (⟨x, y⟩ : Vec2) ≠ info.position := by
          intro h; apply hxy; rw [← h]; exact ⟨rfl, rfl⟩
        simp [hne]

theorem updateBlockBreaking_grid (ts : ℚ) (s : State) (hdl : ∀ e ∈ s.blocksToBreak, e.delay ≤ ts)
    (p : Vec2) (hm : p ∈ s.blocksToBreak.map (fun e => e.position)) (hp : ¬ outOfBounds p)
    (h6 : s.grid p.x p.y = 6) :
    (updateBlockBreaking ts s).grid p.x p.y = 8 := by
  unfold updateBlockBreaking
  simp only []
  rw [updateBlockBreakingLoop_grid ts _ s hdl]
  rw [if_pos ⟨hm, hp, h6⟩]

theorem positions_mono {l1 l2 : List BreakableBlockInfo} (h : ∀ e, e ∈ l1 → e ∈ l2) {p : Vec2}
    (hp : p ∈ l1.map (fun e => e.position)) : p ∈ l2.map (fun e => e.position) := by
  obtain ⟨e, he, hpe⟩ := List.mem_map.1 hp
  exact List.mem_map.2 ⟨e, h e he, hpe⟩

/-- The break list after `checkForSqueeze` keeps distinct positions and delays of at most
`BREAK_DELAY`. -/
theorem checkForSqueeze_blocksToBreak (s : State)
    (hnd : (s.blocksToBreak.map (fun e => e.position)).Nodup)
    (hdl : ∀ e ∈ s.blocksToBreak, e.delay ≤ BREAK_DELAY) :
    ((checkForSqueeze s).2.blocksToBreak.map (fun e => e.position)).Nodup ∧
      ∀ e ∈ (checkForSqueeze s).2.blocksToBreak, e.delay ≤ BREAK_DELAY := by
  obtain ⟨btb, rear, h, hb⟩ := checkForSqueeze_snd s
  rw [h]
  simp only []
  rcases hb with hb | ⟨p, -, -, hb⟩
  · rw [hb]; exact ⟨hnd, hdl⟩
  · rw [hb]
    refine ⟨nodup_scheduleBlockBreaking _ _ _ _ hnd, fun e he => ?_⟩
    rcases (mem_scheduleBlockBreaking _ _ _ _ _).1 he with he | ⟨he, -⟩
    · exact hdl e he
    · rw [he]

/-- A run of `slide`/`computeTarget` keeps distinct positions and delays of at most
`BREAK_DELAY` in the break list. -/
theorem Recorded.keeps {s : State} {isPenguin canBreak : Bool} {d curr : Vec2} {k : Nat}
    {btb btb' : List BreakableBlockInfo} (hr : Recorded s isPenguin canBreak d curr k btb btb')
    (hnd : (btb.map (fun e => e.position)).Nodup) (hdl : ∀ e ∈ btb, e.delay ≤ BREAK_DELAY) :
    (btb'.map (fun e => e.position)).Nodup ∧ ∀ e ∈ btb', e.delay ≤ BREAK_DELAY := by
  refine ⟨hr.2.2.2.1 hnd, fun e he => ?_⟩
  rcases hr.2.1 e he with h | ⟨-, h, -⟩
  · exact hdl e h
  · rw [h]

/-- What a `slide` with `canBreak` on does with the Breakable tiles among the first `k`
cells of its walk, in terms of the final break list `fin` of the resolution. -/
theorem slide_breakables {s s' : State} {c : Bool} {dir t : Vec2} {k : Nat}
    {btb btb' : List BreakableBlockInfo}
    (hp : PathLen (enterable s c) (slideHalt s c true) dir (s.posOf c) t k)
    (hr : Recorded s c true dir (s.posOf c) k btb btb')
    (hsub : ∀ e, e ∈ btb' → e ∈ s'.blocksToBreak)
    (hnd : (s'.blocksToBreak.map (fun e => e.position)).Nodup)
    (hdl : ∀ e ∈ s'.blocksToBreak, e.delay ≤ BREAK_DELAY)
    (hg : s'.grid = s.grid) :
    ∀ j, 1 ≤ j → j ≤ k →
      s.grid ((s.posOf c).steps dir j).x ((s.posOf c).steps dir j).y = 6 →
      (s.posOf c).steps dir j ∉ ownFinishBlocks s c →
      (j = k → ¬ enterable s c ((s.posOf c).steps dir (k + 1))) ∧
      (s'.blocksToBreak.map (fun e => e.position)).count ((s.posOf c).steps dir j) = 1 ∧
      ∀ ts, BREAK_DELAY ≤ ts →
        (updateBlockBreaking ts s').grid ((s.posOf c).steps dir j).x
          ((s.posOf c).steps dir j).y = 8 := by
  intro j hj1 hj2 h6 hfin
  have hfin' : finishBlockAt (ownFinishBlocks s c) ((s.posOf c).steps dir j) = false := by
    rw [← Bool.not_eq_true]
    exact fun h => hfin ((finishBlockAt_iff _ _).1 h)
  have hmem : (s.posOf c).steps dir j ∈ s'.blocksToBreak.map (fun e => e.position) :=
    positions_mono hsub (hr.2.2.1 rfl j hj1 hj2 h6 hfin')
  refine ⟨fun hjk => ?_, List.count_eq_one_of_mem hnd hmem, fun ts hts => ?_⟩
  · subst hjk
    rcases hp.2.2.2 with ⟨-, hh⟩ | hh
    · rcases hh with hh | ⟨hh, -⟩
      · rw [hp.1, hfin'] at hh; cases hh
      · cases hh
    · rw [hp.1, Vec2.steps_add_dir] at hh
      exact hh
  · apply updateBlockBreaking_grid ts s' (fun e he => le_trans (hdl e he) hts) _ hmem
      (hp.2.1 j hj1 hj2).1
    rw [hg]; exact h6

/-- A Breakable cell inside the grid can be entered by either character. -/
theorem enterable_of_breakable (s : State) (c : Bool) (p : Vec2) (hin : ¬ outOfBounds p)
    (h6 : s.grid p.x p.y = 6) : enterable s c p := by
  unfold enterable
  rw [h6]
  exact ⟨hin, by omega, by omega, fun _ => ⟨by omega, by omega⟩, fun _ => ⟨by omega, by omega⟩⟩

/-- A walk that ends only on a halting cell or in front of a cell that is not `ok` reaches
every cell `j` up to which all cells are `ok` and none before it halts, and goes on past it
when it does not halt and the next cell is `ok`. -/
theorem PathLen.reaches {ok halt : Vec2 → Prop} {d curr t : Vec2} {k : Nat}
    (hp : PathLen ok halt d curr t k) (j : Nat)
    (hok : ∀ i, 1 ≤ i → i ≤ j → ok (curr.steps d i))
    (hnh : ∀ i, 1 ≤ i → i < j → ¬ halt (curr.steps d i)) :
    j ≤ k ∧ (¬ halt (curr.steps d j) → ok (curr.steps d (j + 1)) → j + 1 ≤ k) := by
  obtain ⟨ht, -, -, hstop⟩ := hp
  rw [ht, Vec2.steps_add_dir] at hstop
  have h1 : j ≤ k := by
    by_contra hc
    push_neg at hc
    rcases hstop with ⟨hk, hh⟩ | hh
    · exact hnh k hk hc hh
    · exact hh (hok (k + 1) (by omega) (by omega))
  refine ⟨h1, fun hj hn => ?_⟩
  by_contra hc
  have hjk : j = k := by omega
  subst hjk
  rcases hstop with ⟨-, hh⟩ | hh
  · exact hj hh
  · exact hh hn

theorem squeezeDirection_rear (s : State) :
    squeezeDirection s (decide (bearIsFront s s.moveDirection)) = s.moveDirection := by
  unfold squeezeDirection
  rw [if_neg]
  cases decide (bearIsFront s s.moveDirection) <;> simp

theorem squeezeDirection_front (s : State) :
    squeezeDirection s (!decide (bearIsFront s s.moveDirection)) = -s.moveDirection := by
  unfold squeezeDirection
  rw [if_pos rfl]

/-- Claim C3, amended.  For characters on distinct cells of the grid, not both finished, and
a break list in order (no coordinate twice, no delay above `0.2f`):

In a squeeze resolution (the branch that slides with breaking on) a Breakable tile does not
stop a slide.  The slide of each unfinished character, in its `squeezeDirection`, runs
through every cell that can be entered and ends only on the character's own finish tile or
in front of a cell that cannot be entered; a Breakable cell inside the grid can be entered,
so a Breakable tile reached by the slide is advanced onto (`j ≤ k`) and, unless it is the
character's own finish tile, left again when the next cell can be entered (`j + 1 ≤ k`).
Every Breakable cell passed that is not an own finish tile is recorded for breaking exactly
once; the resolution leaves the grid unchanged, and the cell has kind 8 after a frame of
`updateBlockBreaking` with a timestep of at least `0.2f`.  A finished character stays.

In a standard resolution (`computeTarget` with breaking off) each unfinished character walks
as `targetOk` and `targetHalt` describe, the front one with the rear position as obstacle,
the rear one with the front target as obstacle; a Breakable tile that is not the character's
own finish tile ends the walk before it (`k < j`), and the walks record nothing. -/
theorem C3_breakable_tiles (fuel : Nat) (s : State) (hf : 11 ≤ fuel)
    (hd : isUnitDirection s.moveDirection)
    (hb : ¬ outOfBounds s.polarBearGridPos) (hp : ¬ outOfBounds s.penguinGridPos)
    (hne : s.polarBearGridPos ≠ s.penguinGridPos)
    (hnf : ¬ (s.bearFinished = true ∧ s.penguinFinished = true))
    (hnd : (s.blocksToBreak.map (fun e => e.position)).Nodup)
    (hdl : ∀ e ∈ s.blocksToBreak, e.delay ≤ BREAK_DELAY) :
    ∃ s', calculateMovementTargets fuel s = some s' ∧ s'.grid = s.grid ∧
      ((checkForSqueeze s).1 = true →
        ∀ c : Bool,
          (s.finishedOf c = true → s'.targetOf c = s.posOf c) ∧
          (s.finishedOf c = false → ∃ k : Nat,
            PathLen (enterable s c) (slideHalt s c true) (squeezeDirection s c) (s.posOf c)
              (s'.targetOf c) k ∧
            (∀ j, 1 ≤ j → ¬ outOfBounds ((s.posOf c).steps (squeezeDirection s c) j) →
              s.grid ((s.posOf c).steps (squeezeDirection s c) j).x
                ((s.posOf c).steps (squeezeDirection s c) j).y = 6 →
              (∀ i, 1 ≤ i → i < j →
                enterable s c ((s.posOf c).steps (squeezeDirection s c) i) ∧
                (s.posOf c).steps (squeezeDirection s c) i ∉ ownFinishBlocks s c) →
              j ≤ k ∧
                ((s.posOf c).steps (squeezeDirection s c) j ∉ ownFinishBlocks s c →
                  enterable s c ((s.posOf c).steps (squeezeDirection s c) (j + 1)) →
                  j + 1 ≤ k)) ∧
            (∀ j, 1 ≤ j → j ≤ k →
              s.grid ((s.posOf c).steps (squeezeDirection s c) j).x
                ((s.posOf c).steps (squeezeDirection s c) j).y = 6 →
              (s.posOf c).steps (squeezeDirection s c) j ∉ ownFinishBlocks s c →
              (s'.blocksToBreak.map (fun e => e.position)).count
                  ((s.posOf c).steps (squeezeDirection s c) j) = 1 ∧
                ∀ ts, BREAK_DELAY ≤ ts →
                  (updateBlockBreaking ts s').grid
                    ((s.posOf c).steps (squeezeDirection s c) j).x
                    ((s.posOf c).steps (squeezeDirection s c) j).y = 8))) ∧
      ((checkForSqueeze s).1 = false →
        s'.blocksToBreak = (checkForSqueeze s).2.blocksToBreak ∧
        (s.finishedOf (!standardBearInFront s) = true →
          s'.targetOf (!standardBearInFront s) = s.posOf (!standardBearInFront s)) ∧
        (s.finishedOf (!standardBearInFront s) = false → ∃ k : Nat,
          PathLen
            (targetOk s (!standardBearInFront s) false s.moveDirection
              (s.posOf (standardBearInFront s)) NO_TARGET)
            (targetHalt s (!standardBearInFront s)) s.moveDirection
            (s.posOf (!standardBearInFront s)) (s'.targetOf (!standardBearInFront s)) k) ∧
        (s.finishedOf (standardBearInFront s) = true →
          s'.targetOf (standardBearInFront s) = s.posOf (standardBearInFront s)) ∧
        (s.finishedOf (standardBearInFront s) = false → ∃ k : Nat,
          PathLen
            (targetOk s (standardBearInFront s) false s.moveDirection
              (s'.targetOf (!standardBearInFront s)) (s'.targetOf (!standardBearInFront s)))
            (targetHalt s (standardBearInFront s)) s.moveDirection
            (s.posOf (standardBearInFront s)) (s'.targetOf (standardBearInFront s)) k) ∧
        ∀ c : Bool, s.finishedOf c = false → ∃ k : Nat,
          s'.targetOf c = (s.posOf c).steps s.moveDirection k ∧
          ∀ j, 1 ≤ j →
            s.grid ((s.posOf c).steps s.moveDirection j).x
              ((s.posOf c).steps s.moveDirection j).y = 6 →
            (s.posOf c).steps s.moveDirection j ∉ ownFinishBlocks s c → k < j) := by
  rcases hr : calculateMovementTargets fuel s with _ | s'
  · exact absurd hr (calculateMovementTargets_ne_none fuel s hd hb hp hf)
  have hfr := calculateMovementTargets_frame hr
  refine ⟨s', rfl, hfr.1, fun hsq c => ?_, fun hsq => ?_⟩
  · obtain ⟨ft, rt, kf, kr, btb1, hp1, hp2, ht1, ht2, hr1, hr2⟩ := squeeze_outcome hd hr hnf hsq
    obtain ⟨hnd0, hdl0⟩ := checkForSqueeze_blocksToBreak s hnd hdl
    obtain ⟨hnd1, hdl1⟩ := hr1.keeps hnd0 hdl0
    obtain ⟨hnd2, hdl2⟩ := hr2.keeps hnd1 hdl1
    have hhalt : ∀ (b : Bool) (p : Vec2), p ∉ ownFinishBlocks s b → ¬ slideHalt s b true p := by
      intro b p hnot hh
      rcases hh with hh | ⟨hh, -⟩
      · exact hnot ((finishBlockAt_iff _ _).1 hh)
      · cases hh
    rcases bool_eq_or_not (decide (bearIsFront s s.moveDirection)) c with hc | hc
    · subst hc
      refine ⟨fun hfin => by rw [ht2, hfin]; rfl, fun hfin => ?_⟩
      rw [hfin] at ht2
      simp only [if_true] at ht2
      rw [squeezeDirection_rear, ht2]
      refine ⟨kr, hp2, fun j hj1 hin h6 hprev => ?_, fun j hj1 hj2 h6 hnot => ?_⟩
      · have hreach := hp2.reaches j
          (fun i hi1 hi2 => by
            rcases Nat.lt_or_eq_of_le hi2 with h | h
            · exact (hprev i hi1 h).1
            · rw [h]; exact enterable_of_breakable s _ _ hin h6)
          (fun i hi1 hi2 => hhalt _ _ (hprev i hi1 hi2).2)
        exact ⟨hreach.1, fun hnot hnext => hreach.2 (hhalt _ _ hnot) hnext⟩
      · have h3 := slide_breakables hp2 hr2 (fun e he => he) hnd2 hdl2 hfr.1 j hj1 hj2 h6 hnot
        exact ⟨h3.2.1, h3.2.2⟩
    · subst hc
      refine ⟨fun hfin => by rw [ht1, hfin]; rfl, fun hfin => ?_⟩
      rw [hfin] at ht1
      simp only [if_true] at ht1
      rw [squeezeDirection_front, ht1]
      refine ⟨kf, hp1, fun j hj1 hin h6 hprev => ?_, fun j hj1 hj2 h6 hnot => ?_⟩
      · have hreach := hp1.reaches j
          (fun i hi1 hi2 => by
            rcases Nat.lt_or_eq_of_le hi2 with h | h
            · exact (hprev i hi1 h).1
            · rw [h]; exact enterable_of_breakable s _ _ hin h6)
          (fun i hi1 hi2 => hhalt _ _ (hprev i hi1 hi2).2)
        exact ⟨hreach.1, fun hnot hnext => hreach.2 (hhalt _ _ hnot) hnext⟩
      · have h3 := slide_breakables hp1 hr1 hr2.1 hnd2 hdl2 hfr.1 j hj1 hj2 h6 hnot
        exact ⟨h3.2.1, h3.2.2⟩
  · obtain ⟨ft, rt, kf, kr, h1, h2, h3, h4, -, ht1, ht2, hbtb⟩ :=
      standard_outcome hr hnf hsq hne
    refine ⟨hbtb, fun hfin => by rw [ht1]; exact (h1 hfin).2,
      fun hfin => ⟨kf, by rw [ht1]; exact h2 hfin⟩,
      fun hfin => by rw [ht2]; exact (h3 hfin).2,
      fun hfin => ⟨kr, by rw [ht1, ht2]; exact h4 hfin⟩, fun c hfin => ?_⟩
    rcases bool_eq_or_not (standardBearInFront s) c with hc | hc
    · subst hc
      have hpath := h4 hfin
      refine ⟨kr, by rw [ht2]; exact hpath.1, fun j hj1 h6 hnot => ?_⟩
      by_contra hlt
      exact hnot ((finishBlockAt_iff _ _).1
        ((hpath.2.1 j hj1 (by omega)).2.2.2 rfl h6))
    · subst hc
      have hpath := h2 hfin
      refine ⟨kf, by rw [ht1]; exact hpath.1, fun j hj1 h6 hnot => ?_⟩
      by_contra hlt
      exact hnot ((finishBlockAt_iff _ _).1
        ((hpath.2.1 j hj1 (by omega)).2.2.2 rfl h6))

/-- Claim C3, as stated, fails: in Scenario D with the light character away, heavy moving
up from (2,0) stops at (2,1) in front of the Breakable tile at (2,2), nothing is recorded
for breaking, and the tile is still Breakable (6) after the move is applied and a full
second of `updateBlockBreaking` has passed. -/
theorem C3_counterexample :
    (moveCharacters 11 scenarioD ⟨0, 1⟩).map (fun s' =>
      (s'.polarBearTarget, s'.blocksToBreak.map (fun e => e.position),
        (updateBlockBreaking 1 (updateMovement true s')).grid 2 2)) =
      some (⟨2, 1⟩, [], 6) := by
  decide!

theorem C3_witness :
    ∃ s', calculateMovementTargets 11 scenarioDSqueeze = some s' ∧
      s'.polarBearTarget = ⟨2, 10⟩ ∧ s'.penguinTarget = ⟨2, 0⟩ ∧ s'.grid 2 2 = 6 ∧
      (s'.blocksToBreak.map (fun e => e.position)).count ⟨2, 2⟩ = 1 ∧
      ∀ ts, BREAK_DELAY ≤ ts → (updateBlockBreaking ts s').grid 2 2 = 8 := by
  obtain ⟨s', hs, hg, hsq, -⟩ := C3_breakable_tiles 11 scenarioDSqueeze (by decide) (by decide)
    (by decide) (by decide) (by decide) (by decide) (by decide) (by decide)
  obtain ⟨kb, hpb, -, hrec⟩ := (hsq (by decide) false).2 (by decide)
  obtain ⟨kp, hpp, -, -⟩ := (hsq (by decide) true).2 (by decide)
  have hdb : squeezeDirection scenarioDSqueeze false = ⟨0, 1⟩ := by decide
  have hdp : squeezeDirection scenarioDSqueeze true = ⟨0, -1⟩ := by decide
  have hhalt : ∀ (b : Bool) (p : Vec2), ¬ slideHalt scenarioDSqueeze b true p := by
    intro b p hh
    rcases hh with hh | ⟨hh, -⟩
    · cases b <;> simp [finishBlockAt, ownFinishBlocks, scenarioDSqueeze, mkState] at hh
    · cases hh
  rw [hdb] at hpb hrec
  rw [hdp] at hpp
  obtain ⟨htb, hokb, -, hstopb⟩ := hpb
  obtain ⟨htp, hokp, -, hstopp⟩ := hpp
  have hstopb : ¬ enterable scenarioDSqueeze false
      ((scenarioDSqueeze.posOf false).steps ⟨0, 1⟩ (kb + 1)) := by
    rcases hstopb with ⟨-, hh⟩ | hh
    · exact absurd hh (hhalt _ _)
    · rw [htb, Vec2.steps_add_dir] at hh; exact hh
  have hstopp : ¬ enterable scenarioDSqueeze true
      ((scenarioDSqueeze.posOf true).steps ⟨0, -1⟩ (kp + 1)) := by
    rcases hstopp with ⟨-, hh⟩ | hh
    · exact absurd hh (hhalt _ _)
    · rw [htp, Vec2.steps_add_dir] at hh; exact hh
  have hkb : kb = 10 := by
    have hle : kb ≤ 10 := by
      by_contra hc
      have := hokb 11 (by norm_num) (by omega)
      revert this
      decide
    interval_cases kb <;> first | rfl | (exfalso; revert hstopb; decide)
  have hkp : kp = 1 := by
    have hle : kp ≤ 1 := by
      by_contra hc
      have := hokp 2 (by norm_num) (by omega)
      revert this
      decide
    interval_cases kp <;> first | rfl | (exfalso; revert hstopp; decide)
  subst hkb
  subst hkp
  have h22 := hrec 2 (by norm_num) (by norm_num) (by decide) (by decide)
  have e22 : (scenarioDSqueeze.posOf false).steps ⟨0, 1⟩ 2 = ⟨2, 2⟩ := by decide
  rw [e22] at h22
  refine ⟨s', hs, ?_, ?_, ?_, h22.1, h22.2⟩
  · have : s'.targetOf false = ⟨2, 10⟩ := by rw [htb]; decide
    exact this
  · have : s'.targetOf true = ⟨2, 0⟩ := by rw [htp]; decide
    exact this
  · rw [hg]; decide

/-- Claim C7, evaluated at its failing input.  From `anchoredLevel` one move to the right
brings heavy onto its lane tile (3,5) next to light at (4,5).  The next move to the right is
fully blocked (both targets equal the positions), yet the Breakable tile (5,5) is scheduled
for breaking; the grid, still 6 there when the move returns, holds 8 after 0.2 s of
`updateBlockBreaking`, and the same input is then no longer blocked (light moves to (6,5)). -/
theorem C7_blocked_move_schedules_break :
    ((moveCharacters 11 anchoredLevel ⟨1, 0⟩).bind (fun s1 =>
      (moveCharacters 11 (updateMovement true s1) ⟨1, 0⟩).bind (fun s2 =>
        (moveCharacters 11 (updateBlockBreaking (1 / 5) (updateMovement true s2)) ⟨1, 0⟩).map
          (fun s3 => decide (
            (updateMovement true s1).polarBearGridPos = ⟨3, 5⟩ ∧
            (updateMovement true s1).penguinGridPos = ⟨4, 5⟩ ∧
            s2.polarBearTarget = s2.polarBearGridPos ∧
            s2.penguinTarget = s2.penguinGridPos ∧
            s2.squeezeJustOccurred = false ∧
            s2.blocksToBreak.map (fun e => e.position) = [⟨5, 5⟩] ∧
            s2.grid 5 5 = 6 ∧
            (updateBlockBreaking (1 / 5) (updateMovement true s2)).grid 5 5 = 8 ∧
            s3.penguinTarget = ⟨6, 5⟩))))) = some true := by
  decide!

theorem modifyLevel_length (levels : List LevelInfo) (i : Nat) (f : LevelInfo → LevelInfo) :
    (modifyLevel levels i f).length = levels.length := by
  unfold modifyLevel
  split <;> simp

theorem getElem?_modifyLevel (levels : List LevelInfo) (i j : Nat) (f : LevelInfo → LevelInfo) :
    (modifyLevel levels i f)[j]? = if j = i then levels[i]?.map f else levels[j]? := by
  unfold modifyLevel
  split
  · rename_i l hl
    rw [List.getElem?_set]
    by_cases h : i = j
    · subst h
      have hlt : i < levels.length := by
        by_contra hc
        rw [List.getElem?_eq_none (by omega)] at hl
        cases hl
      simp [hl, hlt]
    · have h2 : ¬ j = i := fun e => h e.symm
      simp [h, h2]
  · rename_i hl
    by_cases h : j = i
    · subst h
      simp [hl]
    · simp [h]

theorem getLevelScore_modifyLevel (levels : List LevelInfo) (i : Nat) (f : LevelInfo → LevelInfo)
    (m : Int) :
    getLevelScore (modifyLevel levels i f) m =
      if (m - 1).toNat = i ∧ 0 < m ∧ m ≤ levels.length then
        match levels[i]? with
        | some l => (f l).score
        | none => 0
      else getLevelScore levels m := by
  unfold getLevelScore
  rw [modifyLevel_length, getElem?_modifyLevel]
  by_cases hm : m ≤ 0 ∨ m > levels.length
  · rw [if_pos hm, if_neg (by omega), if_pos hm]
  · rw [if_neg hm]
    by_cases hi : (m - 1).toNat = i
    · rw [if_pos hi, if_pos ⟨hi, by omega, by omega⟩]
      cases levels[i]? <;> rfl
    · rw [if_neg hi, if_neg (fun h => hi h.1), if_neg hm]

theorem isLevelUnlocked_modifyLevel (levels : List LevelInfo) (i : Nat)
    (f : LevelInfo → LevelInfo) (m : Int) :
    isLevelUnlocked (modifyLevel levels i f) m =
      if (m - 1).toNat = i ∧ 0 < m ∧ m ≤ levels.length then
        match levels[i]? with
        | some l => (f l).isUnlocked
        | none => false
      else isLevelUnlocked levels m := by
  unfold isLevelUnlocked
  rw [modifyLevel_length, getElem?_modifyLevel]
  by_cases hm : m ≤ 0 ∨ m > levels.length
  · rw [if_pos hm, if_neg (by omega), if_pos hm]
  · rw [if_neg hm]
    by_cases hi : (m - 1).toNat = i
    · rw [if_pos hi, if_pos ⟨hi, by omega, by omega⟩]
      cases levels[i]? <;> rfl
    · rw [if_neg hi, if_neg (fun h => hi h.1), if_neg hm]

theorem getLevelScore_unlock (levels : List LevelInfo) (i : Nat) (m : Int) :
    getLevelScore (modifyLevel levels i (fun l => { l with isUnlocked := true })) m =
      getLevelScore levels m := by
  rw [getLevelScore_modifyLevel]
  split_ifs with h
  · obtain ⟨hi, h0, hl⟩ := h
    unfold getLevelScore
    rw [if_neg (by omega), hi]
  · rfl

theorem setLevelScore_length (levels : List LevelInfo) (n sc : Int) :
    (setLevelScore levels n sc).length = levels.length := by
  unfold setLevelScore
  simp only []
  split_ifs <;> simp [modifyLevel_length]

theorem getLevelScore_setLevelScore (levels : List LevelInfo) (n sc m : Int) (h1 : 1 ≤ n)
    (h2 : n ≤ levels.length) :
    getLevelScore (setLevelScore levels n sc) m =
      if m = n then max (getLevelScore levels n) (max 0 (min 3 sc))
      else getLevelScore levels m := by
  have hlt : (n - 1).toNat < levels.length := by omega
  have hget : levels[(n - 1).toNat]? = some (levels.get ⟨(n - 1).toNat, hlt⟩) :=
    List.getElem?_eq_getElem hlt
  have key : ∀ v : Int, getLevelScore
      (modifyLevel levels (n - 1).toNat (fun l => { l with score := v })) m =
        if m = n then v else getLevelScore levels m := by
    intro v
    rw [getLevelScore_modifyLevel]
    by_cases hmn : m = n
    · subst hmn
      rw [if_pos ⟨rfl, by omega, h2⟩, if_pos rfl, hget]
    · rw [if_neg (fun h => hmn (by omega)), if_neg hmn]
  unfold setLevelScore
  rw [if_neg (by omega)]
  simp only []
  by_cases hgt : max 0 (min 3 sc) > getLevelScore levels n
  · rw [if_pos hgt]
    have hmax : max (getLevelScore levels n) (max 0 (min 3 sc)) = max 0 (min 3 sc) :=
      max_eq_right (le_of_lt hgt)
    rw [hmax]
    split_ifs with h3 h4 h4
    · rw [getLevelScore_unlock]; rw [key, if_pos h4]
    · rw [getLevelScore_unlock]; rw [key, if_neg h4]
    · rw [key, if_pos h4]
    · rw [key, if_neg h4]
  · rw [if_neg hgt]
    have hmax : max (getLevelScore levels n) (max 0 (min 3 sc)) = getLevelScore levels n :=
      max_eq_left (not_lt.mp hgt)
    rw [hmax]
    split_ifs with h4
    · rw [h4]
    · rfl

theorem isLevelUnlocked_score (levels : List LevelInfo) (i : Nat) (v m : Int) :
    isLevelUnlocked (modifyLevel levels i (fun l => { l with score := v })) m =
      isLevelUnlocked levels m := by
  rw [isLevelUnlocked_modifyLevel]
  split_ifs with h
  · obtain ⟨hi, h0, hl⟩ := h
    unfold isLevelUnlocked
    rw [if_neg (by omega), hi]
  · rfl

theorem isLevelUnlocked_unlock (levels : List LevelInfo) (i : Nat) (m : Int) :
    isLevelUnlocked (modifyLevel levels i (fun l => { l with isUnlocked := true })) m =
      if (m - 1).toNat = i ∧ 0 < m ∧ m ≤ levels.length then true
      else isLevelUnlocked levels m := by
  rw [isLevelUnlocked_modifyLevel]
  split_ifs with h
  · obtain ⟨hi, h0, hl⟩ := h
    have hlt : i < levels.length := by omega
    rw [List.getElem?_eq_getElem hlt]
  · rfl

theorem isLevelUnlocked_unlockLevel (levels : List LevelInfo) (k m : Int) :
    isLevelUnlocked (unlockLevel levels k) m =
      if m = k ∧ 0 < k ∧ k ≤ levels.length then true else isLevelUnlocked levels m := by
  unfold unlockLevel
  by_cases hk : k > 0 ∧ k ≤ levels.length
  · rw [if_pos hk, isLevelUnlocked_unlock]
    by_cases hm : m = k
    · subst hm
      rw [if_pos ⟨rfl, hk.1, hk.2⟩, if_pos ⟨rfl, hk.1, hk.2⟩]
    · rw [if_neg (fun h => hm (by omega)), if_neg (fun h => hm h.1)]
  · rw [if_neg hk, if_neg (fun h => hk ⟨h.2.1, h.2.2⟩)]

theorem isLevelUnlocked_setLevelScore (levels : List LevelInfo) (n sc m : Int)
    (hm : m ≠ n + 1) :
    isLevelUnlocked (setLevelScore levels n sc) m = isLevelUnlocked levels m := by
  unfold setLevelScore
  simp only []
  split_ifs with h1 h2 h3
  · rfl
  · rw [isLevelUnlocked_unlock, modifyLevel_length, if_neg (fun h => hm (by omega)),
      isLevelUnlocked_score]
  · rw [isLevelUnlocked_score]
  · rfl

theorem unlockLevel_length (levels : List LevelInfo) (k : Int) :
    (unlockLevel levels k).length = levels.length := by
  unfold unlockLevel
  split_ifs <;> simp [modifyLevel_length]

theorem getLevelScore_unlockLevel (levels : List LevelInfo) (k m : Int) :
    getLevelScore (unlockLevel levels k) m = getLevelScore levels m := by
  unfold unlockLevel
  split_ifs
  · rw [getLevelScore_unlock]
  · rfl

theorem checkWinCondition_fires (s : State)
    (h : s.bearFinished = true ∧ s.penguinFinished = true ∧ s.winConditionMet = false) :
    checkWinCondition s =
      { s with
        levels := unlockLevel (setLevelScore s.levels s.currentLevel (computeScore s))
          (s.currentLevel + 1)
        winConditionMet := true
        winDelay := WIN_DELAY } := by
  unfold checkWinCondition
  rw [if_pos h]

theorem scorePoints_eq (s : State) :
    scorePoints s =
      (if s.bearMoves ≤ s.targetBearSteps s.currentLevel then 1 else 0) +
        (if s.penguinMoves ≤ s.targetSealSteps s.currentLevel then 1 else 0) +
        (if s.simultaneousDestinationReached = true then 1 else 0) := by
  unfold scorePoints
  simp only []
  split_ifs <;> rfl

theorem scorePoints_range (s : State) : 0 ≤ scorePoints s ∧ scorePoints s ≤ 3 := by
  rw [scorePoints_eq]
  split_ifs <;> decide

theorem computeScore_eq (s : State) : computeScore s = scorePoints s := by
  unfold computeScore
  have h := scorePoints_range s
  rw [min_eq_left h.2, max_eq_right h.1]

/-- Claim C14.  For a level number `n` in range and every integer `sc`, after
`setLevelScore n sc` the stored score of `n` is the larger of the previous score and the
clamp of `sc` to 0..3; it is never lower than before; the stored score of every other level
is unchanged. -/
theorem C14_score_ratchet (levels : List LevelInfo) (n sc : Int) (h1 : 1 ≤ n)
    (h2 : n ≤ levels.length) :
    getLevelScore (setLevelScore levels n sc) n =
        max (getLevelScore levels n) (min 3 (max 0 sc)) ∧
      getLevelScore levels n ≤ getLevelScore (setLevelScore levels n sc) n ∧
      ∀ m, m ≠ n → getLevelScore (setLevelScore levels n sc) m = getLevelScore levels m := by
  have hc : max 0 (min 3 sc) = min 3 (max 0 sc) := by omega
  refine ⟨?_, ?_, fun m hm => ?_⟩
  · rw [getLevelScore_setLevelScore levels n sc n h1 h2, if_pos rfl, hc]
  · rw [getLevelScore_setLevelScore levels n sc n h1 h2, if_pos rfl]
    exact le_max_left _ _
  · rw [getLevelScore_setLevelScore levels n sc m h1 h2, if_neg hm]

theorem C14_witness :
    getLevelScore (setLevelScore initLevels 3 7) 3 =
        max (getLevelScore initLevels 3) (min 3 (max 0 7)) ∧
      getLevelScore initLevels 3 ≤ getLevelScore (setLevelScore initLevels 3 7) 3 ∧
      ∀ m, m ≠ 3 → getLevelScore (setLevelScore initLevels 3 7) m = getLevelScore initLevels m :=
  C14_score_ratchet initLevels 3 7 (by decide) (by decide)

/-- Claim C11.  The score `checkWinCondition` computes is the number of the three conditions
that hold (heavy moves within par, light moves within par, simultaneity flag set); it lies
in 0..3, so the final clamp `max(0, min(score, 3))` leaves it unchanged.  Scenario C: in
`twinLevel` with par 1 for both, one move to the right brings both characters onto their
finish tiles in the same step, the computed and the stored score are 3. -/
theorem C11_score_formula (s : State) :
    computeScore s =
        (if s.bearMoves ≤ s.targetBearSteps s.currentLevel then 1 else 0) +
          (if s.penguinMoves ≤ s.targetSealSteps s.currentLevel then 1 else 0) +
          (if s.simultaneousDestinationReached = true then 1 else 0) ∧
      0 ≤ computeScore s ∧ computeScore s ≤ 3 ∧
      max 0 (min (scorePoints s) 3) = scorePoints s ∧
      (runEvents 11 (fun _ => twinLevel)
        (initController (fun _ => twinLevel) initLevels (fun _ => 1) (fun _ => 1))
        (moveEvents ⟨1, 0⟩)).map
          (fun r => decide (r.bearFinished = true ∧ r.penguinFinished = true ∧
            r.bearMoves = 1 ∧ r.penguinMoves = 1 ∧ r.simultaneousDestinationReached = true ∧
            r.winConditionMet = true ∧ computeScore r = 3 ∧ getLevelScore r.levels 1 = 3)) =
        some true := by
  refine ⟨?_, ?_, ?_, ?_, ?_⟩
  · rw [computeScore_eq, scorePoints_eq]
  · rw [computeScore_eq]; exact (scorePoints_range s).1
  · rw [computeScore_eq]; exact (scorePoints_range s).2
  · exact computeScore_eq s
  · decide!

/-- Claim C15, as found in the code: a win of score 0 unlocks the next level.  In
`apartLevel` with par 0 for both characters the moves left, right, up win with score 0
(no joint move, both over par); level 2, locked before, is unlocked afterwards. -/
theorem C15_counterexample :
    isLevelUnlocked initLevels 2 = false ∧
      (runEvents 11 (fun _ => apartLevel)
        (initController (fun _ => apartLevel) initLevels (fun _ => 0) (fun _ => 0))
        (moveEvents ⟨-1, 0⟩ ++ moveEvents ⟨1, 0⟩ ++ moveEvents ⟨0, 1⟩)).map
          (fun r => decide (r.winConditionMet = true ∧ r.currentLevel = 1 ∧
            computeScore r = 0 ∧ getLevelScore r.levels 1 = 0 ∧
            isLevelUnlocked r.levels 2 = true)) = some true := by
  decide!

/-- Claim C15, amended.  On a win (both finished, no win pending) the next level, when it
exists, is unlocked whatever the computed score, because `checkWinCondition` calls
`unlockLevel(_currentLevel + 1)` after `setLevelScore`; the lock state of every other level
is unchanged. -/
theorem C15_win_unlocks_next (s : State) (hb : s.bearFinished = true)
    (hp : s.penguinFinished = true) (hw : s.winConditionMet = false)
    (h0 : 0 ≤ s.currentLevel) (h1 : s.currentLevel + 1 ≤ s.levels.length) :
    isLevelUnlocked (checkWinCondition s).levels (s.currentLevel + 1) = true ∧
      ∀ m, m ≠ s.currentLevel + 1 →
        isLevelUnlocked (checkWinCondition s).levels m = isLevelUnlocked s.levels m := by
  rw [checkWinCondition_fires s ⟨hb, hp, hw⟩]
  simp only []
  refine ⟨?_, fun m hm => ?_⟩
  · rw [isLevelUnlocked_unlockLevel, setLevelScore_length, if_pos ⟨rfl, by omega, h1⟩]
  · rw [isLevelUnlocked_unlockLevel, if_neg (fun h => hm h.1),
      isLevelUnlocked_setLevelScore _ _ _ _ hm]

theorem C15_witness :
    computeScore zeroScoreWin = 0 ∧
      isLevelUnlocked (checkWinCondition zeroScoreWin).levels (zeroScoreWin.currentLevel + 1) =
        true ∧
      ∀ m, m ≠ zeroScoreWin.currentLevel + 1 →
        isLevelUnlocked (checkWinCondition zeroScoreWin).levels m =
          isLevelUnlocked zeroScoreWin.levels m :=
  ⟨by decide, C15_win_unlocks_next zeroScoreWin (by decide) (by decide) (by decide) (by decide)
    (by decide)⟩

/-- Claim C16.  A direction given while a move is resolving is ignored: with
`isMoving = true`, or with the zero direction in any state, `moveCharacters` returns the
state unchanged (targets, positions, counters, grid, pending breaks and flags), for every
fuel.  Nothing is queued either: a frame of `update` in the moving state does the same with
and without a swipe. -/
theorem C16_input_while_moving_ignored (fuel : Nat) (s : State) (d : Vec2)
    (h : s.isMoving = true ∨ d = Vec2.ZERO) :
    moveCharacters fuel s d = some s ∧
      (s.isMoving = true → ∀ (timestep : ℚ) (complete : Bool),
        update fuel timestep (some d) complete s = update fuel timestep none complete s) := by
  constructor
  · unfold moveCharacters
    rw [if_neg]
    rintro ⟨h1, h2⟩
    rcases h with h | h
    · rw [h] at h1; cases h1
    · exact h2 h
  · intro hm timestep complete
    have hw : (updateWinDelay timestep s).isMoving = true := by
      unfold updateWinDelay
      simp only []
      split_ifs <;> exact hm
    unfold update
    simp only [hw]
    rfl

theorem C16_witness :
    moveCharacters 11 { scenarioB with isMoving := true } ⟨0, 1⟩ =
        some { scenarioB with isMoving := true } ∧
      (({ scenarioB with isMoving := true } : State).isMoving = true →
        ∀ (timestep : ℚ) (complete : Bool),
          update 11 timestep (some ⟨0, 1⟩) complete { scenarioB with isMoving := true } =
            update 11 timestep none complete { scenarioB with isMoving := true }) :=
  C16_input_while_moving_ignored 11 { scenarioB with isMoving := true } ⟨0, 1⟩ (Or.inl rfl)

/-- Claim C17.  With both characters finished, `calculateMovementTargets` returns for every
stored direction and every fuel, with both targets equal to the current positions, the
controller not moving, nothing added to the pending breaks, and positions, counters and grid
unchanged; so does `moveCharacters` from the idle state for every non-zero direction. -/
theorem C17_both_finished_noop (fuel : Nat) (s : State) (hb : s.bearFinished = true)
    (hp : s.penguinFinished = true) :
    (∃ s', calculateMovementTargets fuel s = some s' ∧
      s'.polarBearTarget = s.polarBearGridPos ∧ s'.penguinTarget = s.penguinGridPos ∧
      s'.isMoving = false ∧ s'.blocksToBreak = s.blocksToBreak ∧
      s'.polarBearGridPos = s.polarBearGridPos ∧ s'.penguinGridPos = s.penguinGridPos ∧
      s'.bearMoves = s.bearMoves ∧ s'.penguinMoves = s.penguinMoves ∧ s'.grid = s.grid) ∧
    ∀ d, d ≠ Vec2.ZERO → s.isMoving = false → ∃ s', moveCharacters fuel s d = some s' ∧
      s'.polarBearTarget = s.polarBearGridPos ∧ s'.penguinTarget = s.penguinGridPos ∧
      s'.isMoving = false ∧ s'.blocksToBreak = s.blocksToBreak ∧
      s'.polarBearGridPos = s.polarBearGridPos ∧ s'.penguinGridPos = s.penguinGridPos ∧
      s'.bearMoves = s.bearMoves ∧ s'.penguinMoves = s.penguinMoves ∧ s'.grid = s.grid := by
  constructor
  · rw [calculateMovementTargets_eq, if_pos ⟨hb, hp⟩]
    exact ⟨_, rfl, rfl, rfl, rfl, rfl, rfl, rfl, rfl, rfl, rfl⟩
  · intro d hd hm
    unfold moveCharacters
    rw [if_pos ⟨hm, hd⟩, calculateMovementTargets_eq, if_pos ⟨hb, hp⟩]
    exact ⟨_, rfl, rfl, rfl, rfl, rfl, rfl, rfl, rfl, rfl, rfl⟩

theorem C17_witness :
    (∃ s', calculateMovementTargets 0 zeroScoreWin = some s' ∧
      s'.polarBearTarget = zeroScoreWin.polarBearGridPos ∧
      s'.penguinTarget = zeroScoreWin.penguinGridPos ∧
      s'.isMoving = false ∧ s'.blocksToBreak = zeroScoreWin.blocksToBreak ∧
      s'.polarBearGridPos = zeroScoreWin.polarBearGridPos ∧
      s'.penguinGridPos = zeroScoreWin.penguinGridPos ∧
      s'.bearMoves = zeroScoreWin.bearMoves ∧ s'.penguinMoves = zeroScoreWin.penguinMoves ∧
      s'.grid = zeroScoreWin.grid) ∧
    ∀ d, d ≠ Vec2.ZERO → zeroScoreWin.isMoving = false →
      ∃ s', moveCharacters 0 zeroScoreWin d = some s' ∧
        s'.polarBearTarget = zeroScoreWin.polarBearGridPos ∧
        s'.penguinTarget = zeroScoreWin.penguinGridPos ∧
        s'.isMoving = false ∧ s'.blocksToBreak = zeroScoreWin.blocksToBreak ∧
        s'.polarBearGridPos = zeroScoreWin.polarBearGridPos ∧
        s'.penguinGridPos = zeroScoreWin.penguinGridPos ∧
        s'.bearMoves = zeroScoreWin.bearMoves ∧ s'.penguinMoves = zeroScoreWin.penguinMoves ∧
        s'.grid = zeroScoreWin.grid :=
  C17_both_finished_noop 0 zeroScoreWin (by decide) (by decide)

theorem countMoves_moves (b p : Bool) (s : State) :
    (countMoves b p s).bearMoves = s.bearMoves + (if b = true then 1 else 0) ∧
      (countMoves b p s).penguinMoves = s.penguinMoves + (if p = true then 1 else 0) := by
  unfold countMoves
  simp only []
  split_ifs <;> simp

theorem markSimultaneous_moves (b p : Bool) (s : State) :
    (markSimultaneous b p s).bearMoves = s.bearMoves ∧
      (markSimultaneous b p s).penguinMoves = s.penguinMoves ∧
      (markSimultaneous b p s).polarBearPrevPos = s.polarBearPrevPos ∧
      (markSimultaneous b p s).penguinPrevPos = s.penguinPrevPos := by
  unfold markSimultaneous
  split_ifs <;> exact ⟨rfl, rfl, rfl, rfl⟩

theorem applyTargets_moves (s : State) :
    (applyTargets s).bearMoves = s.bearMoves ∧ (applyTargets s).penguinMoves = s.penguinMoves ∧
      (applyTargets s).polarBearPrevPos = s.polarBearPrevPos ∧
      (applyTargets s).penguinPrevPos = s.penguinPrevPos := by
  unfold applyTargets
  simp only []
  split_ifs <;> exact ⟨rfl, rfl, rfl, rfl⟩

theorem checkWinCondition_moves (s : State) :
    (checkWinCondition s).bearMoves = s.bearMoves ∧
      (checkWinCondition s).penguinMoves = s.penguinMoves := by
  unfold checkWinCondition
  by_cases h : s.bearFinished = true ∧ s.penguinFinished = true ∧ s.winConditionMet = false
  · rw [if_pos h]; exact ⟨rfl, rfl⟩
  · rw [if_neg h]; exact ⟨rfl, rfl⟩

/-- The counters after a completed `updateMovement`: one more for a character whose new
position differs from `_polarBearPrevPos` / `_penguinPrevPos`. -/
theorem updateMovement_moves (s : State) :
    (updateMovement true s).bearMoves =
        s.bearMoves +
          (if (updateMovement true s).polarBearGridPos ≠ s.polarBearPrevPos then 1 else 0) ∧
      (updateMovement true s).penguinMoves =
        s.penguinMoves +
          (if (updateMovement true s).penguinGridPos ≠ s.penguinPrevPos then 1 else 0) := by
  have hpos := updateMovement_pos s
  have hap := applyTargets_pos s
  rw [hpos.1, hpos.2, ← hap.1, ← hap.2]
  unfold updateMovement
  simp only [if_true]
  rw [(checkWinCondition_moves _).1, (checkWinCondition_moves _).2]
  unfold updateFinishState resetMovement
  simp only []
  rw [(countMoves_moves _ _ _).1, (countMoves_moves _ _ _).2, (markSimultaneous_moves _ _ _).1,
    (markSimultaneous_moves _ _ _).2.1, (applyTargets_moves s).1, (applyTargets_moves s).2.1,
    (applyTargets_moves s).2.2.1, (applyTargets_moves s).2.2.2]
  simp

/-- Claim C13.  A resolved move (an accepted unit direction from the idle state, followed by
the completed `updateMovement`) increases each character's move counter by exactly 1 if the
character's position after the move differs from its position before it, and leaves the
counter unchanged otherwise. -/
theorem C13_move_counters (fuel : Nat) (s : State) (d : Vec2) (hf : 11 ≤ fuel)
    (hd : isUnitDirection d) (hm : s.isMoving = false)
    (hb : ¬ outOfBounds s.polarBearGridPos) (hp : ¬ outOfBounds s.penguinGridPos) :
    ∃ s', moveCharacters fuel s d = some s' ∧
      (updateMovement true s').bearMoves =
        s.bearMoves +
          (if (updateMovement true s').polarBearGridPos ≠ s.polarBearGridPos then 1 else 0) ∧
      (updateMovement true s').penguinMoves =
        s.penguinMoves +
          (if (updateMovement true s').penguinGridPos ≠ s.penguinGridPos then 1 else 0) := by
  rw [moveCharacters_eq fuel s hd hm]
  rcases hr : calculateMovementTargets fuel { s with moveDirection := d, isMoving := true }
    with _ | s'
  · exact absurd hr (calculateMovementTargets_ne_none fuel _ hd hb hp hf)
  obtain ⟨-, -, -, -, -, -, -, hbm, hpm, hbp, hpp, -⟩ := calculateMovementTargets_frame hr
  have h := updateMovement_moves s'
  rw [hbm, hpm, hbp, hpp] at h
  exact ⟨s', rfl, h.1, h.2⟩

theorem C13_witness :
    ∃ s', moveCharacters 11 finishExample ⟨1, 0⟩ = some s' ∧
      (updateMovement true s').bearMoves =
        finishExample.bearMoves +
          (if (updateMovement true s').polarBearGridPos ≠ finishExample.polarBearGridPos
            then 1 else 0) ∧
      (updateMovement true s').penguinMoves =
        finishExample.penguinMoves +
          (if (updateMovement true s').penguinGridPos ≠ finishExample.penguinGridPos
            then 1 else 0) :=
  C13_move_counters 11 finishExample ⟨1, 0⟩ (by decide) (by decide) (by decide) (by decide)
    (by decide)

theorem updateGrid_keeps (blocks : List Vec2) (type : Int) (x y : Int) :
    ∀ g : Grid, g x y = type → updateGrid g blocks type x y = type := by
  induction blocks with
  | nil => intro g h; exact h
  | cons pos rest ih =>
    intro g h
    unfold updateGrid
    apply ih
    split_ifs
    · unfold setCell
      split_ifs
      · rfl
      · exact h
    · exact h

theorem updateGrid_mem (blocks : List Vec2) (type : Int) (p : Vec2) (hp : p ∈ blocks)
    (hb : ¬ outOfBounds p) : ∀ g : Grid, updateGrid g blocks type p.x p.y = type := by
  induction blocks with
  | nil => cases hp
  | cons pos rest ih =>
    intro g
    unfold updateGrid
    rcases List.mem_cons.mp hp with h | h
    · subst h
      apply updateGrid_keeps
      have hin : p.x ≥ 0 ∧ p.x < GRID_WIDTH ∧ p.y ≥ 0 ∧ p.y < GRID_HEIGHT := by
        unfold outOfBounds at hb
        omega
      rw [if_pos hin]
      unfold setCell
      rw [if_pos ⟨rfl, rfl⟩]
    · exact ih h _

/-- Claim C18.  After `loadLevelData` (also reached as `restartLevel` and `switchLevel`),
whatever the state before: both move counters are 0, both finished flags are false, the
controller is neither moving nor won, the pending-break list is empty, and positions, tile
lists and grid are those of the level descriptor alone (the same for every prior state); in
particular every in-bounds tile of the descriptor's breakable list is kind 6 again. -/
theorem C18_load_resets (loadLevel : Int → LevelData) (levelNum : Int) (s : State) :
    (loadLevelData loadLevel levelNum s).bearMoves = 0 ∧
      (loadLevelData loadLevel levelNum s).penguinMoves = 0 ∧
      (loadLevelData loadLevel levelNum s).bearFinished = false ∧
      (loadLevelData loadLevel levelNum s).penguinFinished = false ∧
      (loadLevelData loadLevel levelNum s).isMoving = false ∧
      (loadLevelData loadLevel levelNum s).hasWon = false ∧
      (loadLevelData loadLevel levelNum s).blocksToBreak = [] ∧
      (loadLevelData loadLevel levelNum s).polarBearGridPos = (loadLevel levelNum).polarBearPos ∧
      (loadLevelData loadLevel levelNum s).penguinGridPos = (loadLevel levelNum).penguinPos ∧
      (loadLevelData loadLevel levelNum s).breakableBlocks =
        (loadLevel levelNum).breakableBlocks ∧
      (loadLevelData loadLevel levelNum s).grid = levelGrid (loadLevel levelNum) ∧
      (∀ s0 : State,
        (loadLevelData loadLevel levelNum s0).grid = (loadLevelData loadLevel levelNum s).grid ∧
        (loadLevelData loadLevel levelNum s0).polarBearGridPos =
          (loadLevelData loadLevel levelNum s).polarBearGridPos ∧
        (loadLevelData loadLevel levelNum s0).penguinGridPos =
          (loadLevelData loadLevel levelNum s).penguinGridPos) ∧
      (∀ p ∈ (loadLevel levelNum).breakableBlocks, ¬ outOfBounds p →
        (loadLevelData loadLevel levelNum s).grid p.x p.y = 6) ∧
      restartLevel loadLevel s = loadLevelData loadLevel s.currentLevel s ∧
      switchLevel loadLevel levelNum s = loadLevelData loadLevel levelNum s := by
  refine ⟨rfl, rfl, rfl, rfl, rfl, rfl, rfl, rfl, rfl, rfl, rfl, fun s0 => ⟨rfl, rfl, rfl⟩,
    fun p hp hb => ?_, rfl, rfl⟩
  show levelGrid (loadLevel levelNum) p.x p.y = 6
  unfold levelGrid
  exact updateGrid_mem _ 6 p hp hb _

theorem C18_witness :
    brokenState.grid 2 2 = 8 ∧
      (loadLevelData (fun _ => breakLevel) 1 brokenState).grid 2 2 = 6 ∧
      (loadLevelData (fun _ => breakLevel) 1 brokenState).bearMoves = 0 ∧
      (loadLevelData (fun _ => breakLevel) 1 brokenState).isMoving = false ∧
      (loadLevelData (fun _ => breakLevel) 1 brokenState).blocksToBreak = [] :=
  ⟨by decide,
    (C18_load_resets (fun _ => breakLevel) 1 brokenState).2.2.2.2.2.2.2.2.2.2.2.2.1 ⟨2, 2⟩
      (by decide) (by decide),
    (C18_load_resets (fun _ => breakLevel) 1 brokenState).1,
    (C18_load_resets (fun _ => breakLevel) 1 brokenState).2.2.2.2.1,
    (C18_load_resets (fun _ => breakLevel) 1 brokenState).2.2.2.2.2.2.1⟩

/-- Claim C19, as found in the code: `loadLevelData` leaves `_simultaneousDestinationReached`,
`_winConditionMet` and `_winDelay` as they were.  In `apartLevel` (par 2 for both) the moves
left, right, up after a restart score 2 when nothing was played before the restart and 3
when one joint move to the right was; and a restart right after a win ends in the won state
0.7 s later with no move made and no character finished, where a restart alone does not. -/
theorem C19_restart_keeps_flags :
    (∀ (loadLevel : Int → LevelData) (levelNum : Int) (s : State),
      (loadLevelData loadLevel levelNum s).simultaneousDestinationReached =
          s.simultaneousDestinationReached ∧
        (loadLevelData loadLevel levelNum s).winConditionMet = s.winConditionMet ∧
        (loadLevelData loadLevel levelNum s).winDelay = s.winDelay) ∧
      (runEvents 11 (fun _ => apartLevel)
        (initController (fun _ => apartLevel) initLevels (fun _ => 2) (fun _ => 2))
        ([Event.restart] ++ moveEvents ⟨-1, 0⟩ ++ moveEvents ⟨1, 0⟩ ++ moveEvents ⟨0, 1⟩)).map
          (fun r => decide (r.winConditionMet = true ∧ computeScore r = 2 ∧
            getLevelScore r.levels 1 = 2)) = some true ∧
      (runEvents 11 (fun _ => apartLevel)
        (initController (fun _ => apartLevel) initLevels (fun _ => 2) (fun _ => 2))
        (moveEvents ⟨1, 0⟩ ++ [Event.restart] ++ moveEvents ⟨-1, 0⟩ ++ moveEvents ⟨1, 0⟩ ++
          moveEvents ⟨0, 1⟩)).map
          (fun r => decide (r.winConditionMet = true ∧ computeScore r = 3 ∧
            getLevelScore r.levels 1 = 3)) = some true ∧
      (runEvents 11 (fun _ => apartLevel)
        (initController (fun _ => apartLevel) initLevels (fun _ => 2) (fun _ => 2))
        [Event.restart, Event.tick (7 / 10) none false]).map
          (fun r => decide (r.hasWon = false)) = some true ∧
      (runEvents 11 (fun _ => apartLevel)
        (initController (fun _ => apartLevel) initLevels (fun _ => 2) (fun _ => 2))
        (moveEvents ⟨-1, 0⟩ ++ moveEvents ⟨1, 0⟩ ++ moveEvents ⟨0, 1⟩ ++
          [Event.restart, Event.tick (7 / 10) none false])).map
          (fun r => decide (r.hasWon = true ∧ r.bearFinished = false ∧
            r.penguinFinished = false ∧ r.bearMoves = 0 ∧ r.penguinMoves = 0)) =
        some true := by
  refine ⟨fun _ _ _ => ⟨rfl, rfl, rfl⟩, ?_, ?_, ?_, ?_⟩ <;> decide!

/-- Claim C20, as found in the code: an attempt in which both characters become finished can
pass without the scoring rule firing.  In `twinLevel` (par 1 for both) the first attempt
(left, right) is won with two moves each and fires the rule once, storing score 1.  After a
restart inside the win delay, the second attempt is won with one move each, which scores 3,
but `_winConditionMet` is still set: the rule does not fire, the stored score stays 1, and
the old countdown (`0.7f` less two frames of 0.1 s, which is 16777215/33554432 in `float`
arithmetic) sets `_hasWon`. -/
theorem C20_scoring_skipped_after_restart :
    countFires 11 (fun _ => twinLevel)
        (initController (fun _ => twinLevel) initLevels (fun _ => 1) (fun _ => 1))
        (moveEvents ⟨-1, 0⟩ ++ moveEvents ⟨1, 0⟩) = 1 ∧
      countFires 11 (fun _ => twinLevel)
        (initController (fun _ => twinLevel) initLevels (fun _ => 1) (fun _ => 1))
        (moveEvents ⟨-1, 0⟩ ++ moveEvents ⟨1, 0⟩ ++ [Event.restart] ++ moveEvents ⟨1, 0⟩ ++
          [Event.tick (1 / 2) none false]) = 1 ∧
      (runEvents 11 (fun _ => twinLevel)
        (initController (fun _ => twinLevel) initLevels (fun _ => 1) (fun _ => 1))
        (moveEvents ⟨-1, 0⟩ ++ moveEvents ⟨1, 0⟩ ++ [Event.restart])).map
          (fun r => decide (r.bearFinished = false ∧ r.penguinFinished = false ∧
            r.bearMoves = 0 ∧ r.penguinMoves = 0 ∧ r.winConditionMet = true ∧
            getLevelScore r.levels 1 = 1)) = some true ∧
      (runEvents 11 (fun _ => twinLevel)
        (initController (fun _ => twinLevel) initLevels (fun _ => 1) (fun _ => 1))
        (moveEvents ⟨-1, 0⟩ ++ moveEvents ⟨1, 0⟩ ++ [Event.restart] ++ moveEvents ⟨1, 0⟩)).map
          (fun r => decide (r.bearFinished = true ∧ r.penguinFinished = true ∧
            r.bearMoves = 1 ∧ r.penguinMoves = 1 ∧ computeScore r = 3 ∧
            getLevelScore r.levels 1 = 1 ∧ r.winDelay = 16777215 / 33554432 ∧
            r.hasWon = false)) =
        some true ∧
      (runEvents 11 (fun _ => twinLevel)
        (initController (fun _ => twinLevel) initLevels (fun _ => 1) (fun _ => 1))
        (moveEvents ⟨-1, 0⟩ ++ moveEvents ⟨1, 0⟩ ++ [Event.restart] ++ moveEvents ⟨1, 0⟩ ++
          [Event.tick (1 / 2) none false])).map
          (fun r => decide (r.hasWon = true ∧ getLevelScore r.levels 1 = 1)) = some true := by
  refine ⟨?_, ?_, ?_, ?_, ?_⟩ <;> decide!

/-- Claim C29.  For a level number outside 1..`_levels.size()`, `getLevelScore` returns 0,
`isLevelUnlocked` returns false, and `setLevelScore` (for every score) and `unlockLevel`
leave the stored levels unchanged. -/
theorem C29_out_of_range_noop (levels : List LevelInfo) (n sc : Int)
    (h : n ≤ 0 ∨ n > levels.length) :
    getLevelScore levels n = 0 ∧ isLevelUnlocked levels n = false ∧
      setLevelScore levels n sc = levels ∧ unlockLevel levels n = levels := by
  refine ⟨?_, ?_, ?_, ?_⟩
  · unfold getLevelScore; rw [if_pos h]
  · unfold isLevelUnlocked; rw [if_pos h]
  · unfold setLevelScore; rw [if_pos h]
  · unfold unlockLevel; rw [if_neg (by omega)]

theorem C29_witness :
    getLevelScore initLevels 13 = 0 ∧ isLevelUnlocked initLevels 13 = false ∧
      setLevelScore initLevels 13 3 = initLevels ∧ unlockLevel initLevels 13 = initLevels :=
  C29_out_of_range_noop initLevels 13 3 (by decide)

/-- A cell `k` steps ahead of an in-bounds cell that is itself in bounds is at most `room`
steps away. -/
theorem steps_le_room {d p : Vec2} (hd : isUnitDirection d) (hp : ¬ outOfBounds p) {k : Nat}
    (hk : ¬ outOfBounds (p.steps d k)) : k ≤ room d p := by
  unfold outOfBounds at hp hk
  unfold room
  simp only [Vec2.steps_x, Vec2.steps_y, GRID_WIDTH, GRID_HEIGHT] at *
  rcases hd with h | h | h | h <;> subst h <;> simp at * <;> omega

theorem steps_inBounds_of_last {ok halt : Vec2 → Prop} {d curr t : Vec2} {k : Nat}
    (hp : PathLen ok halt d curr t k) (hin : ∀ p, ok p → ¬ outOfBounds p)
    (hc : ¬ outOfBounds curr) : ¬ outOfBounds t := by
  rcases hp.last with ⟨-, h⟩ | ⟨-, h⟩
  · rw [h]; exact hc
  · exact hin t h

theorem PathLen.le_room {ok halt : Vec2 → Prop} {d curr t : Vec2} {k : Nat}
    (hp : PathLen ok halt d curr t k) (hin : ∀ p, ok p → ¬ outOfBounds p)
    (hd : isUnitDirection d) (hc : ¬ outOfBounds curr) : k ≤ room d curr := by
  rcases Nat.eq_zero_or_pos k with h | h
  · omega
  · exact steps_le_room hd hc (hin _ (hp.2.1 k h (le_refl k)))

/-- Claim C30.  For every grid, every in-bounds start and every unit direction, the loops of
`slide` and `computeTarget` return as soon as the fuel exceeds the number of cells left in
front of the start, which is at most max(WIDTH, HEIGHT) - 1 = 10; the target is the start
displaced by `k` whole steps along the direction, with `k` at most that number, and lies
inside the grid. -/
theorem C30_slides_terminate (fuel : Nat) (s : State) (start : Vec2) (isPenguin canBreak : Bool)
    (d otherStart otherTarget : Vec2) (hd : isUnitDirection d) (hs : ¬ outOfBounds start)
    (hf : room d start < fuel) :
    room d start ≤ 10 ∧
    (∃ t s' k, slide fuel s start isPenguin canBreak d = some (t, s') ∧
      t = start.steps d k ∧ k ≤ room d start ∧ ¬ outOfBounds t) ∧
    (∃ t s' k, computeTarget fuel s start isPenguin canBreak d otherStart otherTarget =
        some (t, s') ∧
      t = start.steps d k ∧ k ≤ room d start ∧ ¬ outOfBounds t) := by
  refine ⟨room_le hs, ?_, ?_⟩
  · obtain ⟨r, hr⟩ := slideLoop_terminates s isPenguin canBreak hd fuel start s.blocksToBreak hf
    obtain ⟨k, hp, -⟩ := slideLoop_spec s isPenguin canBreak d fuel start s.blocksToBreak r hr
    refine ⟨r.1, { s with blocksToBreak := r.2 }, k, by simp [slide, hr], hp.1, hp.le_room (fun p h => h.1) hd hs,
      steps_inBounds_of_last hp (fun p h => h.1) hs⟩
  · obtain ⟨r, hr⟩ := computeTargetLoop_terminates s isPenguin canBreak otherStart otherTarget hd
      fuel start s.blocksToBreak hf
    obtain ⟨k, hp, -⟩ := computeTargetLoop_spec s isPenguin canBreak d otherStart otherTarget
      fuel start s.blocksToBreak r hr
    refine ⟨r.1, { s with blocksToBreak := r.2 }, k, by simp [computeTarget, hr], hp.1, hp.le_room (fun p h => h.2.2.1.1) hd hs,
      steps_inBounds_of_last hp (fun p h => h.2.2.1.1) hs⟩

theorem C30_witness :
    room (⟨1, 0⟩ : Vec2) ⟨0, 5⟩ ≤ 10 ∧
    (∃ t s' k, slide 7 scenarioB ⟨0, 5⟩ false true ⟨1, 0⟩ = some (t, s') ∧
      t = (⟨0, 5⟩ : Vec2).steps ⟨1, 0⟩ k ∧ k ≤ room (⟨1, 0⟩ : Vec2) ⟨0, 5⟩ ∧ ¬ outOfBounds t) ∧
    (∃ t s' k, computeTarget 7 scenarioB ⟨0, 5⟩ false true ⟨1, 0⟩ ⟨4, 5⟩ NO_TARGET =
        some (t, s') ∧
      t = (⟨0, 5⟩ : Vec2).steps ⟨1, 0⟩ k ∧ k ≤ room (⟨1, 0⟩ : Vec2) ⟨0, 5⟩ ∧ ¬ outOfBounds t) :=
  C30_slides_terminate 7 scenarioB ⟨0, 5⟩ false true ⟨1, 0⟩ ⟨4, 5⟩ NO_TARGET (by decide)
    (by decide) (by decide)

theorem GridStep.same (g : Grid) : GridStep g g := fun _ _ => Or.inl rfl

theorem GridStep.trans {g1 g2 g3 : Grid} (h1 : GridStep g1 g2) (h2 : GridStep g2 g3) :
    GridStep g1 g3 := by
  intro x y
  rcases h1 x y with a | ⟨a, b⟩ <;> rcases h2 x y with c | ⟨c, d⟩
  · left; rw [c, a]
  · right; rw [← a]; exact ⟨c, d⟩
  · right; rw [c]; exact ⟨a, b⟩
  · rw [b] at c; cases c

theorem GridStep.passable {g g' : Grid} (h : GridStep g g') {x y : Int} (h8 : g x y = 8) :
    g' x y = 8 := by
  rcases h x y with a | ⟨a, -⟩
  · rw [a, h8]
  · rw [h8] at a; cases a

theorem breakBlock_eq (s : State) (x y : Int) :
    ∃ g bb, breakBlock s x y = { s with grid := g, breakableBlocks := bb } ∧
      ∀ i j, g i j = s.grid i j ∨
        (s.grid i j = 6 ∧ g i j = 8 ∧ i = x ∧ j = y ∧ ¬ outOfBounds ⟨i, j⟩) := by
  refine ⟨_, _, rfl, fun i j => ?_⟩
  by_cases h : ¬ outOfBounds ⟨x, y⟩ ∧ s.grid x y = 6
  · rw [if_pos h]
    unfold setCell
    by_cases hij : i = x ∧ j = y
    · obtain ⟨rfl, rfl⟩ := hij
      right
      exact ⟨h.2, by simp, rfl, rfl, h.1⟩
    · left; rw [if_neg hij]
  · rw [if_neg h]; left; rfl

/-- What the loop of `updateBlockBreaking` does: it touches only the grid and
`_breakableBlocks`; a cell changes only from 6 to 8, and only at a listed in-bounds
coordinate whose delay has run out; the entries kept are a sublist by coordinates. -/
theorem updateBlockBreakingLoop_eq (ts : ℚ) :
    ∀ (l : List BreakableBlockInfo) (s : State),
      ∃ g bb, (updateBlockBreakingLoop ts l s).2 = { s with grid := g, breakableBlocks := bb } ∧
        (∀ i j, g i j = s.grid i j ∨ (s.grid i j = 6 ∧ g i j = 8 ∧ ¬ outOfBounds ⟨i, j⟩ ∧
          ∃ e ∈ l, e.position = ⟨i, j⟩ ∧ fsub e.delay ts ≤ 0)) ∧
        ((updateBlockBreakingLoop ts l s).1.map (fun e => e.position)).Sublist
          (l.map (fun e => e.position)) ∧
        (∀ e ∈ (updateBlockBreakingLoop ts l s).1, ∃ e0 ∈ l, e0.position = e.position ∧
          ¬ fsub e0.delay ts ≤ 0 ∧ e.delay = fsub e0.delay ts) := by
  intro l
  induction l with
  | nil =>
    intro s
    exact ⟨s.grid, s.breakableBlocks, rfl, fun _ _ => Or.inl rfl, List.Sublist.refl _,
      fun e he => by simp [updateBlockBreakingLoop] at he⟩
  | cons info rest ih =>
    intro s
    rw [updateBlockBreakingLoop]
    simp only []
    by_cases h0 : fsub info.delay ts ≤ 0
    · rw [if_pos h0]
      by_cases hc : ¬ outOfBounds ⟨info.position.x, info.position.y⟩ ∧
          s.grid info.position.x info.position.y = 6
      · rw [if_pos hc]
        obtain ⟨g1, bb1, hb, hg1⟩ := breakBlock_eq s info.position.x info.position.y
        rw [hb]
        obtain ⟨g, bb, hs, hg, hl, he⟩ := ih { s with grid := g1, breakableBlocks := bb1 }
        refine ⟨g, bb, by rw [hs], fun i j => ?_, hl.trans (List.sublist_cons_self _ _),
          fun e he' => ?_⟩
        · rcases hg i j with a | ⟨a, b, c, e, he1, he2, he3⟩
          · rcases hg1 i j with a1 | ⟨a1, b1, rfl, rfl, e1⟩
            · left; rw [a]; exact a1
            · right
              exact ⟨a1, by rw [a]; exact b1, e1, info, List.mem_cons_self _ _, rfl, h0⟩
          · rcases hg1 i j with a1 | ⟨a1, b1, -⟩
            · right
              exact ⟨by rw [← a1]; exact a, b, c, e, List.mem_cons_of_mem _ he1, he2, he3⟩
            · have : g1 i j = 6 := a
              rw [b1] at this; cases this
        · obtain ⟨e0, h1, h2⟩ := he e he'
          exact ⟨e0, List.mem_cons_of_mem _ h1, h2⟩
      · rw [if_neg hc]
        obtain ⟨g, bb, hs, hg, hl, he⟩ := ih s
        refine ⟨g, bb, hs, fun i j => ?_, hl.trans (List.sublist_cons_self _ _),
          fun e he' => ?_⟩
        · rcases hg i j with a | ⟨a, b, c, e, he1, he2, he3⟩
          · left; exact a
          · right; exact ⟨a, b, c, e, List.mem_cons_of_mem _ he1, he2, he3⟩
        · obtain ⟨e0, h1, h2⟩ := he e he'
          exact ⟨e0, List.mem_cons_of_mem _ h1, h2⟩
    · rw [if_neg h0]
      obtain ⟨g, bb, hs, hg, hl, he⟩ := ih s
      refine ⟨g, bb, hs, fun i j => ?_, ?_, fun e he' => ?_⟩
      · rcases hg i j with a | ⟨a, b, c, e, he1, he2, he3⟩
        · left; exact a
        · right; exact ⟨a, b, c, e, List.mem_cons_of_mem _ he1, he2, he3⟩
      · simp only [List.map_cons]
        exact hl.cons₂ _
      · rcases List.mem_cons.1 he' with h | h
        · exact ⟨info, List.mem_cons_self _ _, by rw [h], h0, by rw [h]⟩
        · obtain ⟨e0, h1, h2⟩ := he e h
          exact ⟨e0, List.mem_cons_of_mem _ h1, h2⟩

theorem updateBlockBreaking_eq (ts : ℚ) (s : State) :
    ∃ g bb btb, updateBlockBreaking ts s =
        { s with grid := g, breakableBlocks := bb, blocksToBreak := btb } ∧
      (∀ i j, g i j = s.grid i j ∨ (s.grid i j = 6 ∧ g i j = 8 ∧ ¬ outOfBounds ⟨i, j⟩ ∧
        ∃ e ∈ s.blocksToBreak, e.position = ⟨i, j⟩ ∧ fsub e.delay ts ≤ 0)) ∧
      (btb.map (fun e => e.position)).Sublist (s.blocksToBreak.map (fun e => e.position)) ∧
      (∀ e ∈ btb, ∃ e0 ∈ s.blocksToBreak, e0.position = e.position ∧
        ¬ fsub e0.delay ts ≤ 0 ∧ e.delay = fsub e0.delay ts) := by
  obtain ⟨g, bb, hs, hg, hl, he⟩ := updateBlockBreakingLoop_eq ts s.blocksToBreak s
  refine ⟨g, bb, (updateBlockBreakingLoop ts s.blocksToBreak s).1, ?_, hg, hl, he⟩
  unfold updateBlockBreaking
  simp only []
  rw [hs]

theorem updateBlockBreaking_gridStep (ts : ℚ) (s : State) :
    GridStep s.grid (updateBlockBreaking ts s).grid := by
  obtain ⟨g, bb, btb, hs, hg, -⟩ := updateBlockBreaking_eq ts s
  rw [hs]
  intro x y
  rcases hg x y with a | ⟨a, b, -⟩
  · exact Or.inl a
  · exact Or.inr ⟨a, b⟩

theorem updateBlockBreaking_inv (ts : ℚ) (s : State) (hinv : BreakInv s) :
    BreakInv (updateBlockBreaking ts s) := by
  obtain ⟨g, bb, btb, hs, hg, hl, he⟩ := updateBlockBreaking_eq ts s
  rw [hs]
  refine ⟨hl.nodup hinv.1, fun p hp => ?_⟩
  obtain ⟨e, hmem, hpe⟩ := List.mem_map.1 hp
  obtain ⟨e0, h0, hpos, hnot, -⟩ := he e hmem
  have hp0 : p ∈ s.blocksToBreak.map (fun e => e.position) :=
    List.mem_map.2 ⟨e0, h0, by rw [hpos, hpe]⟩
  obtain ⟨hin, h6⟩ := hinv.2 p hp0
  refine ⟨hin, ?_⟩
  show g p.x p.y = 6
  rcases hg p.x p.y with a | ⟨-, -, -, e1, h1, hpos1, hel⟩
  · rw [a]; exact h6
  · exfalso
    have : e1 = e0 := List.inj_on_of_nodup_map hinv.1 h1 h0 (by rw [hpos1, hpos, hpe])
    rw [this] at hel
    exact hnot hel

theorem checkForSqueeze_mem (s : State) :
    (∀ e, e ∈ s.blocksToBreak → e ∈ (checkForSqueeze s).2.blocksToBreak) ∧
      ∀ e, e ∈ (checkForSqueeze s).2.blocksToBreak → e ∈ s.blocksToBreak ∨
        (e.delay = BREAK_DELAY ∧ ¬ outOfBounds e.position ∧
          s.grid e.position.x e.position.y = 6) := by
  obtain ⟨btb, rear, h, hb⟩ := checkForSqueeze_snd s
  rw [h]
  simp only []
  rcases hb with hb | ⟨p, hin, h6, hb⟩
  · rw [hb]; exact ⟨fun e he => he, fun e he => Or.inl he⟩
  · rw [hb]
    refine ⟨fun e he => (mem_scheduleBlockBreaking _ _ _ _ _).2 (Or.inl he), fun e he => ?_⟩
    rcases (mem_scheduleBlockBreaking _ _ _ _ _).1 he with he | ⟨he, -⟩
    · exact Or.inl he
    · right; rw [he]; exact ⟨rfl, hin, h6⟩

theorem Recorded.mem {s : State} {isPenguin canBreak : Bool} {d curr t : Vec2} {k : Nat}
    {btb btb' : List BreakableBlockInfo} {halt : Vec2 → Prop}
    (hr : Recorded s isPenguin canBreak d curr k btb btb')
    (hp : PathLen (enterable s isPenguin) halt d curr t k) :
    ∀ e, e ∈ btb' → e ∈ btb ∨ (e.delay = BREAK_DELAY ∧ ¬ outOfBounds e.position ∧
      s.grid e.position.x e.position.y = 6) := by
  intro e he
  rcases hr.2.1 e he with h | ⟨-, hdl, j, hj1, hj2, hpos, h6⟩
  · exact Or.inl h
  · right
    rw [hpos]
    exact ⟨hdl, (hp.2.1 j hj1 hj2).1, h6⟩

/-- What a resolution does to the break list: it keeps the old entries, and every new entry
is an in-bounds cell of kind 6 with the delay `BREAK_DELAY`; distinct coordinates stay
distinct. -/
theorem calculateMovementTargets_btb {fuel : Nat} {s s' : State}
    (h : calculateMovementTargets fuel s = some s') :
    (∀ e, e ∈ s.blocksToBreak → e ∈ s'.blocksToBreak) ∧
      (∀ e, e ∈ s'.blocksToBreak → e ∈ s.blocksToBreak ∨
        (e.delay = BREAK_DELAY ∧ ¬ outOfBounds e.position ∧
          s.grid e.position.x e.position.y = 6)) ∧
      ((s.blocksToBreak.map (fun e => e.position)).Nodup →
        (s'.blocksToBreak.map (fun e => e.position)).Nodup) := by
  rw [calculateMovementTargets_eq] at h
  obtain ⟨hm1, hm2⟩ := checkForSqueeze_mem s
  have hnd0 : (s.blocksToBreak.map (fun e => e.position)).Nodup →
      ((checkForSqueeze s).2.blocksToBreak.map (fun e => e.position)).Nodup := by
    intro hnd
    obtain ⟨btb, rear, h, hb⟩ := checkForSqueeze_snd s
    rw [h]
    simp only []
    rcases hb with hb | ⟨p, -, -, hb⟩
    · rw [hb]; exact hnd
    · rw [hb]; exact nodup_scheduleBlockBreaking _ _ _ _ hnd
  split_ifs at h with h1 h2
  · simp only [Option.some.injEq] at h
    subst h
    exact ⟨fun e he => he, fun e he => Or.inl he, fun hn => hn⟩
  · obtain ⟨btb, rear, hs, -, hbtb⟩ := checkForSqueeze_state s true
    rw [hs] at h
    obtain ⟨ft, rt, btb1, btb2, kf, kr, hs', hp1, hp2, hr1, hr2⟩ :=
      calculateSqueezeTargets_some h
    rw [hbtb] at hm1 hm2 hnd0
    subst hs'
    refine ⟨fun e he => hr2.1 e (hr1.1 e (hm1 e he)), fun e he => ?_,
      fun hn => hr2.2.2.2.1 (hr1.2.2.2.1 (hnd0 hn))⟩
    rcases hr2.mem hp2 e he with h | h
    · rcases hr1.mem hp1 e h with h | h
      · exact hm2 e h
      · exact Or.inr h
    · exact Or.inr h
  · obtain ⟨btb, rear, hs, -, hbtb⟩ := checkForSqueeze_state s false
    rw [hs] at h
    obtain ⟨ft, rt, kf, kr, -, -, -, -, hs'⟩ := calculateStandardTargets_some rfl rfl h
    rw [hbtb] at hm1 hm2 hnd0
    subst hs'
    split_ifs <;> exact ⟨hm1, hm2, hnd0⟩

theorem calculateMovementTargets_inv {fuel : Nat} {s s' : State}
    (h : calculateMovementTargets fuel s = some s') (hinv : BreakInv s) : BreakInv s' := by
  obtain ⟨-, h2, h3⟩ := calculateMovementTargets_btb h
  have hg : s'.grid = s.grid := (calculateMovementTargets_frame h).1
  refine ⟨h3 hinv.1, fun p hp => ?_⟩
  obtain ⟨e, he, hpe⟩ := List.mem_map.1 hp
  rw [hg]
  rcases h2 e he with h | ⟨-, hin, h6⟩
  · exact hinv.2 p (List.mem_map.2 ⟨e, h, hpe⟩)
  · rw [← hpe]; exact ⟨hin, h6⟩

theorem updateMovement_eq (s : State) :
    updateMovement true s = checkWinCondition (updateFinishState (movedState s)) := rfl

theorem applyTargets_board (s : State) :
    (applyTargets s).grid = s.grid ∧ (applyTargets s).blocksToBreak = s.blocksToBreak ∧
      (applyTargets s).bearFinishBlocks = s.bearFinishBlocks ∧
      (applyTargets s).penguinFinishBlocks = s.penguinFinishBlocks := by
  unfold applyTargets
  simp only []
  split_ifs <;> exact ⟨rfl, rfl, rfl, rfl⟩

theorem markSimultaneous_board (b p : Bool) (s : State) :
    (markSimultaneous b p s).grid = s.grid ∧
      (markSimultaneous b p s).blocksToBreak = s.blocksToBreak ∧
      (markSimultaneous b p s).bearFinishBlocks = s.bearFinishBlocks ∧
      (markSimultaneous b p s).penguinFinishBlocks = s.penguinFinishBlocks := by
  unfold markSimultaneous
  split_ifs <;> exact ⟨rfl, rfl, rfl, rfl⟩

theorem countMoves_board (b p : Bool) (s : State) :
    (countMoves b p s).grid = s.grid ∧ (countMoves b p s).blocksToBreak = s.blocksToBreak ∧
      (countMoves b p s).bearFinishBlocks = s.bearFinishBlocks ∧
      (countMoves b p s).penguinFinishBlocks = s.penguinFinishBlocks := by
  unfold countMoves
  simp only []
  split_ifs <;> exact ⟨rfl, rfl, rfl, rfl⟩

theorem movedState_board (s : State) :
    (movedState s).grid = s.grid ∧ (movedState s).blocksToBreak = s.blocksToBreak ∧
      (movedState s).bearFinishBlocks = s.bearFinishBlocks ∧
      (movedState s).penguinFinishBlocks = s.penguinFinishBlocks := by
  unfold movedState resetMovement
  simp only []
  obtain ⟨a1, a2, a3, a4⟩ := applyTargets_board s
  refine ⟨?_, ?_, ?_, ?_⟩
  · rw [(countMoves_board _ _ _).1, (markSimultaneous_board _ _ _).1, a1]
  · rw [(countMoves_board _ _ _).2.1, (markSimultaneous_board _ _ _).2.1, a2]
  · rw [(countMoves_board _ _ _).2.2.1, (markSimultaneous_board _ _ _).2.2.1, a3]
  · rw [(countMoves_board _ _ _).2.2.2, (markSimultaneous_board _ _ _).2.2.2, a4]

theorem checkWinCondition_board (s : State) :
    (checkWinCondition s).grid = s.grid ∧
      (checkWinCondition s).blocksToBreak = s.blocksToBreak ∧
      (checkWinCondition s).bearFinishBlocks = s.bearFinishBlocks ∧
      (checkWinCondition s).penguinFinishBlocks = s.penguinFinishBlocks ∧
      (checkWinCondition s).bearFinished = s.bearFinished ∧
      (checkWinCondition s).penguinFinished = s.penguinFinished := by
  unfold checkWinCondition
  by_cases h : s.bearFinished = true ∧ s.penguinFinished = true ∧ s.winConditionMet = false
  · rw [if_pos h]; exact ⟨rfl, rfl, rfl, rfl, rfl, rfl⟩
  · rw [if_neg h]; exact ⟨rfl, rfl, rfl, rfl, rfl, rfl⟩

/-- The fields a completed or running `updateMovement` never touches. -/
theorem updateMovement_frame (c : Bool) (s : State) :
    (updateMovement c s).grid = s.grid ∧
      (updateMovement c s).blocksToBreak = s.blocksToBreak ∧
      (updateMovement c s).bearFinishBlocks = s.bearFinishBlocks ∧
      (updateMovement c s).penguinFinishBlocks = s.penguinFinishBlocks := by
  cases c
  · exact ⟨rfl, rfl, rfl, rfl⟩
  · rw [updateMovement_eq]
    obtain ⟨c1, c2, c3, c4, -, -⟩ := checkWinCondition_board (updateFinishState (movedState s))
    obtain ⟨m1, m2, m3, m4⟩ := movedState_board s
    rw [c1, c2, c3, c4]
    exact ⟨m1, m2, m3, m4⟩

theorem updateWinDelay_frame (ts : ℚ) (s : State) :
    ∃ wd hw wc, updateWinDelay ts s =
      { s with winDelay := wd, hasWon := hw, winConditionMet := wc } := by
  unfold updateWinDelay
  simp only []
  split_ifs <;> exact ⟨_, _, _, rfl⟩

/-- The finished flags after a completed `updateMovement` are the membership tests of
`updateFinishState` at the new positions. -/
theorem updateMovement_finished (s : State) :
    (updateMovement true s).bearFinished =
        s.bearFinishBlocks.any (fun pos =>
          decide (pos.x = (updateMovement true s).polarBearGridPos.x ∧
            pos.y = (updateMovement true s).polarBearGridPos.y)) ∧
      (updateMovement true s).penguinFinished =
        s.penguinFinishBlocks.any (fun pos =>
          decide (pos.x = (updateMovement true s).penguinGridPos.x ∧
            pos.y = (updateMovement true s).penguinGridPos.y)) := by
  rw [updateMovement_eq]
  obtain ⟨-, -, -, -, c5, c6⟩ := checkWinCondition_board (updateFinishState (movedState s))
  obtain ⟨p1, p2⟩ := checkWinCondition_pos (updateFinishState (movedState s))
  obtain ⟨-, -, m3, m4⟩ := movedState_board s
  rw [c5, c6, p1, p2, ← m3, ← m4]
  exact ⟨rfl, rfl⟩

theorem any_pos_iff_mem (blocks : List Vec2) (p : Vec2) :
    blocks.any (fun pos => decide (pos.x = p.x ∧ pos.y = p.y)) = true ↔ p ∈ blocks := by
  rw [List.any_eq_true]
  constructor
  · rintro ⟨q, hq, h⟩
    have h2 := of_decide_eq_true h
    have : q = p := Vec2.ext h2.1 h2.2
    rw [← this]; exact hq
  · intro h
    exact ⟨p, h, decide_eq_true ⟨rfl, rfl⟩⟩

/-- The three shapes of a frame of `update`: nothing but the countdown, a running or
completed `updateMovement`, or an accepted swipe resolved by `calculateMovementTargets`;
`updateBlockBreaking` follows in each. -/
theorem update_some {fuel : Nat} {ts : ℚ} {swipe : Option Vec2} {c : Bool} {s s' : State}
    (h : update fuel ts swipe c s = some s') :
    ∃ s1, s' = updateBlockBreaking ts s1 ∧
      (s1 = updateWinDelay ts s ∨
        ((updateWinDelay ts s).isMoving = true ∧ s1 = updateMovement c (updateWinDelay ts s)) ∨
        ((updateWinDelay ts s).isMoving = false ∧ ∃ d,
          calculateMovementTargets fuel
            { updateWinDelay ts s with moveDirection := d, isMoving := true } = some s1)) := by
  unfold update at h
  simp only [] at h
  split_ifs at h with hm
  · unfold processInput at h
    rw [if_neg (by rw [hm]; simp)] at h
    rcases swipe with _ | d
    · simp only [Option.map_some', Option.some.injEq] at h
      exact ⟨_, h.symm, Or.inl rfl⟩
    · simp only [] at h
      unfold moveCharacters at h
      split_ifs at h with hd
      · rcases hr : calculateMovementTargets fuel
          { updateWinDelay ts s with moveDirection := d, isMoving := true } with _ | s1
        · rw [hr] at h; cases h
        · rw [hr] at h
          simp only [Option.map_some', Option.some.injEq] at h
          exact ⟨s1, h.symm, Or.inr (Or.inr ⟨hm, d, hr⟩)⟩
      · simp only [Option.map_some', Option.some.injEq] at h
        exact ⟨_, h.symm, Or.inl rfl⟩
  · simp only [Option.map_some', Option.some.injEq] at h
    exact ⟨_, h.symm, Or.inr (Or.inl ⟨by simpa using hm, rfl⟩)⟩

theorem update_gridStep {fuel : Nat} {ts : ℚ} {swipe : Option Vec2} {c : Bool} {s s' : State}
    (h : update fuel ts swipe c s = some s') : GridStep s.grid s'.grid := by
  obtain ⟨s1, hs', hs1⟩ := update_some h
  obtain ⟨wd, hw, wc, hwd⟩ := updateWinDelay_frame ts s
  have hg1 : s1.grid = s.grid := by
    rcases hs1 with h1 | ⟨-, h1⟩ | ⟨-, d, h1⟩
    · rw [h1, hwd]
    · rw [h1, (updateMovement_frame c _).1, hwd]
    · rw [(calculateMovementTargets_frame h1).1, hwd]
  rw [hs', ← hg1]
  exact updateBlockBreaking_gridStep ts s1

theorem update_inv {fuel : Nat} {ts : ℚ} {swipe : Option Vec2} {c : Bool} {s s' : State}
    (h : update fuel ts swipe c s = some s') (hinv : BreakInv s) : BreakInv s' := by
  obtain ⟨s1, hs', hs1⟩ := update_some h
  obtain ⟨wd, hw, wc, hwd⟩ := updateWinDelay_frame ts s
  have h0 : BreakInv (updateWinDelay ts s) := by rw [hwd]; exact hinv
  have h1 : BreakInv s1 := by
    rcases hs1 with h1 | ⟨-, h1⟩ | ⟨-, d, h1⟩
    · rw [h1]; exact h0
    · rw [h1]
      unfold BreakInv
      rw [(updateMovement_frame c _).1, (updateMovement_frame c _).2.1]
      exact h0
    · exact calculateMovementTargets_inv h1 h0
  rw [hs']
  exact updateBlockBreaking_inv ts s1 h1

/-- A reflexive and transitive relation that every frame of `update` respects holds between
the two ends of every run without restart. -/
theorem runEvents_ticks_rel {fuel : Nat} {loadLevel : Int → LevelData}
    (R : State → State → Prop) (hrefl : ∀ s, R s s)
    (htrans : ∀ a b c, R a b → R b c → R a c)
    (hstep : ∀ (ts : ℚ) (sw : Option Vec2) (c : Bool) (s s' : State),
      update fuel ts sw c s = some s' → R s s') :
    ∀ (events : List Event) (s s' : State), allTicks events = true →
      runEvents fuel loadLevel s events = some s' → R s s' := by
  intro events
  induction events with
  | nil =>
    intro s s' _ h
    simp only [runEvents, Option.some.injEq] at h
    subst h
    exact hrefl s
  | cons e rest ih =>
    intro s s' ht h
    cases e with
    | restart => simp [allTicks] at ht
    | tick ts sw c =>
      simp only [allTicks] at ht
      simp only [runEvents, applyEvent] at h
      rcases hu : update fuel ts sw c s with _ | s1
      · rw [hu] at h; cases h
      · rw [hu] at h
        simp only [] at h
        exact htrans _ _ _ (hstep ts sw c s s1 hu) (ih s1 s' ht h)

theorem runEvents_ticks {fuel : Nat} {loadLevel : Int → LevelData}
    (events : List Event) (s s' : State) (ht : allTicks events = true)
    (h : runEvents fuel loadLevel s events = some s') :
    GridStep s.grid s'.grid ∧ (BreakInv s → BreakInv s') :=
  runEvents_ticks_rel (fun a b => GridStep a.grid b.grid ∧ (BreakInv a → BreakInv b))
    (fun _ => ⟨GridStep.same _, fun hi => hi⟩)
    (fun _ _ _ h1 h2 => ⟨h1.1.trans h2.1, fun hi => h2.2 (h1.2 hi)⟩)
    (fun _ _ _ _ _ hu => ⟨update_gridStep hu, update_inv hu⟩) events s s' ht h

theorem moveCharacters_grid {fuel : Nat} {s s' : State} {d : Vec2}
    (h : moveCharacters fuel s d = some s') : s'.grid = s.grid := by
  unfold moveCharacters at h
  split_ifs at h
  · exact (calculateMovementTargets_frame h).1
  · simp only [Option.some.injEq] at h
    rw [← h]

theorem breakBlock_gridStep (s : State) (x y : Int) : GridStep s.grid (breakBlock s x y).grid := by
  obtain ⟨g, bb, hs, hg⟩ := breakBlock_eq s x y
  rw [hs]
  intro i j
  rcases hg i j with a | ⟨a, b, -⟩
  · exact Or.inl a
  · exact Or.inr ⟨a, b⟩

/-- Claim C21.  Between level loads no operation changes a grid cell except from Breakable
(6) to Passable (8): `moveCharacters`, `calculateMovementTargets` and `updateMovement` leave
the grid as it is, `updateBlockBreaking` and `breakBlock` change a cell only from 6 to 8, and
so does every run of frames of `update` without restart; a cell of kind 8 keeps kind 8. -/
theorem C21_grid_only_breaks :
    (∀ (fuel : Nat) (s s' : State) (d : Vec2),
      moveCharacters fuel s d = some s' → s'.grid = s.grid) ∧
    (∀ (fuel : Nat) (s s' : State),
      calculateMovementTargets fuel s = some s' → s'.grid = s.grid) ∧
    (∀ (c : Bool) (s : State), (updateMovement c s).grid = s.grid) ∧
    (∀ (ts : ℚ) (s : State), GridStep s.grid (updateBlockBreaking ts s).grid) ∧
    (∀ (s : State) (x y : Int), GridStep s.grid (breakBlock s x y).grid) ∧
    (∀ (fuel : Nat) (loadLevel : Int → LevelData) (events : List Event) (s s' : State),
      allTicks events = true → runEvents fuel loadLevel s events = some s' →
      GridStep s.grid s'.grid ∧ ∀ x y, s.grid x y = 8 → s'.grid x y = 8) := by
  refine ⟨fun _ _ _ _ h => moveCharacters_grid h,
    fun _ _ _ h => (calculateMovementTargets_frame h).1,
    fun c s => (updateMovement_frame c s).1,
    fun ts s => updateBlockBreaking_gridStep ts s,
    fun s x y => breakBlock_gridStep s x y, fun fuel loadLevel events s s' ht h => ?_⟩
  have hg := (runEvents_ticks events s s' ht h).1
  exact ⟨hg, fun x y h8 => hg.passable h8⟩

theorem loadLevelData_inv (loadLevel : Int → LevelData) (levelNum : Int) (s : State) :
    BreakInv (loadLevelData loadLevel levelNum s) := by
  unfold BreakInv loadLevelData
  simp

/-- Claim C22.  The break list never holds a coordinate twice, and a consumed tile never
triggers again: the list is empty after a level load; along every run of frames of `update`
without restart the list keeps distinct coordinates, all of them in-bounds cells of kind 6,
and a cell of kind 8 keeps kind 8 and is not in the list; `scheduleBlockBreaking` keeps
coordinates distinct; `breakBlock` changes the cell only from 6 to 8. -/
theorem C22_no_double_break :
    (∀ (loadLevel : Int → LevelData) (levelNum : Int) (s : State),
      (loadLevelData loadLevel levelNum s).blocksToBreak = [] ∧
        BreakInv (loadLevelData loadLevel levelNum s)) ∧
    (∀ (fuel : Nat) (loadLevel : Int → LevelData) (events : List Event) (s s' : State),
      allTicks events = true → BreakInv s → runEvents fuel loadLevel s events = some s' →
      BreakInv s' ∧ ∀ x y, s.grid x y = 8 →
        s'.grid x y = 8 ∧ (⟨x, y⟩ : Vec2) ∉ s'.blocksToBreak.map (fun e => e.position)) ∧
    (∀ (btb : List BreakableBlockInfo) (x y : Int) (delay : ℚ),
      (btb.map (fun e => e.position)).Nodup →
      ((scheduleBlockBreaking btb x y delay).map (fun e => e.position)).Nodup) ∧
    (∀ (s : State) (x y : Int), (breakBlock s x y).grid x y ≠ s.grid x y →
      s.grid x y = 6 ∧ (breakBlock s x y).grid x y = 8) := by
  refine ⟨fun loadLevel n s => ⟨rfl, loadLevelData_inv loadLevel n s⟩,
    fun fuel loadLevel events s s' ht hinv h => ?_,
    fun btb x y dl hn => nodup_scheduleBlockBreaking btb x y dl hn, fun s x y hne => ?_⟩
  · obtain ⟨hg, hi⟩ := runEvents_ticks events s s' ht h
    refine ⟨hi hinv, fun x y h8 => ⟨hg.passable h8, fun hmem => ?_⟩⟩
    have h6 := ((hi hinv).2 ⟨x, y⟩ hmem).2
    rw [hg.passable h8] at h6
    cases h6
  · rcases breakBlock_gridStep s x y x y with a | a
    · exact absurd a hne
    · exact a

/-- The entries `updateBlockBreaking` keeps: those whose decremented delay is still
positive, with the decremented delay, in their order. -/
theorem updateBlockBreakingLoop_kept (ts : ℚ) :
    ∀ (l : List BreakableBlockInfo) (s : State),
      (updateBlockBreakingLoop ts l s).1 =
        (l.filter (fun e => decide (¬ fsub e.delay ts ≤ 0))).map
          (fun e => { e with delay := fsub e.delay ts }) := by
  intro l
  induction l with
  | nil => intro s; rfl
  | cons info rest ih =>
    intro s
    rw [updateBlockBreakingLoop]
    simp only []
    by_cases h0 : fsub info.delay ts ≤ 0
    · rw [if_pos h0, ih, List.filter_cons_of_neg (by simpa using h0)]
    · rw [if_neg h0, List.filter_cons_of_pos (by simpa using h0)]
      simp only [List.map_cons]
      rw [ih]

/-- The grid after the loop of `updateBlockBreaking`: a cell is 8 exactly where an entry
whose decremented delay is not positive names an in-bounds cell of kind 6; every other cell
is as before. -/
theorem updateBlockBreakingLoop_cell (ts : ℚ) :
    ∀ (l : List BreakableBlockInfo) (s : State) (x y : Int),
      (updateBlockBreakingLoop ts l s).2.grid x y =
        if (∃ e ∈ l, e.position = ⟨x, y⟩ ∧ fsub e.delay ts ≤ 0) ∧ ¬ outOfBounds ⟨x, y⟩ ∧
            s.grid x y = 6
        then 8 else s.grid x y := by
  intro l
  induction l with
  | nil => intro s x y; simp [updateBlockBreakingLoop]
  | cons info rest ih =>
    intro s x y
    rw [updateBlockBreakingLoop]
    simp only []
    by_cases h0 : fsub info.delay ts ≤ 0
    · rw [if_pos h0, ih]
      by_cases hxy : info.position = ⟨x, y⟩
      · have hx : info.position.x = x := by rw [hxy]
        have hy : info.position.y = y := by rw [hxy]
        by_cases hc : ¬ outOfBounds ⟨info.position.x, info.position.y⟩ ∧
            s.grid info.position.x info.position.y = 6
        · rw [if_pos hc, breakBlock_grid s _ _ hc]
          have hc' : ¬ outOfBounds ⟨x, y⟩ ∧ s.grid x y = 6 := by rw [← hx, ← hy]; exact hc
          have h8 : setCell s.grid info.position.x info.position.y 8 x y = 8 := by
            simp [setCell, hx, hy]
          rw [h8, if_neg (fun h => by have := h.2.2; omega),
            if_pos ⟨⟨info, List.mem_cons_self _ _, hxy, h0⟩, hc'⟩]
        · rw [if_neg hc]
          have hc' : ¬ (¬ outOfBounds ⟨x, y⟩ ∧ s.grid x y = 6) := by rw [← hx, ← hy]; exact hc
          rw [if_neg (fun h => hc' h.2), if_neg (fun h => hc' h.2)]
      · have hiff : (∃ e ∈ info :: rest, e.position = ⟨x, y⟩ ∧ fsub e.delay ts ≤ 0) ↔
            (∃ e ∈ rest, e.position = ⟨x, y⟩ ∧ fsub e.delay ts ≤ 0) := by
          constructor
          · rintro ⟨e, he, hp, hd⟩
            rcases List.mem_cons.1 he with h | h
            · rw [h] at hp; exact absurd hp hxy
            · exact ⟨e, h, hp, hd⟩
          · rintro ⟨e, he, hp, hd⟩
            exact ⟨e, List.mem_cons_of_mem _ he, hp, hd⟩
        have hsame : (if ¬ outOfBounds ⟨info.position.x, info.position.y⟩ ∧
            s.grid info.position.x info.position.y = 6
            then breakBlock s info.position.x info.position.y else s).grid x y = s.grid x y := by
          by_cases hc : ¬ outOfBounds ⟨info.position.x, info.position.y⟩ ∧
              s.grid info.position.x info.position.y = 6
          · rw [if_pos hc, breakBlock_grid s _ _ hc]
            have : ¬ (x = info.position.x ∧ y = info.position.y) := by
              rintro ⟨h1, h2⟩
              exact hxy (Vec2.ext h1.symm h2.symm)
            simp [setCell, this]
          · rw [if_neg hc]
        rw [hsame]
        simp only [hiff]
    · rw [if_neg h0]
      have hiff : (∃ e ∈ info :: rest, e.position = ⟨x, y⟩ ∧ fsub e.delay ts ≤ 0) ↔
          (∃ e ∈ rest, e.position = ⟨x, y⟩ ∧ fsub e.delay ts ≤ 0) := by
        constructor
        · rintro ⟨e, he, hp, hd⟩
          rcases List.mem_cons.1 he with h | h
          · rw [h] at hd; exact absurd hd h0
          · exact ⟨e, h, hp, hd⟩
        · rintro ⟨e, he, hp, hd⟩
          exact ⟨e, List.mem_cons_of_mem _ he, hp, hd⟩
      simp only []
      rw [ih]
      simp only [hiff]

/-- One frame of `updateBlockBreaking` on a break list in order, entry by entry: an entry
whose decremented delay is not positive is dropped and its cell becomes 8; every other entry
stays, with the decremented delay, and its cell is still 6. -/
theorem updateBlockBreaking_entry (ts : ℚ) (t : State) (hinv : BreakInv t)
    (e : BreakableBlockInfo) (he : e ∈ t.blocksToBreak) :
    (fsub e.delay ts ≤ 0 →
      (updateBlockBreaking ts t).grid e.position.x e.position.y = 8 ∧
        e.position ∉ (updateBlockBreaking ts t).blocksToBreak.map (fun i => i.position)) ∧
    (¬ fsub e.delay ts ≤ 0 →
      (updateBlockBreaking ts t).grid e.position.x e.position.y = 6 ∧
        (⟨e.position, fsub e.delay ts⟩ : BreakableBlockInfo) ∈
          (updateBlockBreaking ts t).blocksToBreak) := by
  have hg : ∀ x y, (updateBlockBreaking ts t).grid x y =
      (updateBlockBreakingLoop ts t.blocksToBreak t).2.grid x y := fun _ _ => rfl
  have hl : (updateBlockBreaking ts t).blocksToBreak =
      (updateBlockBreakingLoop ts t.blocksToBreak t).1 := rfl
  obtain ⟨hin, h6⟩ := hinv.2 e.position (List.mem_map.2 ⟨e, he, rfl⟩)
  have huniq : ∀ e' ∈ t.blocksToBreak, e'.position = e.position → e' = e :=
    fun e' he' hp => List.inj_on_of_nodup_map hinv.1 he' he hp
  rw [hg, hl, updateBlockBreakingLoop_cell, updateBlockBreakingLoop_kept]
  constructor
  · intro hd
    refine ⟨?_, ?_⟩
    · rw [if_pos ⟨⟨e, he, rfl, hd⟩, hin, h6⟩]
    · intro hm
      simp only [List.map_map, List.mem_map, List.mem_filter, Function.comp,
        decide_eq_true_eq] at hm
      obtain ⟨e', ⟨he', hnd⟩, hp⟩ := hm
      rw [huniq e' he' hp] at hnd
      exact hnd hd
  · intro hd
    refine ⟨?_, ?_⟩
    · rw [if_neg, h6]
      rintro ⟨⟨e', he', hp, hd'⟩, -⟩
      rw [huniq e' he' hp] at hd'
      exact hd hd'
    · refine List.mem_map.2 ⟨e, List.mem_filter.2 ⟨he, by simpa using hd⟩, rfl⟩

/-- Claim C23, as stated, fails: in Scenario D as a squeeze the resolution records (2,2)
for breaking and heavy slides across it, yet when `calculateMovementTargets` returns the
cell still has kind 6.  It still has kind 6 after a frame of 0.1 s of `updateBlockBreaking`
and kind 8 after a frame of 0.2 s; with frames of 1/60 s it still has kind 6 after twelve
frames and kind 8 after the thirteenth. -/
theorem C23_counterexample :
    (calculateMovementTargets 11 scenarioDSqueeze).map (fun s' =>
      decide (s'.blocksToBreak.map (fun e => e.position) = [⟨2, 2⟩] ∧
        s'.polarBearTarget = ⟨2, 10⟩ ∧ s'.grid 2 2 = 6 ∧
        (updateBlockBreaking (1 / 10) s').grid 2 2 = 6 ∧
        (updateBlockBreaking (1 / 5) s').grid 2 2 = 8 ∧
        ((List.replicate 12 (1 / 60 : ℚ)).foldl (fun t ts => updateBlockBreaking ts t) s').grid
          2 2 = 6 ∧
        ((List.replicate 13 (1 / 60 : ℚ)).foldl (fun t ts => updateBlockBreaking ts t) s').grid
          2 2 = 8)) = some true := by
  decide!

/-- Claim C23, amended.  When a slide consumes a Breakable cell the coordinate is recorded
with the delay `0.2f` and the grid is left unchanged: when `calculateMovementTargets`
returns, every coordinate it recorded is an in-bounds cell that still has kind 6, and a
break list in order (no coordinate twice, only in-bounds cells of kind 6) is still in order.
The flip to Passable (8) is made by `updateBlockBreaking`, which runs at the end of every
frame: in a frame with timestep `ts`, on every state with a break list in order, an entry
whose delay minus `ts` (a `float` subtraction) is not positive is dropped and its cell turns
8, and every other entry stays listed with the decremented delay, its cell still 6.  So
after a single frame of at least `0.2f` following the resolution every recorded cell has
kind 8, provided the break list was in order and no entry had a delay above `0.2f` before. -/
theorem C23_grid_flips_after_delay (fuel : Nat) (s : State) (hf : 11 ≤ fuel)
    (hd : isUnitDirection s.moveDirection)
    (hb : ¬ outOfBounds s.polarBearGridPos) (hp : ¬ outOfBounds s.penguinGridPos) :
    (∃ s', calculateMovementTargets fuel s = some s' ∧ s'.grid = s.grid ∧
      (∀ e ∈ s'.blocksToBreak, e ∉ s.blocksToBreak →
        e.delay = BREAK_DELAY ∧ ¬ outOfBounds e.position ∧
          s'.grid e.position.x e.position.y = 6) ∧
      (BreakInv s → BreakInv s') ∧
      (BreakInv s → (∀ e ∈ s.blocksToBreak, e.delay ≤ BREAK_DELAY) →
        ∀ ts, BREAK_DELAY ≤ ts → ∀ p ∈ s'.blocksToBreak.map (fun e => e.position),
          (updateBlockBreaking ts s').grid p.x p.y = 8)) ∧
    (∀ (t : State) (ts : ℚ), BreakInv t → ∀ e ∈ t.blocksToBreak,
      (fsub e.delay ts ≤ 0 →
        (updateBlockBreaking ts t).grid e.position.x e.position.y = 8 ∧
          e.position ∉ (updateBlockBreaking ts t).blocksToBreak.map (fun i => i.position)) ∧
      (¬ fsub e.delay ts ≤ 0 →
        (updateBlockBreaking ts t).grid e.position.x e.position.y = 6 ∧
          (⟨e.position, fsub e.delay ts⟩ : BreakableBlockInfo) ∈
            (updateBlockBreaking ts t).blocksToBreak)) := by
  refine ⟨?_, fun t ts hinv e he => updateBlockBreaking_entry ts t hinv e he⟩
  rcases hr : calculateMovementTargets fuel s with _ | s'
  · exact absurd hr (calculateMovementTargets_ne_none fuel s hd hb hp hf)
  have hg : s'.grid = s.grid := (calculateMovementTargets_frame hr).1
  obtain ⟨-, h2, -⟩ := calculateMovementTargets_btb hr
  refine ⟨s', rfl, hg, fun e he hne => ?_, fun hinv => calculateMovementTargets_inv hr hinv,
    fun hinv hdl ts hts p hp' => ?_⟩
  · rcases h2 e he with h | h
    · exact absurd h hne
    · rw [hg]; exact h
  · have hinv' := calculateMovementTargets_inv hr hinv
    obtain ⟨hin, h6⟩ := hinv'.2 p hp'
    refine updateBlockBreaking_grid ts s' (fun e he => ?_) p hp' hin h6
    rcases h2 e he with h | ⟨h, -⟩
    · exact le_trans (hdl e h) hts
    · rw [h]; exact hts

theorem C23_witness :
    (∃ s', calculateMovementTargets 11 scenarioDSqueeze = some s' ∧
      s'.grid = scenarioDSqueeze.grid ∧
      (∀ e ∈ s'.blocksToBreak, e ∉ scenarioDSqueeze.blocksToBreak →
        e.delay = BREAK_DELAY ∧ ¬ outOfBounds e.position ∧
          s'.grid e.position.x e.position.y = 6) ∧
      (BreakInv scenarioDSqueeze → BreakInv s') ∧
      (BreakInv scenarioDSqueeze →
        (∀ e ∈ scenarioDSqueeze.blocksToBreak, e.delay ≤ BREAK_DELAY) →
        ∀ ts, BREAK_DELAY ≤ ts → ∀ p ∈ s'.blocksToBreak.map (fun e => e.position),
          (updateBlockBreaking ts s').grid p.x p.y = 8)) ∧
    (∀ (t : State) (ts : ℚ), BreakInv t → ∀ e ∈ t.blocksToBreak,
      (fsub e.delay ts ≤ 0 →
        (updateBlockBreaking ts t).grid e.position.x e.position.y = 8 ∧
          e.position ∉ (updateBlockBreaking ts t).blocksToBreak.map (fun i => i.position)) ∧
      (¬ fsub e.delay ts ≤ 0 →
        (updateBlockBreaking ts t).grid e.position.x e.position.y = 6 ∧
          (⟨e.position, fsub e.delay ts⟩ : BreakableBlockInfo) ∈
            (updateBlockBreaking ts t).blocksToBreak)) :=
  C23_grid_flips_after_delay 11 scenarioDSqueeze (by decide) (by decide) (by decide)
    (by decide)

theorem update_finish {fuel : Nat} {ts : ℚ} {swipe : Option Vec2} {c : Bool} {s s' : State}
    (h : update fuel ts swipe c s = some s') (hinv : FinishInv s) :
    FinishInv s' ∧ (s.bearFinished = true → s'.bearFinished = true) ∧
      (s.penguinFinished = true → s'.penguinFinished = true) ∧
      s'.bearFinishBlocks = s.bearFinishBlocks ∧
      s'.penguinFinishBlocks = s.penguinFinishBlocks := by
  obtain ⟨s1, hs', hs1⟩ := update_some h
  obtain ⟨wd, hw, wc, hwd⟩ := updateWinDelay_frame ts s
  obtain ⟨g, bb, btb, hbb, -⟩ := updateBlockBreaking_eq ts s1
  have key : FinishInv s1 ∧ (s.bearFinished = true → s1.bearFinished = true) ∧
      (s.penguinFinished = true → s1.penguinFinished = true) ∧
      s1.bearFinishBlocks = s.bearFinishBlocks ∧
      s1.penguinFinishBlocks = s.penguinFinishBlocks := by
    rcases hs1 with h1 | ⟨-, h1⟩ | ⟨-, d, h1⟩
    · rw [h1, hwd]
      exact ⟨hinv, fun h => h, fun h => h, rfl, rfl⟩
    · rw [h1, hwd]
      cases c
      · exact ⟨hinv, fun h => h, fun h => h, rfl, rfl⟩
      · obtain ⟨f1, f2⟩ := updateMovement_finished
          { s with winDelay := wd, hasWon := hw, winConditionMet := wc }
        obtain ⟨p1, p2⟩ := updateMovement_pos
          { s with winDelay := wd, hasWon := hw, winConditionMet := wc }
        obtain ⟨-, -, l1, l2⟩ := updateMovement_frame true
          { s with winDelay := wd, hasWon := hw, winConditionMet := wc }
        refine ⟨⟨fun hf => ?_, fun hf => ?_⟩, fun hf => ?_, fun hf => ?_, l1, l2⟩
        · rw [l1]
          rw [f1] at hf
          exact (any_pos_iff_mem _ _).1 hf
        · rw [l2]
          rw [f2] at hf
          exact (any_pos_iff_mem _ _).1 hf
        · rw [f1, p1]
          simp only [hf, Bool.true_eq_false, if_false]
          exact (any_pos_iff_mem _ _).2 (hinv.1 hf)
        · rw [f2, p2]
          simp only [hf, Bool.true_eq_false, if_false]
          exact (any_pos_iff_mem _ _).2 (hinv.2 hf)
    · obtain ⟨-, q1, q2, q3, q4, q5, q6, -⟩ := calculateMovementTargets_frame h1
      rw [hwd] at q1 q2 q3 q4 q5 q6
      simp only [] at q1 q2 q3 q4 q5 q6
      refine ⟨⟨fun hf => ?_, fun hf => ?_⟩, fun hf => ?_, fun hf => ?_, q5, q6⟩
      · rw [q1, q5]; rw [q3] at hf; exact hinv.1 hf
      · rw [q2, q6]; rw [q4] at hf; exact hinv.2 hf
      · rw [q3]; exact hf
      · rw [q4]; exact hf
  rw [hs', hbb]
  exact key

/-- Claim C25.  After every completed move each character's finished flag is true exactly
when its position is in its own finish-tile list.  A flag that is true stays true for the
rest of the attempt: the flags are false after a level load, and along every run of frames
of `update` without restart, from a state in which a set flag means standing on a listed
finish tile, that property is kept and a set flag stays set. -/
theorem C25_finished_flags :
    (∀ s : State,
      ((updateMovement true s).bearFinished = true ↔
        (updateMovement true s).polarBearGridPos ∈ (updateMovement true s).bearFinishBlocks) ∧
      ((updateMovement true s).penguinFinished = true ↔
        (updateMovement true s).penguinGridPos ∈
          (updateMovement true s).penguinFinishBlocks)) ∧
    (∀ (loadLevel : Int → LevelData) (levelNum : Int) (s : State),
      FinishInv (loadLevelData loadLevel levelNum s)) ∧
    (∀ (fuel : Nat) (loadLevel : Int → LevelData) (events : List Event) (s s' : State),
      allTicks events = true → FinishInv s → runEvents fuel loadLevel s events = some s' →
      FinishInv s' ∧ (s.bearFinished = true → s'.bearFinished = true) ∧
        (s.penguinFinished = true → s'.penguinFinished = true)) := by
  refine ⟨fun s => ?_, fun loadLevel n s => ?_, fun fuel loadLevel events s s' ht hinv h => ?_⟩
  · obtain ⟨f1, f2⟩ := updateMovement_finished s
    obtain ⟨-, -, l1, l2⟩ := updateMovement_frame true s
    rw [l1, l2, f1, f2]
    exact ⟨any_pos_iff_mem _ _, any_pos_iff_mem _ _⟩
  · exact ⟨fun hf => Bool.noConfusion hf, fun hf => Bool.noConfusion hf⟩
  · exact runEvents_ticks_rel
      (fun a b => FinishInv a → FinishInv b ∧ (a.bearFinished = true → b.bearFinished = true) ∧
        (a.penguinFinished = true → b.penguinFinished = true))
      (fun _ hi => ⟨hi, fun x => x, fun x => x⟩)
      (fun _ _ _ h1 h2 hi =>
        ⟨(h2 (h1 hi).1).1, fun x => (h2 (h1 hi).1).2.1 ((h1 hi).2.1 x),
          fun x => (h2 (h1 hi).1).2.2 ((h1 hi).2.2 x)⟩)
      (fun _ _ _ _ _ hu hi => ⟨(update_finish hu hi).1, (update_finish hu hi).2.1,
        (update_finish hu hi).2.2.1⟩) events s s' ht h hinv

/-- Claim C26, as stated, fails: in `laneExample` the heavy character, moving right from
(0,5), enters its own lane tile (3,5) and slides on to (6,5); `slide` and `computeTarget`
from (0,5) return (6,5) as well. -/
theorem C26_counterexample :
    laneExample.grid 3 5 = 2 ∧
      (moveCharacters 11 laneExample ⟨1, 0⟩).map (fun s' => s'.polarBearTarget) =
        some ⟨6, 5⟩ ∧
      (slide 11 laneExample ⟨0, 5⟩ false true ⟨1, 0⟩).map (fun r => r.1) = some ⟨6, 5⟩ ∧
      (computeTarget 11 laneExample ⟨0, 5⟩ false false ⟨1, 0⟩ ⟨0, 0⟩ NO_TARGET).map
        (fun r => r.1) = some ⟨6, 5⟩ := by
  decide

/-- Claim C26, amended.  A lane tile does not terminate the slide of its own character: the
character passes over it as over an Empty cell.  `slide` and `computeTarget` return the end
of the walk that `PathLen` describes: through cells that may be entered (never a lane tile of
the other character), up to the own finish tile or the last cell before one that may not be
entered.  An own lane tile (kind 2 for heavy, 3 for light) that is not in the finish list
and is reached by the walk is entered (`j ≤ k`) and left again when the next cell may be
entered (`j + 1 ≤ k`).  Whenever `slide` or `computeTarget` ends on such a tile, it ended
there because the following cell could not be entered. -/
theorem C26_lane_tile_no_stop (fuel : Nat) (s : State) (start : Vec2)
    (isPenguin canBreak : Bool) (d otherStart otherTarget : Vec2) (hd : isUnitDirection d)
    (hs : ¬ outOfBounds start) (hf : 11 ≤ fuel) :
    (∃ t s' k, slide fuel s start isPenguin canBreak d = some (t, s') ∧
      t = start.steps d k ∧
      (s.grid t.x t.y = (if isPenguin then 3 else 2) →
        finishBlockAt (ownFinishBlocks s isPenguin) t = false →
        ¬ enterable s isPenguin (t + d)) ∧
      PathLen (enterable s isPenguin) (slideHalt s isPenguin canBreak) d start t k ∧
      (∀ j, 1 ≤ j →
        s.grid (start.steps d j).x (start.steps d j).y = (if isPenguin then 3 else 2) →
        finishBlockAt (ownFinishBlocks s isPenguin) (start.steps d j) = false →
        (∀ i, 1 ≤ i → i ≤ j → enterable s isPenguin (start.steps d i)) →
        (∀ i, 1 ≤ i → i < j → ¬ slideHalt s isPenguin canBreak (start.steps d i)) →
        j ≤ k ∧ (enterable s isPenguin (start.steps d (j + 1)) → j + 1 ≤ k))) ∧
    (∃ t s' k, computeTarget fuel s start isPenguin canBreak d otherStart otherTarget =
        some (t, s') ∧
      t = start.steps d k ∧
      (s.grid t.x t.y = (if isPenguin then 3 else 2) →
        finishBlockAt (ownFinishBlocks s isPenguin) t = false →
        ¬ targetOk s isPenguin canBreak d otherStart otherTarget (t + d)) ∧
      PathLen (targetOk s isPenguin canBreak d otherStart otherTarget)
        (targetHalt s isPenguin) d start t k ∧
      (∀ j, 1 ≤ j →
        s.grid (start.steps d j).x (start.steps d j).y = (if isPenguin then 3 else 2) →
        finishBlockAt (ownFinishBlocks s isPenguin) (start.steps d j) = false →
        (∀ i, 1 ≤ i → i ≤ j →
          targetOk s isPenguin canBreak d otherStart otherTarget (start.steps d i)) →
        (∀ i, 1 ≤ i → i < j → ¬ targetHalt s isPenguin (start.steps d i)) →
        j ≤ k ∧
          (targetOk s isPenguin canBreak d otherStart otherTarget (start.steps d (j + 1)) →
            j + 1 ≤ k))) := by
  constructor
  · obtain ⟨t, btb, k, h, hp, -⟩ := slide_spec fuel s start isPenguin canBreak hd hs hf
    refine ⟨t, _, k, h, hp.1, fun hl hfin => ?_, hp, fun j hj hl hfin hok hnh => ?_⟩
    · rcases hp.2.2.2 with ⟨-, hh⟩ | hh
      · rcases hh with hh | ⟨-, h6⟩
        · rw [hfin] at hh; cases hh
        · rw [h6] at hl
          cases isPenguin <;> simp at hl
      · exact hh
    · have hr := hp.reaches j hok hnh
      refine ⟨hr.1, fun hn => hr.2 ?_ hn⟩
      rintro (hh | ⟨-, h6⟩)
      · rw [hfin] at hh; cases hh
      · rw [h6] at hl
        cases isPenguin <;> simp at hl
  · obtain ⟨t, btb, k, h, hp, -⟩ :=
      computeTarget_spec fuel s start isPenguin canBreak otherStart otherTarget hd hs hf
    refine ⟨t, _, k, h, hp.1, fun hl hfin => ?_, hp, fun j hj hl hfin hok hnh => ?_⟩
    · rcases hp.2.2.2 with ⟨-, hh⟩ | hh
      · unfold targetHalt at hh
        rw [hfin] at hh; cases hh
      · exact hh
    · have hr := hp.reaches j hok hnh
      refine ⟨hr.1, fun hn => hr.2 ?_ hn⟩
      intro hh
      unfold targetHalt at hh
      rw [hfin] at hh; cases hh

theorem C26_witness :
    (∃ t s' k, slide 11 laneExample ⟨0, 5⟩ false true ⟨1, 0⟩ = some (t, s') ∧
      t = (⟨0, 5⟩ : Vec2).steps ⟨1, 0⟩ k ∧
      (laneExample.grid t.x t.y = (if false then 3 else 2) →
        finishBlockAt (ownFinishBlocks laneExample false) t = false →
        ¬ enterable laneExample false (t + ⟨1, 0⟩)) ∧
      PathLen (enterable laneExample false) (slideHalt laneExample false true) ⟨1, 0⟩ ⟨0, 5⟩ t
        k ∧
      (∀ j, 1 ≤ j →
        laneExample.grid ((⟨0, 5⟩ : Vec2).steps ⟨1, 0⟩ j).x ((⟨0, 5⟩ : Vec2).steps ⟨1, 0⟩ j).y =
          (if false then 3 else 2) →
        finishBlockAt (ownFinishBlocks laneExample false) ((⟨0, 5⟩ : Vec2).steps ⟨1, 0⟩ j) =
          false →
        (∀ i, 1 ≤ i → i ≤ j → enterable laneExample false ((⟨0, 5⟩ : Vec2).steps ⟨1, 0⟩ i)) →
        (∀ i, 1 ≤ i → i < j →
          ¬ slideHalt laneExample false true ((⟨0, 5⟩ : Vec2).steps ⟨1, 0⟩ i)) →
        j ≤ k ∧
          (enterable laneExample false ((⟨0, 5⟩ : Vec2).steps ⟨1, 0⟩ (j + 1)) → j + 1 ≤ k))) ∧
    (∃ t s' k, computeTarget 11 laneExample ⟨0, 5⟩ false true ⟨1, 0⟩ ⟨0, 0⟩ NO_TARGET =
        some (t, s') ∧
      t = (⟨0, 5⟩ : Vec2).steps ⟨1, 0⟩ k ∧
      (laneExample.grid t.x t.y = (if false then 3 else 2) →
        finishBlockAt (ownFinishBlocks laneExample false) t = false →
        ¬ targetOk laneExample false true ⟨1, 0⟩ ⟨0, 0⟩ NO_TARGET (t + ⟨1, 0⟩)) ∧
      PathLen (targetOk laneExample false true ⟨1, 0⟩ ⟨0, 0⟩ NO_TARGET)
        (targetHalt laneExample false) ⟨1, 0⟩ ⟨0, 5⟩ t k ∧
      (∀ j, 1 ≤ j →
        laneExample.grid ((⟨0, 5⟩ : Vec2).steps ⟨1, 0⟩ j).x ((⟨0, 5⟩ : Vec2).steps ⟨1, 0⟩ j).y =
          (if false then 3 else 2) →
        finishBlockAt (ownFinishBlocks laneExample false) ((⟨0, 5⟩ : Vec2).steps ⟨1, 0⟩ j) =
          false →
        (∀ i, 1 ≤ i → i ≤ j →
          targetOk laneExample false true ⟨1, 0⟩ ⟨0, 0⟩ NO_TARGET
            ((⟨0, 5⟩ : Vec2).steps ⟨1, 0⟩ i)) →
        (∀ i, 1 ≤ i → i < j →
          ¬ targetHalt laneExample false ((⟨0, 5⟩ : Vec2).steps ⟨1, 0⟩ i)) →
        j ≤ k ∧
          (targetOk laneExample false true ⟨1, 0⟩ ⟨0, 0⟩ NO_TARGET
            ((⟨0, 5⟩ : Vec2).steps ⟨1, 0⟩ (j + 1)) → j + 1 ≤ k))) :=
  C26_lane_tile_no_stop 11 laneExample ⟨0, 5⟩ false true ⟨1, 0⟩ ⟨0, 0⟩ NO_TARGET (by decide)
    (by decide) (by decide)

theorem steps_back_one (r d : Vec2) {k : Nat} (hk : 1 ≤ k) :
    (r + d).steps (-d) k = r.steps (-d) (k - 1) := by
  obtain ⟨k, rfl⟩ : ∃ j, k = j + 1 := ⟨k - 1, by omega⟩
  ext
  · simp only [Vec2.steps_x, Vec2.add_x, Vec2.neg_x, Nat.add_sub_cancel]
    push_cast; ring
  · simp only [Vec2.steps_y, Vec2.add_y, Vec2.neg_y, Nat.add_sub_cancel]
    push_cast; ring

theorem steps_forth_one (r d : Vec2) {k : Nat} (hk : 1 ≤ k) :
    r.steps d k = (r + d).steps d (k - 1) := by
  obtain ⟨k, rfl⟩ : ∃ j, k = j + 1 := ⟨k - 1, by omega⟩
  ext
  · simp only [Vec2.steps_x, Vec2.add_x, Nat.add_sub_cancel]
    push_cast; ring
  · simp only [Vec2.steps_y, Vec2.add_y, Nat.add_sub_cancel]
    push_cast; ring

/-- Claim C28.  In a confirmed squeeze with both characters unfinished, each on a cell it
may occupy, the characters pass through each other and swap order along the axis: the front
character (whose `isPenguin` flag is `fc`) slides against the direction across the rear
character's start, ending `kf - 1 ≥ 0` cells behind it, the rear character slides along the
direction across the front character's start, ending `kr - 1 ≥ 0` cells beyond it, and each
walk stops only at an own finish tile or in front of a cell that cannot be entered: the other
character is no obstacle. -/
theorem C28_squeeze_swaps (fuel : Nat) (s : State) (hf : 11 ≤ fuel)
    (hd : isUnitDirection s.moveDirection)
    (hb : ¬ outOfBounds s.polarBearGridPos) (hp : ¬ outOfBounds s.penguinGridPos)
    (hbf : s.bearFinished = false) (hpf : s.penguinFinished = false)
    (hsq : (checkForSqueeze s).1 = true)
    (heb : enterable s false s.polarBearGridPos) (hep : enterable s true s.penguinGridPos) :
    ∃ s' fc kf kr, calculateMovementTargets fuel s = some s' ∧
      fc = (!decide (bearIsFront s s.moveDirection)) ∧
      s.posOf fc = s.posOf (!fc) + s.moveDirection ∧ 1 ≤ kf ∧ 1 ≤ kr ∧
      s'.targetOf fc = (s.posOf (!fc)).steps (-s.moveDirection) (kf - 1) ∧
      s'.targetOf (!fc) = (s.posOf fc).steps s.moveDirection (kr - 1) ∧
      PathLen (enterable s fc) (slideHalt s fc true) (-s.moveDirection) (s.posOf fc)
        (s'.targetOf fc) kf ∧
      PathLen (enterable s (!fc)) (slideHalt s (!fc) true) s.moveDirection (s.posOf (!fc))
        (s'.targetOf (!fc)) kr := by
  rcases hr : calculateMovementTargets fuel s with _ | s'
  · exact absurd hr (calculateMovementTargets_ne_none fuel s hd hb hp hf)
  have hnf : ¬ (s.bearFinished = true ∧ s.penguinFinished = true) := by
    rw [hbf]; simp
  obtain ⟨ft, rt, kf, kr, btb1, hp1, hp2, ht1, ht2, -, -⟩ := squeeze_outcome hd hr hnf hsq
  obtain ⟨hadj, -, hanch⟩ := (checkForSqueeze_true_iff s hd).1 hsq
  have hfr := front_eq_rear_add hd hadj
  have hfin : ∀ c, s.finishedOf c = false := by
    intro c; cases c
    · exact hbf
    · exact hpf
  rw [hfin, if_pos rfl] at ht1 ht2
  have hent : ∀ c, enterable s c (s.posOf (!c)) := by
    unfold anchored at hanch
    push_neg at hanch
    intro c; cases c
    · exact ⟨hep.1, hep.2.1, hep.2.2.1, fun h => Bool.noConfusion h,
        fun _ => ⟨hanch.2.2.1, hanch.2.2.2⟩⟩
    · exact ⟨heb.1, heb.2.1, heb.2.2.1, fun _ => ⟨hanch.1, hanch.2.1⟩,
        fun h => Bool.noConfusion h⟩
  have hkf : 1 ≤ kf := by
    apply hp1.pos
    rw [hfr]
    have := hent (!decide (bearIsFront s s.moveDirection))
    rw [Bool.not_not] at this
    have e : s.posOf (decide (bearIsFront s s.moveDirection)) + s.moveDirection +
        -s.moveDirection = s.posOf (decide (bearIsFront s s.moveDirection)) := by
      ext <;> simp [Vec2.add_x, Vec2.add_y, Vec2.neg_x, Vec2.neg_y]
    rw [e]
    exact this
  have hkr : 1 ≤ kr := by
    apply hp2.pos
    rw [← hfr]
    exact hent (decide (bearIsFront s s.moveDirection))
  refine ⟨s', !decide (bearIsFront s s.moveDirection), kf, kr, rfl, rfl, ?_, hkf, hkr, ?_, ?_,
    ?_, ?_⟩
  · rw [Bool.not_not]; exact hfr
  · rw [Bool.not_not, ht1, hp1.1, hfr]
    exact steps_back_one _ _ hkf
  · rw [Bool.not_not, ht2, hp2.1, hfr]
    exact steps_forth_one _ _ hkr
  · rw [ht1]; exact hp1
  · rw [Bool.not_not, ht2]; exact hp2

theorem slideLoop_congr (s : State) (g' : Grid) (isPenguin canBreak : Bool) (d : Vec2)
    (H : ∀ p, ¬ outOfBounds p → GridAgree s.grid g' p) :
    ∀ (n : Nat) (curr : Vec2) (btb : List BreakableBlockInfo),
      slideLoop { s with grid := g' } isPenguin canBreak d n curr btb =
        slideLoop s isPenguin canBreak d n curr btb := by
  intro n
  induction n with
  | zero => intro curr btb; rfl
  | succ n ih =>
    intro curr btb
    simp only [slideLoop, ih]
    by_cases hoob : outOfBounds (curr + d)
    · simp only [if_pos hoob]
    · obtain ⟨a1, a2, a3, a4⟩ := H _ hoob
      have hfin : ownFinishBlocks { s with grid := g' } isPenguin = ownFinishBlocks s isPenguin :=
        rfl
      simp only [if_neg hoob, a1, a2, a3, a4, hfin]

theorem computeTargetLoop_congr (s : State) (g' : Grid) (isPenguin canBreak : Bool)
    (d otherStart otherTarget : Vec2)
    (H : ∀ p, ¬ outOfBounds p → GridAgree s.grid g' p) :
    ∀ (n : Nat) (curr : Vec2) (btb : List BreakableBlockInfo),
      computeTargetLoop { s with grid := g' } isPenguin canBreak d otherStart otherTarget n
          curr btb =
        computeTargetLoop s isPenguin canBreak d otherStart otherTarget n curr btb := by
  intro n
  induction n with
  | zero => intro curr btb; rfl
  | succ n ih =>
    intro curr btb
    simp only [computeTargetLoop, ih]
    by_cases hoob : outOfBounds (curr + d)
    · simp only [if_pos hoob]
    · obtain ⟨a1, a2, a3, a4⟩ := H _ hoob
      have hfin : ownFinishBlocks { s with grid := g' } isPenguin = ownFinishBlocks s isPenguin :=
        rfl
      simp only [if_neg hoob, a1, a2, a3, a4, hfin]

theorem slide_congr (fuel : Nat) (s : State) (g' : Grid) (start : Vec2)
    (isPenguin canBreak : Bool) (d : Vec2)
    (H : ∀ p, ¬ outOfBounds p → GridAgree s.grid g' p) :
    slide fuel { s with grid := g' } start isPenguin canBreak d =
      (slide fuel s start isPenguin canBreak d).map (fun r => (r.1, { r.2 with grid := g' })) := by
  unfold slide
  rw [slideLoop_congr s g' isPenguin canBreak d H]
  simp only []
  cases slideLoop s isPenguin canBreak d fuel start s.blocksToBreak <;> rfl

theorem computeTarget_congr (fuel : Nat) (s : State) (g' : Grid) (start : Vec2)
    (isPenguin canBreak : Bool) (d otherStart otherTarget : Vec2)
    (H : ∀ p, ¬ outOfBounds p → GridAgree s.grid g' p) :
    computeTarget fuel { s with grid := g' } start isPenguin canBreak d otherStart otherTarget =
      (computeTarget fuel s start isPenguin canBreak d otherStart otherTarget).map
        (fun r => (r.1, { r.2 with grid := g' })) := by
  unfold computeTarget
  rw [computeTargetLoop_congr s g' isPenguin canBreak d otherStart otherTarget H]
  simp only []
  cases computeTargetLoop s isPenguin canBreak d otherStart otherTarget fuel start
    s.blocksToBreak <;> rfl

theorem checkFrontBlocked_congr (s : State) (g' : Grid) (b : Bool)
    (H : ∀ p, ¬ outOfBounds p → GridAgree s.grid g' p)
    (Hb : GridAgree s.grid g' s.polarBearGridPos) (Hp : GridAgree s.grid g' s.penguinGridPos) :
    checkFrontBlocked { s with grid := g' } b =
      ((checkFrontBlocked s b).1, { (checkFrontBlocked s b).2 with grid := g' }) := by
  have anch : (g' s.polarBearGridPos.x s.polarBearGridPos.y = 2 ∨
      g' s.polarBearGridPos.x s.polarBearGridPos.y = 4 ∨
      g' s.penguinGridPos.x s.penguinGridPos.y = 3 ∨
      g' s.penguinGridPos.x s.penguinGridPos.y = 5) ↔
      (s.grid s.polarBearGridPos.x s.polarBearGridPos.y = 2 ∨
      s.grid s.polarBearGridPos.x s.polarBearGridPos.y = 4 ∨
      s.grid s.penguinGridPos.x s.penguinGridPos.y = 3 ∨
      s.grid s.penguinGridPos.x s.penguinGridPos.y = 5) := by
    have h1 := Hb.2.1
    have h2 := Hp.2.2.1
    tauto
  unfold checkFrontBlocked checkNoSqueezeBlocks
  simp only []
  by_cases hoob : outOfBounds ((if b = true then s.polarBearGridPos else s.penguinGridPos) +
      s.moveDirection)
  · simp only [if_pos hoob, anch]
    split_ifs <;> rfl
  · obtain ⟨a1, a2, a3, a4⟩ := H _ hoob
    simp only [if_neg hoob, a1, a2, a3, a4]
    by_cases c6 : s.grid ((if b = true then s.polarBearGridPos else s.penguinGridPos) +
        s.moveDirection).x ((if b = true then s.polarBearGridPos else s.penguinGridPos) +
        s.moveDirection).y = 6
    · simp only [if_pos c6, anch]
      split_ifs <;> rfl
    · simp only [if_neg c6, anch]
      split_ifs <;> rfl

theorem checkForSqueeze_congr (s : State) (g' : Grid)
    (H : ∀ p, ¬ outOfBounds p → GridAgree s.grid g' p)
    (Hb : GridAgree s.grid g' s.polarBearGridPos) (Hp : GridAgree s.grid g' s.penguinGridPos) :
    checkForSqueeze { s with grid := g' } =
      ((checkForSqueeze s).1, { (checkForSqueeze s).2 with grid := g' }) := by
  unfold checkForSqueeze
  simp only []
  split_ifs <;> first | rfl | exact checkFrontBlocked_congr s g' _ H Hb Hp

theorem slide_grid {fuel : Nat} {s s1 : State} {start t : Vec2} {c cb : Bool} {d : Vec2}
    (h : slide fuel s start c cb d = some (t, s1)) : s1.grid = s.grid := by
  unfold slide at h
  rcases hl : slideLoop s c cb d fuel start s.blocksToBreak with _ | r
  · rw [hl] at h; cases h
  · rw [hl] at h
    simp only [Option.map_some', Option.some.injEq, Prod.mk.injEq] at h
    rw [← h.2]

theorem calculateSqueezeTargets_congr (fuel : Nat) (s : State) (g' : Grid)
    (H : ∀ p, ¬ outOfBounds p → GridAgree s.grid g' p) :
    calculateSqueezeTargets fuel { s with grid := g' } =
      (calculateSqueezeTargets fuel s).map (fun r => { r with grid := g' }) := by
  unfold calculateSqueezeTargets
  simp only []
  rw [slide_congr fuel { s with bearIsBeingPushed := !s.polarBearIsRear } g' _ _ _ _ H]
  rcases h1 : slide fuel { s with bearIsBeingPushed := !s.polarBearIsRear }
      (if (!s.polarBearIsRear) = true then s.polarBearGridPos else s.penguinGridPos)
      (!!s.polarBearIsRear) true (-s.moveDirection) with _ | ⟨ft, s1⟩
  · rfl
  · have H1 : ∀ p, ¬ outOfBounds p → GridAgree s1.grid g' p := by
      rw [slide_grid h1]; exact H
    simp only [Option.map_some']
    rw [slide_congr fuel s1 g' _ _ _ _ H1]
    rcases h2 : slide fuel s1
        (if (!s.polarBearIsRear) = true then s.penguinGridPos else s.polarBearGridPos)
        (!!!s.polarBearIsRear) true s1.moveDirection with _ | ⟨rt, s2⟩
    · rfl
    · simp only [Option.map_some']
      split_ifs <;> rfl

theorem computeTarget_grid {fuel : Nat} {s s1 : State} {start t : Vec2} {c cb : Bool}
    {d o1 o2 : Vec2} (h : computeTarget fuel s start c cb d o1 o2 = some (t, s1)) :
    s1.grid = s.grid := by
  unfold computeTarget at h
  rcases hl : computeTargetLoop s c cb d o1 o2 fuel start s.blocksToBreak with _ | r
  · rw [hl] at h; cases h
  · rw [hl] at h
    simp only [Option.map_some', Option.some.injEq, Prod.mk.injEq] at h
    rw [← h.2]

theorem calculateStandardTargets_congr (fuel : Nat) (s : State) (g' : Grid)
    (H : ∀ p, ¬ outOfBounds p → GridAgree s.grid g' p) :
    calculateStandardTargets fuel { s with grid := g' } =
      (calculateStandardTargets fuel s).map (fun r => { r with grid := g' }) := by
  unfold calculateStandardTargets
  simp only []
  have hfr : standardBearInFront { s with grid := g' } = standardBearInFront s := rfl
  rw [hfr, computeTarget_congr fuel s g' _ _ _ _ _ _ H]
  rcases hb : standardBearInFront s with _ | _
  all_goals
    simp only [Bool.false_eq_true, Bool.true_eq_false, if_false, if_true, Bool.not_false,
      Bool.not_true, and_true, and_false, not_true_eq_false, not_false_eq_true, true_and,
      false_and, and_self, Option.map_some']
  · by_cases c1 : s.penguinFinished = true
    · simp only [if_neg (not_not.2 c1)]
      by_cases c2 : s.bearFinished = true
      · simp only [if_neg (not_not.2 c2)]
        split_ifs <;> rfl
      · simp only [if_pos c2]
        rw [computeTarget_congr fuel s g' _ _ _ _ _ _ H]
        generalize h2 : computeTarget fuel _ _ _ _ _ _ _ = r2
        rcases r2 with _ | ⟨rt, s2⟩
        · rfl
        · simp only [Option.map_some']
          split_ifs <;> rfl
    · simp only [if_pos c1]
      generalize h1 : computeTarget fuel s _ _ _ _ _ _ = r1
      rcases r1 with _ | ⟨ft, s1⟩
      · rfl
      · simp only [Option.map_some']
        have H1 : ∀ p, ¬ outOfBounds p → GridAgree s1.grid g' p := by
          rw [computeTarget_grid h1]; exact H
        by_cases c2 : s1.bearFinished = true
        · simp only [if_neg (not_not.2 c2)]
          split_ifs <;> rfl
        · simp only [if_pos c2]
          rw [computeTarget_congr fuel { s1 with penguinTarget := ft } g' _ _ _ _ _ _ H1]
          generalize h2 : computeTarget fuel _ _ _ _ _ _ _ = r2
          rcases r2 with _ | ⟨rt, s2⟩
          · rfl
          · simp only [Option.map_some']
            split_ifs <;> rfl
  · by_cases c1 : s.bearFinished = true
    · simp only [if_neg (not_not.2 c1)]
      by_cases c2 : s.penguinFinished = true
      · simp only [if_neg (not_not.2 c2)]
        split_ifs <;> rfl
      · simp only [if_pos c2]
        rw [computeTarget_congr fuel s g' _ _ _ _ _ _ H]
        generalize h2 : computeTarget fuel _ _ _ _ _ _ _ = r2
        rcases r2 with _ | ⟨rt, s2⟩
        · rfl
        · simp only [Option.map_some']
          split_ifs <;> rfl
    · simp only [if_pos c1]
      generalize h1 : computeTarget fuel s _ _ _ _ _ _ = r1
      rcases r1 with _ | ⟨ft, s1⟩
      · rfl
      · simp only [Option.map_some']
        have H1 : ∀ p, ¬ outOfBounds p → GridAgree s1.grid g' p := by
          rw [computeTarget_grid h1]; exact H
        by_cases c2 : s1.penguinFinished = true
        · simp only [if_neg (not_not.2 c2)]
          split_ifs <;> rfl
        · simp only [if_pos c2]
          rw [computeTarget_congr fuel { s1 with polarBearTarget := ft } g' _ _ _ _ _ _ H1]
          generalize h2 : computeTarget fuel _ _ _ _ _ _ _ = r2
          rcases r2 with _ | ⟨rt, s2⟩
          · rfl
          · simp only [Option.map_some']
            split_ifs <;> rfl

/-- The resolver reads the grid only through the cell tests of `GridAgree`, at in-bounds
cells and at the two character positions: on a grid that agrees there, it returns the same
state with the other grid in place. -/
theorem calculateMovementTargets_congr (fuel : Nat) (s : State) (g' : Grid)
    (H : ∀ p, ¬ outOfBounds p → GridAgree s.grid g' p)
    (Hb : GridAgree s.grid g' s.polarBearGridPos) (Hp : GridAgree s.grid g' s.penguinGridPos) :
    calculateMovementTargets fuel { s with grid := g' } =
      (calculateMovementTargets fuel s).map (fun r => { r with grid := g' }) := by
  rw [calculateMovementTargets_eq, calculateMovementTargets_eq]
  rw [checkForSqueeze_congr s g' H Hb Hp]
  have hg : (checkForSqueeze s).2.grid = s.grid := by
    obtain ⟨_, _, h, _⟩ := checkForSqueeze_snd s
    rw [h]
  have H' : ∀ p, ¬ outOfBounds p → GridAgree (checkForSqueeze s).2.grid g' p := by
    rw [hg]; exact H
  by_cases h1 : s.bearFinished = true ∧ s.penguinFinished = true
  · rw [if_pos h1, if_pos (show ({ s with grid := g' } : State).bearFinished = true ∧
      ({ s with grid := g' } : State).penguinFinished = true from h1)]
    rfl
  · rw [if_neg h1, if_neg (show ¬ (({ s with grid := g' } : State).bearFinished = true ∧
      ({ s with grid := g' } : State).penguinFinished = true) from h1)]
    by_cases h2 : (checkForSqueeze s).1 = true
    · rw [if_pos h2, if_pos h2]
      exact calculateSqueezeTargets_congr fuel
        { initTargets (checkForSqueeze s).2 with squeezeJustOccurred := true } g' H'
    · rw [if_neg h2, if_neg h2]
      exact calculateStandardTargets_congr fuel
        { initTargets (checkForSqueeze s).2 with squeezeJustOccurred := false } g' H'

theorem gridAgree_of_class {g g' : Grid} {p : Vec2}
    (h : traversalClass (g' p.x p.y) = traversalClass (g p.x p.y)) : GridAgree g g' p := by
  unfold traversalClass at h
  unfold GridAgree
  split_ifs at h <;> omega

theorem gridAgree_of_eq {g g' : Grid} {p : Vec2} (h : g' p.x p.y = g p.x p.y) :
    GridAgree g g' p := by
  unfold GridAgree
  rw [h]
  exact ⟨Iff.rfl, Iff.rfl, Iff.rfl, Iff.rfl⟩

/-- Claim C24.  The resolution depends on a cell's kind only through its traversal class:
on a grid `g'` obtained by replacing Passable cells by Empty or Empty by Passable, and
Invisible by Wall or Wall by Invisible (every cell keeps its `traversalClass`), for every
state, stored direction and fuel, `checkForSqueeze` decides the same, and
`calculateMovementTargets` returns the same state with `g'` in place: the same squeeze flag,
the same two targets and the same break list. -/
theorem C24_traversal_class (fuel : Nat) (s : State) (g' : Grid)
    (h : ∀ x y, traversalClass (g' x y) = traversalClass (s.grid x y)) :
    (checkForSqueeze { s with grid := g' }).1 = (checkForSqueeze s).1 ∧
      calculateMovementTargets fuel { s with grid := g' } =
        (calculateMovementTargets fuel s).map (fun r => { r with grid := g' }) ∧
      (calculateMovementTargets fuel { s with grid := g' }).map
          (fun r => (r.squeezeJustOccurred, r.polarBearTarget, r.penguinTarget,
            r.blocksToBreak)) =
        (calculateMovementTargets fuel s).map
          (fun r => (r.squeezeJustOccurred, r.polarBearTarget, r.penguinTarget,
            r.blocksToBreak)) := by
  have H : ∀ p, GridAgree s.grid g' p := fun p => gridAgree_of_class (h p.x p.y)
  have hc := calculateMovementTargets_congr fuel s g' (fun p _ => H p) (H _) (H _)
  refine ⟨?_, hc, ?_⟩
  · rw [checkForSqueeze_congr s g' (fun p _ => H p) (H _) (H _)]
  · rw [hc]
    cases calculateMovementTargets fuel s <;> rfl

theorem C24_witness :
    (checkForSqueeze { scenarioB with grid := fun x y => if x = 5 ∧ y = 5 then 7 else 8 }).1 =
        (checkForSqueeze scenarioB).1 ∧
      calculateMovementTargets 11
          { scenarioB with grid := fun x y => if x = 5 ∧ y = 5 then 7 else 8 } =
        (calculateMovementTargets 11 scenarioB).map
          (fun r => { r with grid := fun x y => if x = 5 ∧ y = 5 then 7 else 8 }) ∧
      (calculateMovementTargets 11
          { scenarioB with grid := fun x y => if x = 5 ∧ y = 5 then 7 else 8 }).map
          (fun r => (r.squeezeJustOccurred, r.polarBearTarget, r.penguinTarget,
            r.blocksToBreak)) =
        (calculateMovementTargets 11 scenarioB).map
          (fun r => (r.squeezeJustOccurred, r.polarBearTarget, r.penguinTarget,
            r.blocksToBreak)) :=
  C24_traversal_class 11 scenarioB (fun x y => if x = 5 ∧ y = 5 then 7 else 8)
    (fun x y => by
      show traversalClass (if x = 5 ∧ y = 5 then 7 else 8) =
        traversalClass (if x = 5 ∧ y = 5 then 1 else 0)
      split_ifs <;> rfl)

/-- Claim C27, as stated, fails for a pair of equal positions: with both characters on (0,0)
and a wall at (1,0), the move to the right leaves both targets at (0,0), and the overlap
guard then sets the heavy target to (0,0) minus the direction, (-1,0), outside the grid. -/
theorem C27_counterexample :
    ¬ outOfBounds sharedCell.polarBearGridPos ∧ ¬ outOfBounds sharedCell.penguinGridPos ∧
      (calculateMovementTargets 11 sharedCell).map
        (fun s' => (s'.polarBearTarget, s'.penguinTarget)) = some (⟨-1, 0⟩, ⟨0, 0⟩) := by
  decide

/-- Claim C27, amended.  For every grid, every unit direction and every pair of distinct
in-bounds character positions, `calculateMovementTargets` returns, both targets lie inside
the grid, and no grid lookup uses an out-of-bounds index: the result is the same on every
grid that agrees with the given one on the in-bounds cells. -/
theorem C27_lookups_in_bounds (fuel : Nat) (s : State) (hf : 11 ≤ fuel)
    (hd : isUnitDirection s.moveDirection)
    (hb : ¬ outOfBounds s.polarBearGridPos) (hp : ¬ outOfBounds s.penguinGridPos)
    (hne : s.polarBearGridPos ≠ s.penguinGridPos) :
    ∃ s', calculateMovementTargets fuel s = some s' ∧
      ¬ outOfBounds s'.polarBearTarget ∧ ¬ outOfBounds s'.penguinTarget ∧
      ∀ g' : Grid, (∀ x y, ¬ outOfBounds ⟨x, y⟩ → g' x y = s.grid x y) →
        calculateMovementTargets fuel { s with grid := g' } = some { s' with grid := g' } := by
  rcases hr : calculateMovementTargets fuel s with _ | s'
  · exact absurd hr (calculateMovementTargets_ne_none fuel s hd hb hp hf)
  have hpos : ∀ c, ¬ outOfBounds (s.posOf c) := by
    intro c; cases c
    · exact hb
    · exact hp
  have htgt : ∀ c, ¬ outOfBounds (s'.targetOf c) := by
    by_cases hboth : s.bearFinished = true ∧ s.penguinFinished = true
    · intro c
      rw [both_finished_targets hr hboth c]
      exact hpos c
    · rcases hsq : (checkForSqueeze s).1 with _ | _
      · obtain ⟨ft, rt, kf, kr, h1, h2, h3, h4, -, ht1, ht2, -⟩ :=
          standard_outcome hr hboth hsq hne
        have hft : ¬ outOfBounds ft := by
          rcases hfin : s.finishedOf (!standardBearInFront s) with _ | _
          · exact steps_inBounds_of_last (h2 hfin) (fun p h => h.2.2.1.1) (hpos _)
          · rw [(h1 hfin).2]; exact hpos _
        have hrt : ¬ outOfBounds rt := by
          rcases hfin : s.finishedOf (standardBearInFront s) with _ | _
          · exact steps_inBounds_of_last (h4 hfin) (fun p h => h.2.2.1.1) (hpos _)
          · rw [(h3 hfin).2]; exact hpos _
        intro c
        rcases bool_eq_or_not (standardBearInFront s) c with hc | hc
        · rw [hc, ht2]; exact hrt
        · rw [hc, ht1]; exact hft
      · obtain ⟨ft, rt, kf, kr, btb1, hp1, hp2, ht1, ht2, -, -⟩ :=
          squeeze_outcome hd hr hboth hsq
        have hft : ¬ outOfBounds ft := steps_inBounds_of_last hp1 (fun p h => h.1) (hpos _)
        have hrt : ¬ outOfBounds rt := steps_inBounds_of_last hp2 (fun p h => h.1) (hpos _)
        intro c
        rcases bool_eq_or_not (decide (bearIsFront s s.moveDirection)) c with hc | hc
        · rw [hc, ht2]; split_ifs
          · exact hrt
          · exact hpos _
        · rw [hc, ht1]; split_ifs
          · exact hft
          · exact hpos _
  refine ⟨s', rfl, htgt false, htgt true, fun g' hg => ?_⟩
  rw [calculateMovementTargets_congr fuel s g'
    (fun p hp' => gridAgree_of_eq (hg p.x p.y hp'))
    (gridAgree_of_eq (hg _ _ hb)) (gridAgree_of_eq (hg _ _ hp)), hr]
  rfl

theorem C27_witness :
    ∃ s', calculateMovementTargets 11 scenarioB = some s' ∧
      ¬ outOfBounds s'.polarBearTarget ∧ ¬ outOfBounds s'.penguinTarget ∧
      ∀ g' : Grid, (∀ x y, ¬ outOfBounds ⟨x, y⟩ → g' x y = scenarioB.grid x y) →
        calculateMovementTargets 11 { scenarioB with grid := g' } =
          some { s' with grid := g' } :=
  C27_lookups_in_bounds 11 scenarioB (by decide) (by decide) (by decide) (by decide)
    (by decide)

theorem C28_witness :
    ∃ s' fc kf kr, calculateMovementTargets 11 scenarioB = some s' ∧
      fc = (!decide (bearIsFront scenarioB scenarioB.moveDirection)) ∧
      scenarioB.posOf fc = scenarioB.posOf (!fc) + scenarioB.moveDirection ∧ 1 ≤ kf ∧ 1 ≤ kr ∧
      s'.targetOf fc = (scenarioB.posOf (!fc)).steps (-scenarioB.moveDirection) (kf - 1) ∧
      s'.targetOf (!fc) = (scenarioB.posOf fc).steps scenarioB.moveDirection (kr - 1) ∧
      PathLen (enterable scenarioB fc) (slideHalt scenarioB fc true) (-scenarioB.moveDirection)
        (scenarioB.posOf fc) (s'.targetOf fc) kf ∧
      PathLen (enterable scenarioB (!fc)) (slideHalt scenarioB (!fc) true)
        scenarioB.moveDirection (scenarioB.posOf (!fc)) (s'.targetOf (!fc)) kr :=
  C28_squeeze_swaps 11 scenarioB (by decide) (by decide) (by decide) (by decide) (by decide)
    (by decide) (by decide) (by decide) (by decide)

end PolarPairs
